import Mathlib

/-!
# squashfs-tools-ng: directory reader and data writer

A shallow embedding of `lib/sqfs/dir_reader/dir_reader.c` and
`lib/sqfs/data_writer.c`.

Conventions of the embedding:

* a C function that mutates its arguments and returns an `int` becomes a
  function returning the `int` together with the mutated state;
* a memory region is a function from byte index to byte value (`Buf`);
* names are byte strings without the terminating NUL (`List Nat`);
* a loop whose termination depends on the data carries a fuel argument and
  returns `none` when the fuel runs out (the C loop would still be running);
* headers that are not part of the sources (`internal.h`, `sqfs/error.h`,
  `data_writer.h`, `fstree.h`, ...) are modelled from the specification and
  marked as such.

All definitions come first, the theorems follow.
-/

namespace Sqfs

/-! ## Part I: definitions -/

-- Structure updates are compiled without in-place reuse of the old value.
set_option compiler.reuse false

/-! ### Error codes and format constants -/

/-- Modelled from the spec: error kind `Alloc`; the header `sqfs/error.h` that
fixes the number is not among the sources, any negative value works. -/
def SQFS_ERROR_ALLOC : Int := -1

/-- Modelled from the spec: error kind `Corrupt` / out-of-range reference
(`sqfs/error.h` is not among the sources). -/
def SQFS_ERROR_OUT_OF_BOUNDS : Int := -8

/-- Modelled from the spec: error kind `Unsupported` (`sqfs/error.h` is not
among the sources). -/
def SQFS_ERROR_UNSUPPORTED : Int := -6

/-- Modelled from the spec: the readdir cursor can only be initialised inside a
directory inode (`sqfs/error.h` is not among the sources). -/
def SQFS_ERROR_NOT_DIR : Int := -12

/-- Modelled from the spec: error kind `NoEntry`, directory-cache miss or `find`
exhausted (`sqfs/error.h` is not among the sources). -/
def SQFS_ERROR_NO_ENTRY : Int := -13

/-- Modelled from the spec: error kind `Sequence`, reader state machine misuse
(`sqfs/error.h` is not among the sources). -/
def SQFS_ERROR_SEQUENCE : Int := -17

/-- Inode type tag of a basic directory (SquashFS 4.0 on-disk format). -/
def SQFS_INODE_DIR : Nat := 1

/-- Inode type tag of an extended directory (SquashFS 4.0 on-disk format). -/
def SQFS_INODE_EXT_DIR : Nat := 8

/-- Modelled from the spec: reader creation flag requesting the synthetic
`.` and `..` entries (`sqfs/dir_reader.h` is not among the sources). -/
def SQFS_DIR_READER_DOT_ENTRIES : Nat := 0x01

/-- Modelled from the spec: all reader creation flags. -/
def SQFS_DIR_READER_ALL_FLAGS : Nat := 0x01

/-- Modelled from the spec: open flag suppressing the synthetic entries for
one directory (`sqfs/dir_reader.h` is not among the sources). -/
def SQFS_DIR_OPEN_NO_DOT_ENTRIES : Nat := 0x01

/-- Modelled from the spec: all open flags. -/
def SQFS_DIR_OPEN_ALL_FLAGS : Nat := 0x01

/-- Bits of `a` outside the mask `m`, the C expression `a & ~m`. -/
def andNot (a m : Nat) : Nat := a ^^^ (a &&& m)

/-! ### Byte strings -/

/-- The C library `strcmp` on NUL-terminated strings, given without their
terminator: the difference of the first pair of differing bytes, where the end
of a string counts as byte 0. -/
def strcmp : List Nat → List Nat → Int
  | [], [] => 0
  | [], b :: _ => 0 - (b : Int)
  | a :: _, [] => (a : Int)
  | a :: as, b :: bs => if a = b then strcmp as bs else (a : Int) - (b : Int)

/-- The C library `strlen`. -/
def strlen (s : List Nat) : Nat := s.length

/-! ### Directory reader: data model -/

/-- Reader states `DIR_STATE_*` of `internal.h`, named in the spec. -/
inductive dir_state where
  | DIR_STATE_NONE
  | DIR_STATE_OPENED
  | DIR_STATE_DOT
  | DIR_STATE_DOT_DOT
  | DIR_STATE_ENTRIES
  deriving DecidableEq, Repr

open dir_state

/-- Decoded directory entry `sqfs_dir_entry_t`. -/
structure sqfs_dir_entry_t where
  offset : Nat
  inode_diff : Int
  type : Nat
  size : Nat
  name : List Nat
  deriving DecidableEq, Repr

/-- Modelled from the spec: the readdir cursor `sqfs_readdir_state_t`
(`sqfs_readdir_state_init`, `sqfs_readdir_state_reset` and
`sqfs_meta_reader_readdir` are not among the sources). The directory payload is
held decoded: every entry with its absolute inode reference, in on-disk order;
`todo` is what the cursor has not returned yet. -/
structure sqfs_readdir_state_t where
  listing : List (sqfs_dir_entry_t × Nat)
  todo : List (sqfs_dir_entry_t × Nat)
  deriving DecidableEq, Repr

/-- The fields of `sqfs_inode_generic_t` the reader looks at. `parent_inode`
stands for `data.dir.parent_inode` or `data.dir_ext.parent_inode`, whichever the
type selects; `payload` is the decoded directory listing that the inode's
directory-table position addresses. -/
structure sqfs_inode_generic_t where
  type : Nat
  inode_number : Nat
  parent_inode : Nat
  payload : List (sqfs_dir_entry_t × Nat)
  deriving DecidableEq, Repr

/-- The fields of the super block used by the reader and the data writer. -/
structure sqfs_super_t where
  block_size : Nat
  bytes_used : Nat
  flags : Nat
  root_inode_ref : Nat
  fragment_entry_count : Nat
  fragment_table_start : Nat
  deriving DecidableEq, Repr

/-- The directory reader `sqfs_dir_reader_t`. `inode_table` stands for the
image as seen through `meta_inode`: which inode sits at which
(block start, offset) pair. `dcache` is the directory cache. -/
structure sqfs_dir_reader_t where
  super : sqfs_super_t
  flags : Nat
  state : dir_state
  start_state : dir_state
  it : sqfs_readdir_state_t
  cur_ref : Nat
  parent_ref : Nat
  ent_ref : Nat
  dcache : List (Nat × Nat)
  inode_table : List ((Nat × Nat) × sqfs_inode_generic_t)
  deriving DecidableEq, Repr

/-! ### Directory reader: collaborators that are not among the sources -/

/-- Modelled from the spec: `sqfs_readdir_state_init` initialises a readdir
cursor inside the target directory's payload and refuses an inode that is not
a directory. -/
def sqfs_readdir_state_init (inode : sqfs_inode_generic_t) :
    Int × sqfs_readdir_state_t :=
  if inode.type = SQFS_INODE_DIR ∨ inode.type = SQFS_INODE_EXT_DIR then
    (0, { listing := inode.payload, todo := inode.payload })
  else
    (SQFS_ERROR_NOT_DIR, { listing := [], todo := [] })

/-- Modelled from the spec: `sqfs_readdir_state_reset` rewinds the readdir
cursor to the first entry. -/
def sqfs_readdir_state_reset (it : sqfs_readdir_state_t) : sqfs_readdir_state_t :=
  { it with todo := it.listing }

/-- Modelled from the spec: `sqfs_meta_reader_readdir` returns the next entry
and its absolute inode reference (result 0), or end-of-directory (a positive
result) when the cursor is exhausted. -/
def sqfs_meta_reader_readdir (it : sqfs_readdir_state_t) :
    Int × sqfs_readdir_state_t × Option (sqfs_dir_entry_t × Nat) :=
  match it.todo with
  | [] => (1, it, none)
  | e :: rest => (0, { it with todo := rest }, some e)

/-- Modelled from the spec: the directory cache is a mapping from inode number
to inode reference; `sqfs_dir_reader_dcache_find` is the lookup and a miss is
an error. -/
def sqfs_dir_reader_dcache_find (rd : sqfs_dir_reader_t) (inum : Nat) :
    Int × Option Nat :=
  match rd.dcache.lookup inum with
  | some ref => (0, some ref)
  | none => (SQFS_ERROR_NO_ENTRY, none)

/-- Modelled from the spec: `sqfs_dir_reader_dcache_add` records the reference
of a directory inode under its inode number. -/
def sqfs_dir_reader_dcache_add (rd : sqfs_dir_reader_t) (inum ref : Nat) :
    Int × sqfs_dir_reader_t :=
  (0, { rd with dcache := (inum, ref) :: rd.dcache })

/-- Modelled from the spec: `sqfs_meta_reader_read_inode` materialises the
inode stored at a (block start, offset) pair, and fails when none is there. -/
def sqfs_meta_reader_read_inode (rd : sqfs_dir_reader_t) (block_start offset : Nat) :
    Int × Option sqfs_inode_generic_t :=
  match rd.inode_table.lookup (block_start, offset) with
  | some ino => (0, some ino)
  | none => (SQFS_ERROR_OUT_OF_BOUNDS, none)

/-! ### Directory reader: `dir_reader.c` -/

/-- The reader that `sqfs_dir_reader_create` builds when it succeeds: `calloc`
zeroes every field, then the super block, the flags and the state
`DIR_STATE_NONE` are stored. -/
def new_reader (super : sqfs_super_t)
    (inode_table : List ((Nat × Nat) × sqfs_inode_generic_t)) (flags : Nat) :
    sqfs_dir_reader_t :=
  { super := super, flags := flags, state := DIR_STATE_NONE,
    start_state := DIR_STATE_NONE, it := { listing := [], todo := [] },
    cur_ref := 0, parent_ref := 0, ent_ref := 0, dcache := [],
    inode_table := inode_table }

/-- Source function `sqfs_dir_reader_create`; it fails (returns `NULL`) on
unknown flags, allocation is taken to succeed. -/
def sqfs_dir_reader_create (super : sqfs_super_t)
    (inode_table : List ((Nat × Nat) × sqfs_inode_generic_t)) (flags : Nat) :
    Option sqfs_dir_reader_t :=
  if andNot flags SQFS_DIR_READER_ALL_FLAGS ≠ 0 then none
  else some (new_reader super inode_table flags)

/-- Source function `sqfs_dir_reader_open_dir`. A failed cache lookup leaves
the reference it was to fill as it was. -/
def sqfs_dir_reader_open_dir (rd : sqfs_dir_reader_t) (inode : sqfs_inode_generic_t)
    (flags : Nat) : Int × sqfs_dir_reader_t :=
  if andNot flags SQFS_DIR_OPEN_ALL_FLAGS ≠ 0 then (SQFS_ERROR_UNSUPPORTED, rd)
  else
    let i := sqfs_readdir_state_init inode
    let rd := { rd with it := i.2 }
    if i.1 ≠ 0 then (i.1, rd)
    else if rd.flags &&& SQFS_DIR_READER_DOT_ENTRIES ≠ 0 ∧
        flags &&& SQFS_DIR_OPEN_NO_DOT_ENTRIES = 0 then
      let parent := inode.parent_inode
      let c := sqfs_dir_reader_dcache_find rd inode.inode_number
      let rd := { rd with cur_ref := c.2.getD rd.cur_ref }
      if c.1 ≠ 0 then (SQFS_ERROR_NO_ENTRY, rd)
      else if rd.cur_ref = rd.super.root_inode_ref then
        let rd := { rd with parent_ref := rd.cur_ref }
        let rd := { rd with state := DIR_STATE_OPENED }
        (0, { rd with start_state := rd.state })
      else
        let p := sqfs_dir_reader_dcache_find rd parent
        let rd := { rd with parent_ref := p.2.getD rd.parent_ref }
        if p.1 ≠ 0 then (SQFS_ERROR_NO_ENTRY, rd)
        else
          let rd := { rd with state := DIR_STATE_OPENED }
          (0, { rd with start_state := rd.state })
    else
      let rd := { rd with state := DIR_STATE_ENTRIES }
      (0, { rd with start_state := rd.state })

/-- Source function `mk_dummy_entry`; `calloc` is taken to succeed. The
16-bit `size` field receives the `size_t` value `len - 1`. -/
def mk_dummy_entry (str : List Nat) : Int × Option sqfs_dir_entry_t :=
  let len := strlen str
  (0, some { offset := 0, inode_diff := 0, type := SQFS_INODE_DIR,
             size := (len + 2 ^ 64 - 1) % 2 ^ 64 % 2 ^ 16, name := str })

/-- Source function `sqfs_dir_reader_read`: the result code, the reader
afterwards and the entry stored through `out`, if any. -/
def sqfs_dir_reader_read (rd : sqfs_dir_reader_t) :
    Int × sqfs_dir_reader_t × Option sqfs_dir_entry_t :=
  let entries (rd : sqfs_dir_reader_t) : Int × sqfs_dir_reader_t × Option sqfs_dir_entry_t :=
    match sqfs_meta_reader_readdir rd.it with
    | (ret, it, some (ent, ref)) => (ret, { rd with it := it, ent_ref := ref }, some ent)
    | (ret, it, none) => (ret, { rd with it := it }, none)
  match rd.state with
  | DIR_STATE_OPENED =>
    let (err, out) := mk_dummy_entry [46]
    if err = 0 then (err, { rd with state := DIR_STATE_DOT }, out) else (err, rd, out)
  | DIR_STATE_DOT =>
    let (err, out) := mk_dummy_entry [46, 46]
    if err = 0 then (err, { rd with state := DIR_STATE_DOT_DOT }, out) else (err, rd, out)
  | DIR_STATE_DOT_DOT => entries { rd with state := DIR_STATE_ENTRIES }
  | DIR_STATE_ENTRIES => entries rd
  | DIR_STATE_NONE => (SQFS_ERROR_SEQUENCE, rd, none)

/-- Source function `sqfs_dir_reader_rewind`. -/
def sqfs_dir_reader_rewind (rd : sqfs_dir_reader_t) : Int × sqfs_dir_reader_t :=
  if rd.state = DIR_STATE_NONE then (SQFS_ERROR_SEQUENCE, rd)
  else
    let rd := { rd with it := sqfs_readdir_state_reset rd.it }
    (0, { rd with state := rd.start_state })

/-- The `do ... while (ret < 0)` loop of `sqfs_dir_reader_find`; one unit of
fuel per call of `sqfs_dir_reader_read`. -/
def find_loop (name : List Nat) : Nat → sqfs_dir_reader_t → Option (Int × sqfs_dir_reader_t)
  | 0, _ => none
  | fuel + 1, rd =>
    match sqfs_dir_reader_read rd with
    | (ret, rd, some ent) =>
      if ret < 0 then some (ret, rd)
      else if ret > 0 then some (SQFS_ERROR_NO_ENTRY, rd)
      else
        let ret := strcmp ent.name name
        if ret < 0 then find_loop name fuel rd
        else some (if ret = 0 then 0 else SQFS_ERROR_NO_ENTRY, rd)
    | (ret, rd, none) =>
      if ret < 0 then some (ret, rd)
      else some (SQFS_ERROR_NO_ENTRY, rd)

/-- Source function `sqfs_dir_reader_find`. The loop reads every entry at most
once, so the length of the listing plus the two synthetic entries plus the
final end-of-directory read bounds the number of reads. -/
def sqfs_dir_reader_find (rd : sqfs_dir_reader_t) (name : List Nat) :
    Option (Int × sqfs_dir_reader_t) :=
  match sqfs_dir_reader_rewind rd with
  | (ret, rd) =>
    if ret ≠ 0 then some (ret, rd)
    else find_loop name (rd.it.listing.length + 3) rd

/-- Source function `sqfs_dir_reader_get_inode`. -/
def sqfs_dir_reader_get_inode (rd : sqfs_dir_reader_t) :
    Int × sqfs_dir_reader_t × Option sqfs_inode_generic_t :=
  let go (ref : Nat) : Int × sqfs_dir_reader_t × Option sqfs_inode_generic_t :=
    let (ret, out) := sqfs_meta_reader_read_inode rd (ref >>> 16) (ref &&& 0x0FFFF)
    if ret ≠ 0 then (ret, rd, none)
    else
      match out with
      | none => (0, rd, none)
      | some inode =>
        if inode.type = SQFS_INODE_DIR ∨ inode.type = SQFS_INODE_EXT_DIR then
          let inum := inode.inode_number
          let (ret, rd) := sqfs_dir_reader_dcache_add rd inum ref
          if ret ≠ 0 then (ret, rd, some inode) else (0, rd, some inode)
        else (0, rd, some inode)
  match rd.state with
  | DIR_STATE_DOT => go rd.cur_ref
  | DIR_STATE_DOT_DOT => go rd.parent_ref
  | DIR_STATE_ENTRIES => go rd.ent_ref
  | _ => (SQFS_ERROR_SEQUENCE, rd, none)

/-- Source function `sqfs_dir_reader_get_root_inode`. -/
def sqfs_dir_reader_get_root_inode (rd : sqfs_dir_reader_t) :
    Int × sqfs_dir_reader_t × Option sqfs_inode_generic_t :=
  let block_start := rd.super.root_inode_ref >>> 16
  let offset := rd.super.root_inode_ref &&& 0xFFFF
  let (ret, out) := sqfs_meta_reader_read_inode rd block_start offset
  if ret ≠ 0 then (ret, rd, none)
  else
    match out with
    | none => (0, rd, none)
    | some inode =>
      if inode.type = SQFS_INODE_DIR ∨ inode.type = SQFS_INODE_EXT_DIR then
        let inum := inode.inode_number
        let ref := rd.super.root_inode_ref
        let (ret, rd) := sqfs_dir_reader_dcache_add rd inum ref
        if ret ≠ 0 then (ret, rd, some inode) else (0, rd, some inode)
      else (0, rd, some inode)

/-! ### Directory reader: observations used by the statements -/

/-- The results of `n` successive calls of `sqfs_dir_reader_read`: result code
and entry of each call. -/
def read_seq : Nat → sqfs_dir_reader_t → List (Int × Option sqfs_dir_entry_t)
  | 0, _ => []
  | n + 1, rd =>
    match sqfs_dir_reader_read rd with
    | (ret, rd, out) => (ret, out) :: read_seq n rd

/-- The results of `n` successive calls of the underlying readdir iterator
`sqfs_meta_reader_readdir`: result code and entry of each call. -/
def readdir_seq : Nat → sqfs_readdir_state_t → List (Int × Option sqfs_dir_entry_t)
  | 0, _ => []
  | n + 1, it =>
    match sqfs_meta_reader_readdir it with
    | (ret, it, out) => (ret, out.map Prod.fst) :: readdir_seq n it

/-- Sequential scan as the spec words it, after the rewind: read until an
entry with exactly the given name is returned (result 0, the reader standing
on that entry) or until end-of-directory (`SQFS_ERROR_NO_ENTRY`). -/
def scan_loop (name : List Nat) : Nat → sqfs_dir_reader_t → Option (Int × sqfs_dir_reader_t)
  | 0, _ => none
  | fuel + 1, rd =>
    match sqfs_dir_reader_read rd with
    | (ret, rd, some ent) =>
      if ret ≠ 0 then some (if ret < 0 then ret else SQFS_ERROR_NO_ENTRY, rd)
      else if ent.name = name then some (0, rd)
      else scan_loop name fuel rd
    | (ret, rd, none) => some (if ret < 0 then ret else SQFS_ERROR_NO_ENTRY, rd)

/-- Sequential scan as the spec words it: rewind, then read until the name is
met or the directory ends. -/
def sequential_scan (rd : sqfs_dir_reader_t) (name : List Nat) :
    Option (Int × sqfs_dir_reader_t) :=
  match sqfs_dir_reader_rewind rd with
  | (ret, rd) =>
    if ret ≠ 0 then some (ret, rd)
    else scan_loop name (rd.it.listing.length + 3) rd

/-- The inode reference that `sqfs_dir_reader_get_inode` resolves in the
reader a search ended in, when the search succeeded and the inode was read. -/
def resolved_inode (r : Option (Int × sqfs_dir_reader_t)) : Option sqfs_inode_generic_t :=
  match r with
  | some (0, rd) => (sqfs_dir_reader_get_inode rd).2.2
  | _ => none

/-! ### Directory reader: a small image -/

/-- Entry number `i` of the sample root directory: a regular file whose inode
sits at offset `32 * i` of the first inode block. -/
def sample_entry (i : Nat) (name : List Nat) : sqfs_dir_entry_t × Nat :=
  ({ offset := 32 * i, inode_diff := i, type := 2, size := name.length - 1, name := name },
   32 * i)

/-- The listing of the sample root directory for the given child names. -/
def sample_listing : Nat → List (List Nat) → List (sqfs_dir_entry_t × Nat)
  | _, [] => []
  | i, name :: rest => sample_entry i name :: sample_listing (i + 1) rest

/-- The inode of child number `i` of the sample root directory. -/
def sample_file_inode (i : Nat) : sqfs_inode_generic_t :=
  { type := 2, inode_number := i + 1, parent_inode := 0, payload := [] }

/-- The inode of the sample root directory; the parent of the root is, as on
disk, one past the last inode number. -/
def sample_root (names : List (List Nat)) : sqfs_inode_generic_t :=
  { type := SQFS_INODE_DIR, inode_number := names.length + 1,
    parent_inode := names.length + 2, payload := sample_listing 0 names }

/-- The super block of the sample image: the root inode follows the children
in the first inode block. -/
def sample_super (names : List (List Nat)) : sqfs_super_t :=
  { block_size := 4096, bytes_used := 0, flags := 0,
    root_inode_ref := 32 * names.length,
    fragment_entry_count := 0, fragment_table_start := 0 }

/-- The inode table of the sample image. -/
def sample_inodes (names : List (List Nat)) : List ((Nat × Nat) × sqfs_inode_generic_t) :=
  (List.range names.length).map (fun i => ((0, 32 * i), sample_file_inode i)) ++
    [((0, 32 * names.length), sample_root names)]

/-- A reader over the sample image, created with the valid flags `rflags`,
after the root inode has been fetched with `sqfs_dir_reader_get_root_inode`. -/
def sample_reader (names : List (List Nat)) (rflags : Nat) : sqfs_dir_reader_t :=
  (sqfs_dir_reader_get_root_inode
    (new_reader (sample_super names) (sample_inodes names) rflags)).2.1

/-- The reader `sample_reader` after the root directory has been opened with
`oflags`, together with the result code of `sqfs_dir_reader_open_dir`. -/
def sample_open (names : List (List Nat)) (rflags oflags : Nat) : Int × sqfs_dir_reader_t :=
  sqfs_dir_reader_open_dir (sample_reader names rflags) (sample_root names) oflags

/-- The names in a list of read results; end-of-directory and errors show as
`none`. -/
def result_names (l : List (Int × Option sqfs_dir_entry_t)) : List (Option (List Nat)) :=
  l.map (fun r => r.2.map sqfs_dir_entry_t.name)

/-! ### Data writer: data model -/

/-- A memory region: the byte stored at each index. -/
abbrev Buf := Nat → Nat

/-- The first `n` bytes of a memory region. -/
def bytes (p : Buf) (n : Nat) : List Nat := (List.range n).map p

/-- The region that starts `k` bytes into `p`, the C expression `p + k`. -/
def shift (p : Buf) (k : Nat) : Buf := fun i => p (i + k)

/-- The C library `memset(p, c, n)`. -/
def memset (p : Buf) (c n : Nat) : Buf := fun i => if i < n then c else p i

/-- The C library `memcpy(dst + off, src, n)`. -/
def memcpy (dst : Buf) (off : Nat) (src : Buf) (n : Nat) : Buf :=
  fun i => if off ≤ i ∧ i < off + n then src (i - off) else dst i

/-- The C library `memcmp` from index `i` on, over `n` bytes. -/
def memcmp_from (a b : Buf) : Nat → Nat → Int
  | _, 0 => 0
  | i, n + 1 => if a i = b i then memcmp_from a b (i + 1) n else (a i : Int) - (b i : Int)

/-- The C library `memcmp(a, b, n)`. -/
def memcmp (a b : Buf) (n : Nat) : Int := memcmp_from a b 0 n

/-- Modelled from the spec: write flag `DW_DONT_COMPRESS` of `data_writer.h`,
which is not among the sources. -/
def DW_DONT_COMPRESS : Nat := 0x01

/-- Modelled from the spec: write flag `DW_DONT_FRAGMENT` of `data_writer.h`,
which is not among the sources. -/
def DW_DONT_FRAGMENT : Nat := 0x02

/-- Modelled from the spec: write flag `DW_ALLIGN_DEVBLK` of `data_writer.h`,
which is not among the sources. -/
def DW_ALLIGN_DEVBLK : Nat := 0x04

/-- Modelled from the spec: file flag `FILE_FLAG_HAS_FRAGMENT` of `fstree.h`,
which is not among the sources. -/
def FILE_FLAG_HAS_FRAGMENT : Nat := 0x01

/-- Modelled from the spec: file flag `FILE_FLAG_FRAGMENT_IS_DUPLICATE` of
`fstree.h`, which is not among the sources. -/
def FILE_FLAG_FRAGMENT_IS_DUPLICATE : Nat := 0x02

/-- Modelled from the spec: file flag `FILE_FLAG_BLOCKS_ARE_DUPLICATE` of
`fstree.h`, which is not among the sources. -/
def FILE_FLAG_BLOCKS_ARE_DUPLICATE : Nat := 0x04

/-- Super block flag `SQFS_FLAG_NO_FRAGMENTS` (SquashFS 4.0 on-disk format). -/
def SQFS_FLAG_NO_FRAGMENTS : Nat := 0x0010

/-- Super block flag `SQFS_FLAG_ALWAYS_FRAGMENTS` (SquashFS 4.0 on-disk format). -/
def SQFS_FLAG_ALWAYS_FRAGMENTS : Nat := 0x0020

/-- One element of `file_info_t.blocks`: on-disk size word and checksum. -/
structure block_desc_t where
  size : Nat
  chksum : Nat
  deriving DecidableEq, Repr

/-- The fields of `file_info_t` (`fstree.h`) the data writer uses. The array
`blocks` is indexed like the C array; the `next` link is the tail of the
writer's file list. -/
structure file_info_t where
  size : Nat
  startblock : Nat
  sparse : Nat
  flags : Nat
  fragment : Nat
  fragment_offset : Nat
  fragment_chksum : Nat
  blocks : Nat → block_desc_t

/-- One element of the fragment table, `sqfs_fragment_t`. -/
structure sqfs_fragment_t where
  start_offset : Nat
  size : Nat
  pad0 : Nat
  deriving DecidableEq, Repr

/-- One element of the sparse map list, `sparse_map_t`; the `next` link is the
tail of the list. -/
structure sparse_map_t where
  offset : Nat
  count : Nat
  deriving DecidableEq, Repr

/-- The output file behind `outfd`: its bytes and the file offset. `written`
is a ghost counter, the total number of bytes passed to `write_data`. -/
structure out_file_t where
  content : List Nat
  pos : Nat
  written : Nat
  deriving DecidableEq, Repr

/-- The struct `data_writer_t`. The array `fragments` is indexed like the C
array; `list` holds the files written so far, newest first. -/
structure data_writer_t where
  block : Buf
  fragment : Buf
  scratch : Buf
  fragments : Nat → sqfs_fragment_t
  num_fragments : Nat
  max_fragments : Nat
  frag_offset : Nat
  devblksz : Nat
  start : Nat
  block_idx : Nat
  list : List file_info_t
  super : sqfs_super_t
  outfd : out_file_t

/-- Everything a write call works on: the writer, the file being written and
the bytes still unread on `infd`. Two ghost fields record the calls the
statements speak about: `handed` lists the regions passed to
`flush_data_block` (bytes and `is_last`), oldest first, and `dedup_calls`
counts the calls of `deduplicate_data`. -/
structure wstate where
  data : data_writer_t
  fi : file_info_t
  infd : List Nat
  handed : List (List Nat × Bool)
  dedup_calls : Nat

/-- The collaborators of the data writer that are not among the sources, taken
as parameters: the compressor's `do_block` (input bytes and output capacity to
result code and scratch contents), `update_crc32`, `find_equal_blocks` and
`fragment_by_chksum`. -/
structure env_t where
  do_block : List Nat → Nat → Int × Buf
  update_crc32 : Nat → List Nat → Nat
  find_equal_blocks : file_info_t → List file_info_t → Nat → Nat
  fragment_by_chksum : Nat → Nat → List file_info_t → Nat → Option file_info_t

/-! ### Data writer: file primitives -/

/-- POSIX `write` of a byte string at the file offset (`write_data` of the
utility library, taken to succeed): bytes under the offset are overwritten, a
gap before the offset reads as zeros, the offset advances. -/
def write_data (f : out_file_t) (buf : List Nat) : out_file_t :=
  { content := f.content.take f.pos ++ List.replicate (f.pos - f.content.length) 0 ++ buf ++
      f.content.drop (f.pos + buf.length),
    pos := f.pos + buf.length,
    written := f.written + buf.length }

/-- POSIX `lseek(fd, off, SEEK_SET)`, taken to succeed. -/
def lseek_set (f : out_file_t) (off : Nat) : out_file_t := { f with pos := off }

/-- POSIX `ftruncate(fd, len)`, taken to succeed. -/
def ftruncate (f : out_file_t) (len : Nat) : out_file_t :=
  { f with content := f.content.take len ++ List.replicate (len - f.content.length) 0 }

/-- Modelled from the spec: `padd_file` pads the image with zeros up to the
next multiple of the block size (the helper is not among the sources). -/
def padd_file (f : out_file_t) (size blocksize : Nat) : out_file_t :=
  if size % blocksize = 0 then f
  else write_data f (List.replicate (blocksize - size % blocksize) 0)

/-- Modelled from the spec: `read_data` reads exactly `count` bytes from the
input into `buf + start` and fails when the input is shorter (the helper is not
among the sources). -/
def read_data (infd : List Nat) (buf : Buf) (start count : Nat) :
    Int × List Nat × Buf :=
  if infd.length < count then (-1, infd, buf)
  else (0, infd.drop count, memcpy buf start (fun i => (infd.get? i).getD 0) count)

/-! ### Data writer: `data_writer.c` -/

/-- Source function `write_compressed`: result code, state and `*outsize`. -/
def write_compressed (env : env_t) (s : wstate) (inp : Buf) (size : Nat) (flags : Nat) :
    Int × wstate × Nat :=
  let cmp : Int × Buf :=
    if flags &&& DW_DONT_COMPRESS = 0 then
      env.do_block (bytes inp size) s.data.super.block_size
    else (0, s.data.scratch)
  let ret := cmp.1
  let s := { s with data := { s.data with scratch := cmp.2 } }
  if flags &&& DW_DONT_COMPRESS = 0 ∧ ret < 0 then (-1, s, 0)
  else
    let sel : Nat × Buf × Nat :=
      if ret > 0 ∧ ret.toNat < size then (ret.toNat, s.data.scratch, ret.toNat % 2 ^ 32)
      else (size, inp, (size ||| (1 <<< 24)) % 2 ^ 32)
    let size := sel.1
    let s := { s with data := { s.data with outfd := write_data s.data.outfd (bytes sel.2.1 size) } }
    let s := { s with data := { s.data with
      super := { s.data.super with bytes_used := s.data.super.bytes_used + size } } }
    (0, s, sel.2.2)

/-- Source function `grow_fragment_table`; `realloc` is taken to succeed. -/
def grow_fragment_table (data : data_writer_t) : Int × data_writer_t :=
  if data.num_fragments = data.max_fragments then
    let newsz := if data.max_fragments ≠ 0 then data.max_fragments * 2 else 16
    (0, { data with max_fragments := newsz })
  else (0, data)

/-- Source function `is_zero_block`. Every caller passes a size of at least 1;
for size 0 the C expression `size - 1` would wrap to `SIZE_MAX`, while the
subtraction here stops at 0. -/
def is_zero_block (ptr : Buf) (size : Nat) : Bool :=
  ptr 0 = 0 ∧ memcmp ptr (shift ptr 1) (size - 1) = 0

/-- Source function `allign_file`. -/
def allign_file (data : data_writer_t) : Int × data_writer_t :=
  let diff := data.super.bytes_used % data.devblksz
  if diff = 0 then (0, data)
  else
    let data := { data with
      outfd := padd_file data.outfd data.super.bytes_used data.devblksz }
    (0, { data with
      super := { data.super with bytes_used := data.super.bytes_used + (data.devblksz - diff) } })

/-- Source function `flush_fragments`. -/
def flush_fragments (env : env_t) (s : wstate) : Int × wstate :=
  if s.data.frag_offset = 0 then (0, s)
  else
    let g := grow_fragment_table s.data
    let s := { s with data := g.2 }
    if g.1 ≠ 0 then (-1, s)
    else
      let offset := s.data.super.bytes_used
      let w := write_compressed env s s.data.fragment s.data.frag_offset 0
      if w.1 ≠ 0 then (-1, w.2.1)
      else
        let s := w.2.1
        let out := w.2.2
        let s := { s with data := { s.data with
          fragments := Function.update s.data.fragments s.data.num_fragments
            { start_offset := offset, size := out, pad0 := 0 } } }
        let s := { s with data := { s.data with num_fragments := s.data.num_fragments + 1 } }
        let s := { s with data := { s.data with frag_offset := 0 } }
        let s := { s with data := { s.data with super := { s.data.super with
          flags := andNot s.data.super.flags SQFS_FLAG_NO_FRAGMENTS } } }
        let s := { s with data := { s.data with super := { s.data.super with
          flags := s.data.super.flags ||| SQFS_FLAG_ALWAYS_FRAGMENTS } } }
        (0, s)

/-- Source function `deduplicate_data`; `lseek` and `ftruncate` are taken to
succeed. -/
def deduplicate_data (env : env_t) (s : wstate) : Int × wstate :=
  let s := { s with dedup_calls := s.dedup_calls + 1 }
  let ref := env.find_equal_blocks s.fi s.data.list s.data.super.block_size
  if ref > 0 then
    let s := { s with data := { s.data with
      super := { s.data.super with bytes_used := s.fi.startblock } } }
    let s := { s with fi := { s.fi with startblock := ref } }
    let s := { s with fi := { s.fi with flags := s.fi.flags ||| FILE_FLAG_BLOCKS_ARE_DUPLICATE } }
    let s := { s with data := { s.data with outfd := lseek_set s.data.outfd s.data.start } }
    let s := { s with data := { s.data with outfd := ftruncate s.data.outfd s.data.start } }
    (0, s)
  else (0, s)

/-- The sparse branch of `flush_data_block` (the body of
`if (is_zero_block(data->block, size))`). -/
def flush_sparse (env : env_t) (s : wstate) (size : Nat) (is_last : Bool) : Int × wstate :=
  let s := { s with fi := { s.fi with
    blocks := Function.update s.fi.blocks s.data.block_idx
      { (s.fi.blocks s.data.block_idx) with size := 0 } } }
  let s := { s with fi := { s.fi with
    blocks := Function.update s.fi.blocks s.data.block_idx
      { (s.fi.blocks s.data.block_idx) with chksum := 0 } } }
  let s := { s with fi := { s.fi with sparse := s.fi.sparse + size } }
  let s := { s with data := { s.data with block_idx := s.data.block_idx + 1 } }
  if is_last then deduplicate_data env s else (0, s)

/-- The fragment branch of `flush_data_block` (the body of
`if (size < data->super->block_size && !(flags & DW_DONT_FRAGMENT))`). -/
def flush_tail (env : env_t) (s : wstate) (size chksum : Nat) : Int × wstate :=
  let s := { s with fi := { s.fi with flags := s.fi.flags ||| FILE_FLAG_HAS_FRAGMENT } }
  let d := deduplicate_data env s
  if d.1 ≠ 0 then (-1, d.2)
  else
    let s := d.2
    match env.fragment_by_chksum chksum size s.data.list s.data.super.block_size with
    | some ref =>
      let s := { s with fi := { s.fi with fragment_chksum := ref.fragment_chksum } }
      let s := { s with fi := { s.fi with fragment_offset := ref.fragment_offset } }
      let s := { s with fi := { s.fi with fragment := ref.fragment } }
      let s := { s with fi := { s.fi with
        flags := s.fi.flags ||| FILE_FLAG_FRAGMENT_IS_DUPLICATE } }
      (0, s)
    | none =>
      let r : Int × wstate :=
        if s.data.frag_offset + size > s.data.super.block_size then flush_fragments env s
        else (0, s)
      if r.1 ≠ 0 then (-1, r.2)
      else
        let s := r.2
        let s := { s with fi := { s.fi with fragment_chksum := chksum } }
        let s := { s with fi := { s.fi with fragment_offset := s.data.frag_offset } }
        let s := { s with fi := { s.fi with fragment := s.data.num_fragments } }
        let s := { s with data := { s.data with
          fragment := memcpy s.data.fragment s.data.frag_offset s.data.block size } }
        let s := { s with data := { s.data with frag_offset := s.data.frag_offset + size } }
        (0, s)

/-- The full-block branch of `flush_data_block` (the `else` branch of the
fragment test). -/
def flush_block (env : env_t) (s : wstate) (size : Nat) (is_last : Bool) (flags chksum : Nat) :
    Int × wstate :=
  let w := write_compressed env s s.data.block size flags
  if w.1 ≠ 0 then (-1, w.2.1)
  else
    let s := w.2.1
    let out := w.2.2
    let s := { s with fi := { s.fi with
      blocks := Function.update s.fi.blocks s.data.block_idx
        { (s.fi.blocks s.data.block_idx) with chksum := chksum } } }
    let s := { s with fi := { s.fi with
      blocks := Function.update s.fi.blocks s.data.block_idx
        { (s.fi.blocks s.data.block_idx) with size := out } } }
    let s := { s with data := { s.data with block_idx := s.data.block_idx + 1 } }
    if is_last then
      let d := deduplicate_data env s
      if d.1 ≠ 0 then (-1, d.2) else (0, d.2)
    else (0, s)

/-- The fragment branch of `flush_data_block` from the call of
`fragment_by_chksum` on, which is what follows the call of `deduplicate_data`
there. -/
def stage_tail (env : env_t) (s : wstate) (size chksum : Nat) : Int × wstate :=
  match env.fragment_by_chksum chksum size s.data.list s.data.super.block_size with
  | some ref =>
    let s := { s with fi := { s.fi with fragment_chksum := ref.fragment_chksum } }
    let s := { s with fi := { s.fi with fragment_offset := ref.fragment_offset } }
    let s := { s with fi := { s.fi with fragment := ref.fragment } }
    let s := { s with fi := { s.fi with
      flags := s.fi.flags ||| FILE_FLAG_FRAGMENT_IS_DUPLICATE } }
    (0, s)
  | none =>
    let r : Int × wstate :=
      if s.data.frag_offset + size > s.data.super.block_size then flush_fragments env s
      else (0, s)
    if r.1 ≠ 0 then (-1, r.2)
    else
      let s := r.2
      let s := { s with fi := { s.fi with fragment_chksum := chksum } }
      let s := { s with fi := { s.fi with fragment_offset := s.data.frag_offset } }
      let s := { s with fi := { s.fi with fragment := s.data.num_fragments } }
      let s := { s with data := { s.data with
        fragment := memcpy s.data.fragment s.data.frag_offset s.data.block size } }
      let s := { s with data := { s.data with frag_offset := s.data.frag_offset + size } }
      (0, s)

/-- Source function `flush_data_block`; the region is `data->block[0 .. size)`.
The three branches are `flush_sparse`, `flush_tail` and `flush_block`. -/
def flush_data_block (env : env_t) (s : wstate) (size : Nat) (is_last : Bool) (flags : Nat) :
    Int × wstate :=
  let s := { s with handed := s.handed ++ [(bytes s.data.block size, is_last)] }
  if is_zero_block s.data.block size then flush_sparse env s size is_last
  else
    let chksum := env.update_crc32 0 (bytes s.data.block size)
    if size < s.data.super.block_size ∧ flags &&& DW_DONT_FRAGMENT = 0 then
      flush_tail env s size chksum
    else flush_block env s size is_last flags chksum

/-- Source function `begin_file`; `lseek(fd, 0, SEEK_CUR)` is taken to succeed
and returns the file offset. -/
def begin_file (s : wstate) (flags : Nat) : Int × wstate :=
  let s := { s with data := { s.data with start := s.data.outfd.pos } }
  let a : Int × data_writer_t :=
    if flags &&& DW_ALLIGN_DEVBLK ≠ 0 then allign_file s.data else (0, s.data)
  let s := { s with data := a.2 }
  if a.1 ≠ 0 then (-1, s)
  else
    let s := { s with fi := { s.fi with startblock := s.data.super.bytes_used } }
    let s := { s with fi := { s.fi with sparse := 0 } }
    let s := { s with data := { s.data with block_idx := 0 } }
    (0, s)

/-- Source function `end_file`. -/
def end_file (s : wstate) (flags : Nat) : Int × wstate :=
  let a : Int × data_writer_t :=
    if flags &&& DW_ALLIGN_DEVBLK ≠ 0 then allign_file s.data else (0, s.data)
  let s := { s with data := a.2 }
  if a.1 ≠ 0 then (-1, s)
  else (0, { s with data := { s.data with list := s.fi :: s.data.list } })

/-- The `for (count = fi->size; count != 0; count -= diff)` loop of
`write_data_from_fd`, one unit of fuel per iteration. -/
def fd_loop (env : env_t) (flags : Nat) : Nat → Nat → wstate → Option (Int × wstate)
  | _, 0, s => some (0, s)
  | 0, _ + 1, _ => none
  | fuel + 1, c + 1, s =>
    let count := c + 1
    let sel : Nat × Bool :=
      if count > s.data.super.block_size then (s.data.super.block_size, false)
      else (count, true)
    let diff := sel.1
    let is_last := sel.2
    match read_data s.infd s.data.block 0 diff with
    | (ret, infd, block) =>
      let s := { s with infd := infd, data := { s.data with block := block } }
      if ret ≠ 0 then some (-1, s)
      else
        match flush_data_block env s diff is_last flags with
        | (ret, s) =>
          if ret ≠ 0 then some (-1, s)
          else fd_loop env flags fuel (count - diff) s

/-- Source function `write_data_from_fd`. Every iteration with a non-zero
block size consumes at least one byte, so `fi->size` iterations suffice; the
result is `none` when the C loop does not terminate. -/
def write_data_from_fd (env : env_t) (s : wstate) (flags : Nat) : Option (Int × wstate) :=
  match begin_file s flags with
  | (ret, s) =>
    if ret ≠ 0 then some (-1, s)
    else
      match fd_loop env flags s.fi.size s.fi.size s with
      | none => none
      | some (ret, s) => if ret ≠ 0 then some (-1, s) else some (end_file s flags)

/-- The map validation loop of `write_data_from_fd_condensed`
(`for (m = map; m != NULL; m = m->next)`): `none` stands for `goto fail_map`,
otherwise the final value of the 64-bit variable `offset`. -/
def map_check_loop : Nat → List sparse_map_t → Option Nat
  | offset, [] => some offset
  | offset, m :: rest =>
    if m.offset < offset then none
    else map_check_loop ((m.offset + m.count) % 2 ^ 64) rest

/-- The validation step of `write_data_from_fd_condensed` (the block under
`if (map != NULL)`): 0 when the map is accepted, -1 after `goto fail_map` or
`goto fail_map_size`. -/
def map_check (map : List sparse_map_t) (size : Nat) : Int :=
  match map with
  | [] => 0
  | m :: _ =>
    match map_check_loop m.offset map with
    | none => -1
    | some offset => if offset > size then -1 else 0

/-- The body of the `while` loop of `write_data_from_fd_condensed` up to the
call of `read_data`: where in the block (`start`) and how many bytes (`count`)
the map entry `m` contributes to the block at `offset` of length `diff`. The
`size_t` arithmetic is 64 bits wide. -/
def map_window (offset diff : Nat) (m : sparse_map_t) : Nat × Nat :=
  let start := 0
  let count := m.count
  let count := if m.offset < offset then (count + 2 ^ 64 - (offset - m.offset)) % 2 ^ 64
    else count
  let start := if m.offset > offset then m.offset - offset else start
  let count := if (start + count) % 2 ^ 64 > diff then diff - start else count
  (start, count)

/-- The `while (map != NULL && map->offset < offset + diff)` loop of
`write_data_from_fd_condensed`: result code, state and the value of `map`
afterwards. -/
def fill_block (offset diff : Nat) : List sparse_map_t → wstate → Int × wstate × List sparse_map_t
  | [], s => (0, s, [])
  | m :: rest, s =>
    if m.offset < offset + diff then
      let w := map_window offset diff m
      let r := read_data s.infd s.data.block w.1 w.2
      let s := { s with infd := r.2.1, data := { s.data with block := r.2.2 } }
      if r.1 ≠ 0 then (-1, s, m :: rest)
      else fill_block offset diff rest s
    else (0, s, m :: rest)

/-- The `for (offset = 0; offset < fi->size; offset += diff)` loop of
`write_data_from_fd_condensed`, one unit of fuel per iteration. -/
def condensed_loop (env : env_t) (flags : Nat) :
    Nat → Nat → List sparse_map_t → wstate → Option (Int × wstate)
  | 0, offset, _, s => if offset < s.fi.size then none else some (0, s)
  | fuel + 1, offset, map, s =>
    if offset < s.fi.size then
      let sel : Nat × Bool :=
        if s.fi.size - offset > s.data.super.block_size then (s.data.super.block_size, false)
        else (s.fi.size - offset, true)
      let diff := sel.1
      let is_last := sel.2
      let s := { s with data := { s.data with block := memset s.data.block 0 diff } }
      match fill_block offset diff map s with
      | (ret, s, map) =>
        if ret ≠ 0 then some (-1, s)
        else
          match flush_data_block env s diff is_last flags with
          | (ret, s) =>
            if ret ≠ 0 then some (-1, s)
            else condensed_loop env flags fuel (offset + diff) map s
    else some (0, s)

/-- Source function `write_data_from_fd_condensed`; `fi->size` iterations of
the block loop suffice when the block size is not zero. -/
def write_data_from_fd_condensed (env : env_t) (s : wstate) (map : List sparse_map_t)
    (flags : Nat) : Option (Int × wstate) :=
  match begin_file s flags with
  | (ret, s) =>
    if ret ≠ 0 then some (-1, s)
    else if map_check map s.fi.size ≠ 0 then some (-1, s)
    else
      match condensed_loop env flags s.fi.size 0 map s with
      | none => none
      | some (ret, s) => if ret ≠ 0 then some (-1, s) else some (end_file s flags)

/-- Source function `data_writer_create`: `calloc` zeroes every field, then the
super block, the output file and the device block size are stored. -/
def data_writer_create (super : sqfs_super_t) (outfd : out_file_t) (devblksize : Nat) :
    data_writer_t :=
  { block := fun _ => 0, fragment := fun _ => 0, scratch := fun _ => 0,
    fragments := fun _ => { start_offset := 0, size := 0, pad0 := 0 },
    num_fragments := 0, max_fragments := 0, frag_offset := 0,
    devblksz := devblksize, start := 0, block_idx := 0, list := [],
    super := super, outfd := outfd }

/-! ### Data writer: observations used by the statements -/

/-- The regions handed to `flush_data_block` so far, concatenated. -/
def handed_bytes (s : wstate) : List Nat := (s.handed.map Prod.fst).flatten

/-- The sum of the counts of a sparse map. -/
def map_total : List sparse_map_t → Nat
  | [] => 0
  | m :: rest => m.count + map_total rest

/-- Byte `p` of the sparse expansion as the spec words it: the input byte at
position (sum of the counts of all earlier map entries + p - e.offset) when `p`
lies inside a map entry `e`, and zero otherwise. `earlier` is the sum of the
counts of the entries already passed. -/
def sparse_byte (input : List Nat) : Nat → List sparse_map_t → Nat → Nat
  | _, [], _ => 0
  | earlier, e :: rest, p =>
    if e.offset ≤ p ∧ p < e.offset + e.count then (input.get? (earlier + p - e.offset)).getD 0
    else sparse_byte input (earlier + e.count) rest p

/-- The sparse expansion of a condensed input as the spec words it. -/
def sparse_expand (input : List Nat) (map : List sparse_map_t) (size : Nat) : List Nat :=
  (List.range size).map (sparse_byte input 0 map)

/-- What a write call left behind, as plain data: result code, regions handed
to `flush_data_block`, unread input, output file, `super.bytes_used`,
`data.start`, `fi.startblock`, `fi.flags`, `fi.sparse` and the block index. -/
structure outcome_t where
  ret : Int
  handed : List (List Nat × Bool)
  infd : List Nat
  outfd : out_file_t
  bytes_used : Nat
  start : Nat
  startblock : Nat
  flags : Nat
  sparse : Nat
  block_idx : Nat
  deriving DecidableEq, Repr

/-- The outcome of a write call; `none` when the call does not return. -/
def outcome (r : Option (Int × wstate)) : Option outcome_t :=
  r.map fun p =>
    { ret := p.1, handed := p.2.handed, infd := p.2.infd, outfd := p.2.data.outfd,
      bytes_used := p.2.data.super.bytes_used, start := p.2.data.start,
      startblock := p.2.fi.startblock, flags := p.2.fi.flags, sparse := p.2.fi.sparse,
      block_idx := p.2.data.block_idx }

/-! ### Data writer: sample collaborators and inputs -/

/-- A compressor that never shrinks its input (`do_block` returns 0), a byte
sum as checksum, and dedup scanners that find `ref` as the start of an equal
block run (0: no match) and no equal fragment. -/
def sample_env (ref : Nat) : env_t :=
  { do_block := fun _ _ => (0, fun _ => 0),
    update_crc32 := fun c l => (c + l.sum) % 2 ^ 32,
    find_equal_blocks := fun _ _ _ => ref,
    fragment_by_chksum := fun _ _ _ _ => none }

/-- A compressor that stores the first half of its input (`do_block` returns
half the input length, the scratch buffer holds those bytes), otherwise as
`sample_env 0`. -/
def halving_env : env_t :=
  { sample_env 0 with
    do_block := fun l _ => ((l.length / 2 : Nat), fun i => (l.get? i).getD 0) }

/-- A fresh `file_info_t` of the given size. -/
def sample_file (size : Nat) : file_info_t :=
  { size := size, startblock := 0, sparse := 0, flags := 0, fragment := 0,
    fragment_offset := 0, fragment_chksum := 0, blocks := fun _ => { size := 0, chksum := 0 } }

/-- A write about to start: a fresh writer with the given block size and device
block size on an image of `used` bytes (all of value 255, the file offset at the
end, `super.bytes_used = used`), a fresh file of `size` bytes and the input. -/
def sample_state (block_size devblksz used size : Nat) (input : List Nat) : wstate :=
  { data := data_writer_create
      { block_size := block_size, bytes_used := used, flags := 0, root_inode_ref := 0,
        fragment_entry_count := 0, fragment_table_start := 0 }
      { content := List.replicate used 255, pos := used, written := 0 } devblksz,
    fi := sample_file size, infd := input, handed := [], dedup_calls := 0 }

/-- The state a write call ended in; `dflt` when the call does not return. -/
def result_state (r : Option (Int × wstate)) (dflt : wstate) : wstate :=
  match r with
  | some (_, s) => s
  | none => dflt

/-- A sample region: byte `i` is `i + 1`. -/
def sample_region : Buf := fun i => i + 1

/-! ### Directory reader: passes over a directory -/

/-- The reference `sqfs_dir_reader_get_inode` selects for the entry the reader
stands on: the directory's own reference on ".", the parent's on "..", the
entry's reference on a real entry. -/
def entry_ref (rd : sqfs_dir_reader_t) : Nat :=
  match rd.state with
  | DIR_STATE_DOT => rd.cur_ref
  | DIR_STATE_DOT_DOT => rd.parent_ref
  | _ => rd.ent_ref

/-- One pass over a directory: successive calls of `sqfs_dir_reader_read`
until a call returns no entry. The result is the list of entries returned, each
with its inode reference, the result code of the call that ended the pass (a
positive code is end-of-directory) and the reader afterwards. One unit of fuel
per call. -/
def read_all : Nat → sqfs_dir_reader_t →
    Option (List (sqfs_dir_entry_t × Nat) × Int × sqfs_dir_reader_t)
  | 0, _ => none
  | fuel + 1, rd =>
    match sqfs_dir_reader_read rd with
    | (ret, rd1, some ent) =>
      if ret ≠ 0 then some ([], ret, rd1)
      else
        match read_all fuel rd1 with
        | some (l, r, rd2) => some ((ent, entry_ref rd1) :: l, r, rd2)
        | none => none
    | (ret, rd1, none) => some ([], ret, rd1)

/-- What it means that `sqfs_dir_reader_get_inode` reads the inode at the
reference `r`: its result code is that of `sqfs_meta_reader_read_inode` called
with block start `r >> 16` and offset `r & 0xFFFF`, and on success it yields
the inode found there. -/
def reads_inode_at (rd : sqfs_dir_reader_t) (r : Nat) : Prop :=
  (sqfs_dir_reader_get_inode rd).1 =
    (sqfs_meta_reader_read_inode rd (r >>> 16) (r &&& 0xFFFF)).1 ∧
  ((sqfs_meta_reader_read_inode rd (r >>> 16) (r &&& 0xFFFF)).1 = 0 →
    (sqfs_dir_reader_get_inode rd).2.2 =
      (sqfs_meta_reader_read_inode rd (r >>> 16) (r &&& 0xFFFF)).2)

/-- Whether the synthetic entries are requested: the reader was created with
`SQFS_DIR_READER_DOT_ENTRIES` and the open flags lack
`SQFS_DIR_OPEN_NO_DOT_ENTRIES` (the test in `sqfs_dir_reader_open_dir`). -/
def dots_requested (rd : sqfs_dir_reader_t) (flags : Nat) : Prop :=
  rd.flags &&& SQFS_DIR_READER_DOT_ENTRIES ≠ 0 ∧ flags &&& SQFS_DIR_OPEN_NO_DOT_ENTRIES = 0

instance dots_requested_decidable (rd : sqfs_dir_reader_t) (flags : Nat) :
    Decidable (dots_requested rd flags) := by
  unfold dots_requested
  exact inferInstance

/-- Whether an inode is a directory or an extended directory (the test before
`sqfs_dir_reader_dcache_add`). -/
def is_dir_inode (inode : sqfs_inode_generic_t) : Prop :=
  inode.type = SQFS_INODE_DIR ∨ inode.type = SQFS_INODE_EXT_DIR

instance is_dir_inode_decidable (inode : sqfs_inode_generic_t) :
    Decidable (is_dir_inode inode) := by
  unfold is_dir_inode
  exact inferInstance

/-- A sample image with a subdirectory: inode 1 at reference 0 is the directory
`d` (no children, parent inode 2), inode 2 at reference 32 is the root, whose
only child is `d`. -/
def nested_inodes : List ((Nat × Nat) × sqfs_inode_generic_t) :=
  [((0, 0), { type := SQFS_INODE_DIR, inode_number := 1, parent_inode := 2, payload := [] }),
   ((0, 32), { type := SQFS_INODE_DIR, inode_number := 2, parent_inode := 3,
               payload := [({ offset := 0, inode_diff := 0, type := SQFS_INODE_DIR, size := 0,
                              name := [100] }, 0)] })]

/-- A reader with synthetic entries over `nested_inodes`, as created. -/
def nested_reader : sqfs_dir_reader_t :=
  new_reader { block_size := 4096, bytes_used := 0, flags := 0, root_inode_ref := 32,
               fragment_entry_count := 0, fragment_table_start := 0 }
    nested_inodes SQFS_DIR_READER_DOT_ENTRIES

/-- A state for the examples of `flush_data_block`: a fresh writer with block
size 8 on an image of 6 bytes and a fresh file, with `data->block` holding the
given region. -/
def region_state (block : Buf) : wstate :=
  { sample_state 8 8 6 8 [] with
    data := { (sample_state 8 8 6 8 []).data with block := block } }

/-! ### Data writer: sequences of `flush_data_block` calls -/

/-- One call of `flush_data_block` as a caller sets it up: the contents of
`data->block`, the file and the arguments. -/
structure flush_call where
  block : Buf
  fi : file_info_t
  size : Nat
  is_last : Bool
  flags : Nat

/-- A sequence of `flush_data_block` calls on one writer, continued whatever
each call returns. -/
def run_flushes (env : env_t) : List flush_call → wstate → wstate
  | [], s => s
  | c :: rest, s =>
    run_flushes env rest
      (flush_data_block env { s with data := { s.data with block := c.block }, fi := c.fi }
        c.size c.is_last c.flags).2

/-- A writer that has just been created, about to work on a file. -/
def fresh_state (super : sqfs_super_t) (outfd : out_file_t) (devblksize : Nat)
    (fi : file_info_t) (infd : List Nat) : wstate :=
  { data := data_writer_create super outfd devblksize, fi := fi, infd := infd,
    handed := [], dedup_calls := 0 }

/-- Three tails for the examples, of 5, 5 and 3 bytes, each the last region of
a file of its own; the bytes of the k-th are `k + i`. -/
def sample_calls : List flush_call :=
  [{ block := fun i => 1 + i, fi := sample_file 5, size := 5, is_last := true, flags := 0 },
   { block := fun i => 2 + i, fi := sample_file 5, size := 5, is_last := true, flags := 0 },
   { block := fun i => 3 + i, fi := sample_file 3, size := 3, is_last := true, flags := 0 }]

/-! ### Data writer: the chunks of a file -/

/-- The lengths and `is_last` arguments of a record of `flush_data_block`
calls. -/
def chunk_shape (handed : List (List Nat × Bool)) : List (Nat × Bool) :=
  handed.map (fun p => (p.1.length, p.2))

/-- The sequence of chunks as the statement words it (length and `is_last`):
none for an empty file; otherwise `(size - 1) / block_size` chunks of exactly
`block_size` bytes with `is_last` false, then one final chunk with the
remaining bytes and `is_last` true. -/
def chunk_plan (block_size size : Nat) : List (Nat × Bool) :=
  if size = 0 then []
  else
    List.replicate ((size - 1) / block_size) (block_size, false) ++
      [(size - (size - 1) / block_size * block_size, true)]

/-! ### Data writer: the fragment table -/

/-- Modelled from the spec: `sizeof(sqfs_fragment_t)`. The type declaration is
not among the sources; the spec gives a fragment table entry as
`{u64 start, u32 size, u32 pad}`. -/
def sizeof_sqfs_fragment_t : Nat := 16

/-- Source function `data_writer_write_fragment_table`. The table-write helper
`sqfs_write_table` is not among the sources and is taken as a parameter: from
the output file, the super block, the array and its size in bytes to the result
code, the file and the super block afterwards and the location stored through
`start`. The size is a `size_t`; the super block field `fragment_entry_count`
is the 32-bit fragment count of the SquashFS 4.0 super block. -/
def data_writer_write_fragment_table
    (sqfs_write_table : out_file_t → sqfs_super_t → (Nat → sqfs_fragment_t) → Nat →
      Int × out_file_t × sqfs_super_t × Nat)
    (data : data_writer_t) : Int × data_writer_t :=
  if data.num_fragments = 0 then
    let data := { data with super := { data.super with fragment_entry_count := 0 } }
    let data := { data with
      super := { data.super with fragment_table_start := 0xFFFFFFFFFFFFFFFF } }
    (0, data)
  else
    let size := sizeof_sqfs_fragment_t * data.num_fragments % 2 ^ 64
    let w := sqfs_write_table data.outfd data.super data.fragments size
    let data := { data with outfd := w.2.1, super := w.2.2.1 }
    if w.1 ≠ 0 then (-1, data)
    else
      let data := { data with
        super := { data.super with fragment_entry_count := data.num_fragments % 2 ^ 32 } }
      let data := { data with super := { data.super with fragment_table_start := w.2.2.2 } }
      (0, data)

/-- A table-write helper for the examples: it appends `size` bytes of value 1
to the file, adds `size` to `bytes_used` and reports the former `bytes_used`
as the location of the table. -/
def sample_write_table (f : out_file_t) (super : sqfs_super_t)
    (_ : Nat → sqfs_fragment_t) (size : Nat) : Int × out_file_t × sqfs_super_t × Nat :=
  (0, write_data f (List.replicate size 1),
    { super with bytes_used := super.bytes_used + size }, super.bytes_used)

/-- A table-write helper that fails without writing. -/
def failing_write_table (f : out_file_t) (super : sqfs_super_t)
    (_ : Nat → sqfs_fragment_t) (_ : Nat) : Int × out_file_t × sqfs_super_t × Nat :=
  (-1, f, super, 0)

/-- A writer for the examples: fresh, on an image of 96 bytes, with the given
number of fragment table entries. -/
def sample_writer (num_fragments : Nat) : data_writer_t :=
  { data_writer_create
      { block_size := 4096, bytes_used := 96, flags := 0, root_inode_ref := 0,
        fragment_entry_count := 7, fragment_table_start := 5 }
      { content := List.replicate 96 255, pos := 96, written := 0 } 4096 with
    num_fragments := num_fragments, max_fragments := 16 }

/-! ### The tool `sqfsdiff` -/

/-- The value of `EXIT_FAILURE` of `<stdlib.h>`. -/
def EXIT_FAILURE : Int := 1

/-- Source function `main` of `sqfsdiff.c` once `process_options` has returned:
the exit status as a function of the results of the two calls of
`sqfs_reader_open` (non-zero: the image could not be opened) and of
`node_compare`, none of which is among the sources. -/
def main (open_a open_b node_compare : Int) : Int :=
  let ret := EXIT_FAILURE
  if open_a ≠ 0 then EXIT_FAILURE
  else if open_b ≠ 0 then ret
  else
    let ret := node_compare
    let ret := if ret < 0 then 2 else ret
    ret

/-! ### Reading a table: `read_table.c` -/

/-- Modelled from the spec: `SQFS_META_BLOCK_SIZE` of the format header, which
is not among the sources; the spec gives a metadata block as 8 KiB. -/
def SQFS_META_BLOCK_SIZE : Nat := 8192

/-- The collaborators of `sqfs_read_table` that are not among the sources,
taken as parameters: `read_data_at` (location and size to result code and the
bytes stored in the buffer), `meta_reader_create` (`none` for `NULL`),
`meta_reader_seek` (reader, block start and offset to result code and reader)
and `meta_reader_read` (reader and size to result code, reader and the bytes
stored through the pointer). `M` is the state of the meta reader. -/
structure table_env (M : Type) where
  read_data_at : Nat → Nat → Int × Buf
  meta_reader_create : Option M
  meta_reader_seek : M → Nat → Nat → Int × M
  meta_reader_read : M → Nat → Int × M × Buf

/-- A call made by the read loop of `sqfs_read_table`: `seek blk_idx start
offset` is `meta_reader_seek(m, start, offset)` with `start` taken from
`locations[blk_idx]`; `read ptr size` is `meta_reader_read(m, data + ptr, size)`. -/
inductive table_op where
  | seek (blk_idx start offset : Nat)
  | read (ptr size : Nat)
  deriving DecidableEq, Repr

/-- How a run ends: the loop is still running when the fuel is used up, the
location list is read outside its allocation, or there is a result. -/
inductive exec_t (α : Type) where
  | out_of_fuel
  | out_of_bounds
  | done (a : α)

/-- The result of `sqfs_read_table`: the returned pointer (`none` for `NULL`)
and three ghost fields: the size passed to `read_data_at`, the calls of the
meta reader in order, and `ptr - data` at the end. -/
structure read_table_t where
  data : Option Buf
  list_size : Nat
  ops : List table_op
  filled : Nat

/-- The C expression `le64toh(locations[i])` on the bytes of the location
list: the little-endian value of the eight bytes from `8 * i` on. -/
def le64toh_at (locations : Buf) (i : Nat) : Nat :=
  ((List.range 8).map (fun j => locations (8 * i + j) * 256 ^ j)).sum

/-- The `while (table_size > 0)` loop of `sqfs_read_table`, one unit of fuel
per iteration; `list_size` is the size of the allocation behind `locations`,
`ptr` is `ptr - data`. The result is the table (`none` after `goto fail`), the
calls made and the final `ptr`. -/
def table_loop {M : Type} (env : table_env M) (locations : Buf) (list_size : Nat) :
    Nat → Nat → Nat → Nat → M → Buf → List table_op →
      exec_t (Option Buf × List table_op × Nat)
  | 0, table_size, _, ptr, _, data, ops =>
    if table_size > 0 then exec_t.out_of_fuel else exec_t.done (some data, ops, ptr)
  | fuel + 1, table_size, blk_idx, ptr, m, data, ops =>
    if table_size > 0 then
      if 8 * blk_idx + 8 > list_size then exec_t.out_of_bounds
      else
        let start := le64toh_at locations blk_idx
        let ops := ops ++ [table_op.seek blk_idx start 0]
        let blk_idx := blk_idx + 1
        let sk := env.meta_reader_seek m start 0
        if sk.1 ≠ 0 then exec_t.done (none, ops, ptr)
        else
          let diff := SQFS_META_BLOCK_SIZE
          let diff := if diff > table_size then table_size else diff
          let rd := env.meta_reader_read sk.2 diff
          let ops := ops ++ [table_op.read ptr diff]
          if rd.1 ≠ 0 then exec_t.done (none, ops, ptr)
          else
            let data := memcpy data ptr rd.2.2 diff
            table_loop env locations list_size fuel (table_size - diff) blk_idx (ptr + diff)
              rd.2.1 data ops
    else exec_t.done (some data, ops, ptr)

/-- Source function `sqfs_read_table`; both `malloc` calls are taken to
succeed. `table_size` is a `size_t`, so is `list_size`. Every iteration of the
read loop consumes at least one byte of `table_size`, so `block_count`
iterations suffice when the loop terminates at all. -/
def sqfs_read_table {M : Type} (env : table_env M) (table_size location : Nat) :
    exec_t read_table_t :=
  let data : Buf := fun _ => 0
  let block_count := table_size / SQFS_META_BLOCK_SIZE
  let block_count :=
    if table_size % SQFS_META_BLOCK_SIZE ≠ 0 then block_count + 1 else block_count
  let list_size := 8 * block_count % 2 ^ 64
  let r := env.read_data_at location list_size
  if r.1 ≠ 0 then
    exec_t.done { data := none, list_size := list_size, ops := [], filled := 0 }
  else
    match env.meta_reader_create with
    | none => exec_t.done { data := none, list_size := list_size, ops := [], filled := 0 }
    | some m =>
      match table_loop env r.2 list_size block_count table_size 0 0 m data [] with
      | exec_t.out_of_fuel => exec_t.out_of_fuel
      | exec_t.out_of_bounds => exec_t.out_of_bounds
      | exec_t.done (d, ops, filled) =>
        exec_t.done { data := d, list_size := list_size, ops := ops, filled := filled }

/-- The calls of iteration `i` as the statement words them: a seek to location
`i` at offset 0, then a read of `min(8192, table_size - 8192 * i)` bytes into
the output at byte offset `8192 * i`. -/
def table_step (locations : Buf) (table_size i : Nat) : List table_op :=
  [table_op.seek i (le64toh_at locations i) 0,
   table_op.read (8192 * i) (min 8192 (table_size - 8192 * i))]

/-- The calls of the whole read loop as the statement words them: the calls of
the iterations `0` to `ceil(table_size / 8192) - 1` in order. -/
def table_plan (locations : Buf) (table_size : Nat) : List table_op :=
  (List.range ((table_size + 8191) / 8192)).flatMap (table_step locations table_size)

/-- What can be compared of a run of `sqfs_read_table`: whether a table was
returned, the size of the location list, the calls and the bytes filled;
`none` when the run has no result. -/
def table_outcome (r : exec_t read_table_t) : Option (Bool × Nat × List table_op × Nat) :=
  match r with
  | exec_t.done a => some (a.data.isSome, a.list_size, a.ops, a.filled)
  | _ => none

/-- Byte `j` of the table a run returned; `none` when there is no table. -/
def table_byte (r : exec_t read_table_t) (j : Nat) : Option Nat :=
  match r with
  | exec_t.done a => a.data.map (fun d => d j)
  | _ => none

/-- Collaborators for the examples: the location list holds the 64-bit values
100, 101, ...; the meta reader's state is the pair of its block start and the
number of bytes read from it, seeking always succeeds, and reading yields bytes
whose value is the block start; reading fails once `limit` bytes have been read
from one block. -/
def sample_table_env (limit : Nat) : table_env (Nat × Nat) :=
  { read_data_at := fun _ _ => (0, fun j => if j % 8 = 0 then 100 + j / 8 else 0),
    meta_reader_create := some (0, 0),
    meta_reader_seek := fun _ start _ => (0, (start, 0)),
    meta_reader_read := fun m size =>
      if m.2 + size > limit then (-1, m, fun _ => 0)
      else (0, (m.1, m.2 + size), fun _ => m.1) }

/-! ## Part II: theorems -/

/-! ### Directory reader -/

/-- In state `ENTRIES` a read is one step of the underlying iterator. -/
theorem read_in_entries (rd : sqfs_dir_reader_t) (h : rd.state = DIR_STATE_ENTRIES) :
    (sqfs_dir_reader_read rd).1 = (sqfs_meta_reader_readdir rd.it).1 ∧
    (sqfs_dir_reader_read rd).2.2 = (sqfs_meta_reader_readdir rd.it).2.2.map Prod.fst ∧
    (sqfs_dir_reader_read rd).2.1.state = DIR_STATE_ENTRIES ∧
    (sqfs_dir_reader_read rd).2.1.it = (sqfs_meta_reader_readdir rd.it).2.1 := by
  unfold sqfs_dir_reader_read sqfs_meta_reader_readdir
  rw [h]
  cases hT : rd.it.todo <;> simp [hT, h]

/-- In state `DOT_DOT` a read is one step of the underlying iterator, and the
reader moves on to `ENTRIES`. -/
theorem read_in_dot_dot (rd : sqfs_dir_reader_t) (h : rd.state = DIR_STATE_DOT_DOT) :
    (sqfs_dir_reader_read rd).1 = (sqfs_meta_reader_readdir rd.it).1 ∧
    (sqfs_dir_reader_read rd).2.2 = (sqfs_meta_reader_readdir rd.it).2.2.map Prod.fst ∧
    (sqfs_dir_reader_read rd).2.1.state = DIR_STATE_ENTRIES ∧
    (sqfs_dir_reader_read rd).2.1.it = (sqfs_meta_reader_readdir rd.it).2.1 := by
  unfold sqfs_dir_reader_read sqfs_meta_reader_readdir
  rw [h]
  cases hT : rd.it.todo <;> simp [hT, h]

/-- From state `ENTRIES` on, the reads are those of the underlying iterator. -/
theorem read_seq_entries (n : Nat) :
    ∀ rd : sqfs_dir_reader_t, rd.state = DIR_STATE_ENTRIES →
      read_seq n rd = readdir_seq n rd.it := by
  induction n with
  | zero => intro rd _; rfl
  | succ n ih =>
    intro rd h
    obtain ⟨h1, h2, h3, h4⟩ := read_in_entries rd h
    simp only [read_seq, readdir_seq]
    rw [ih _ h3, h4, h1, h2]

/-- From state `DOT_DOT` on, the reads are those of the underlying iterator. -/
theorem read_seq_dot_dot (n : Nat) (rd : sqfs_dir_reader_t)
    (h : rd.state = DIR_STATE_DOT_DOT) : read_seq n rd = readdir_seq n rd.it := by
  cases n with
  | zero => rfl
  | succ n =>
    obtain ⟨h1, h2, h3, h4⟩ := read_in_dot_dot rd h
    simp only [read_seq, readdir_seq]
    rw [read_seq_entries n _ h3, h4, h1, h2]

/-- From state `OPENED` on, the reads are ".", ".." and then those of the
underlying iterator. -/
theorem read_seq_opened (n : Nat) (rd : sqfs_dir_reader_t)
    (h : rd.state = DIR_STATE_OPENED) :
    read_seq (n + 2) rd =
      (0, (mk_dummy_entry [46]).2) :: (0, (mk_dummy_entry [46, 46]).2) :: readdir_seq n rd.it := by
  have e1 : sqfs_dir_reader_read rd =
      (0, { rd with state := DIR_STATE_DOT }, (mk_dummy_entry [46]).2) := by
    unfold sqfs_dir_reader_read
    rw [h]
    simp [mk_dummy_entry]
  have e2 : sqfs_dir_reader_read { rd with state := DIR_STATE_DOT } =
      (0, { rd with state := DIR_STATE_DOT_DOT }, (mk_dummy_entry [46, 46]).2) := by
    unfold sqfs_dir_reader_read
    simp [mk_dummy_entry]
  simp only [read_seq, e1, e2]
  rw [read_seq_dot_dot n _ rfl]

/-- What a successful `sqfs_dir_reader_open_dir` leaves behind: the iterator
stands at the start of the directory, and the state is `OPENED` when the
synthetic entries are requested and `ENTRIES` when they are not. -/
theorem open_dir_ok (rd rd' : sqfs_dir_reader_t) (inode : sqfs_inode_generic_t) (flags : Nat)
    (h : sqfs_dir_reader_open_dir rd inode flags = (0, rd')) :
    rd'.it = (sqfs_readdir_state_init inode).2 ∧ rd'.start_state = rd'.state ∧
    rd'.flags = rd.flags ∧
    rd'.state = (if rd.flags &&& SQFS_DIR_READER_DOT_ENTRIES ≠ 0 ∧
        flags &&& SQFS_DIR_OPEN_NO_DOT_ENTRIES = 0 then DIR_STATE_OPENED
      else DIR_STATE_ENTRIES) := by
  unfold sqfs_dir_reader_open_dir at h
  simp only at h
  by_cases hd : rd.flags &&& SQFS_DIR_READER_DOT_ENTRIES ≠ 0 ∧
      flags &&& SQFS_DIR_OPEN_NO_DOT_ENTRIES = 0
  · rw [if_pos hd]
    simp only [if_pos hd] at h
    split_ifs at h
    all_goals first
      | (simp only [Prod.mk.injEq] at h
         obtain ⟨h1, h2⟩ := h
         first
           | (subst h2; exact ⟨rfl, rfl, rfl, rfl⟩)
           | (exfalso; revert h1; simp [SQFS_ERROR_UNSUPPORTED, SQFS_ERROR_NO_ENTRY]; done)
           | (exfalso; simp_all))
  · rw [if_neg hd]
    simp only [if_neg hd] at h
    split_ifs at h
    all_goals first
      | (simp only [Prod.mk.injEq] at h
         obtain ⟨h1, h2⟩ := h
         first
           | (subst h2; exact ⟨rfl, rfl, rfl, rfl⟩)
           | (exfalso; revert h1; simp [SQFS_ERROR_UNSUPPORTED, SQFS_ERROR_NO_ENTRY]; done)
           | (exfalso; simp_all))

/-- C9: after a successful `sqfs_dir_reader_open_dir` with synthetic entries
enabled, the reads return an entry named "." and an entry named "..", and from
the third call on exactly what the underlying readdir iterator returns, in its
order, end-of-directory included; with synthetic entries disabled every read,
from the first, returns what the underlying iterator returns. -/
theorem c9_read_order (rd rd' : sqfs_dir_reader_t) (inode : sqfs_inode_generic_t)
    (flags : Nat) (h : sqfs_dir_reader_open_dir rd inode flags = (0, rd')) :
    (rd.flags &&& SQFS_DIR_READER_DOT_ENTRIES ≠ 0 ∧
        flags &&& SQFS_DIR_OPEN_NO_DOT_ENTRIES = 0 →
      ∀ n, ∃ e1 e2 : sqfs_dir_entry_t, e1.name = [46] ∧ e2.name = [46, 46] ∧
        read_seq (n + 2) rd' =
          (0, some e1) :: (0, some e2) :: readdir_seq n (sqfs_readdir_state_init inode).2) ∧
    (¬ (rd.flags &&& SQFS_DIR_READER_DOT_ENTRIES ≠ 0 ∧
        flags &&& SQFS_DIR_OPEN_NO_DOT_ENTRIES = 0) →
      ∀ n, read_seq n rd' = readdir_seq n (sqfs_readdir_state_init inode).2) := by
  obtain ⟨hit, _, _, hst⟩ := open_dir_ok rd rd' inode flags h
  constructor
  · intro hd n
    rw [if_pos hd] at hst
    refine ⟨⟨0, 0, SQFS_INODE_DIR, 0, [46]⟩, ⟨0, 0, SQFS_INODE_DIR, 1, [46, 46]⟩, rfl, rfl, ?_⟩
    rw [read_seq_opened n rd' hst, hit]
    rfl
  · intro hd n
    rw [if_neg hd] at hst
    rw [read_seq_entries n rd' hst, hit]

/-- C9, witness: the sample directory with children a, b, c reads as
'., .., a, b, c, end' with synthetic entries and as 'a, b, c, end' without. -/
theorem c9_read_order_witness :
    sqfs_dir_reader_open_dir (sample_reader [[97], [98], [99]] 1)
        (sample_root [[97], [98], [99]]) 0 = (0, (sample_open [[97], [98], [99]] 1 0).2) ∧
    ((sample_reader [[97], [98], [99]] 1).flags &&& SQFS_DIR_READER_DOT_ENTRIES ≠ 0 ∧
        0 &&& SQFS_DIR_OPEN_NO_DOT_ENTRIES = 0 →
      ∀ n, ∃ e1 e2 : sqfs_dir_entry_t, e1.name = [46] ∧ e2.name = [46, 46] ∧
        read_seq (n + 2) (sample_open [[97], [98], [99]] 1 0).2 =
          (0, some e1) :: (0, some e2) ::
            readdir_seq n (sqfs_readdir_state_init (sample_root [[97], [98], [99]])).2) ∧
    result_names (read_seq 6 (sample_open [[97], [98], [99]] 1 0).2) =
      [some [46], some [46, 46], some [97], some [98], some [99], none] ∧
    result_names (read_seq 4 (sample_open [[97], [98], [99]] 0 0).2) =
      [some [97], some [98], some [99], none] :=
  ⟨by decide,
   (c9_read_order (sample_reader [[97], [98], [99]] 1) (sample_open [[97], [98], [99]] 1 0).2
      (sample_root [[97], [98], [99]]) 0 (by decide)).1,
   by decide, by decide⟩

/-- With no current entry and the synthetic entries requested,
`sqfs_dir_reader_get_inode` refuses: in the states `NONE` and `OPENED` the
result is `SQFS_ERROR_SEQUENCE` and nothing is read. -/
theorem get_inode_no_entry (rd : sqfs_dir_reader_t)
    (h : rd.state = DIR_STATE_NONE ∨ rd.state = DIR_STATE_OPENED) :
    sqfs_dir_reader_get_inode rd = (SQFS_ERROR_SEQUENCE, rd, none) := by
  unfold sqfs_dir_reader_get_inode
  rcases h with h | h <;> rw [h]

/-- With the synthetic entries requested, `sqfs_dir_reader_get_inode` returns
`SQFS_ERROR_SEQUENCE` right after a successful `sqfs_dir_reader_open_dir` and
right after a following `sqfs_dir_reader_rewind`. -/
theorem get_inode_after_open_with_dots (rd rd' : sqfs_dir_reader_t)
    (inode : sqfs_inode_generic_t) (flags : Nat)
    (hd : rd.flags &&& SQFS_DIR_READER_DOT_ENTRIES ≠ 0 ∧
      flags &&& SQFS_DIR_OPEN_NO_DOT_ENTRIES = 0)
    (h : sqfs_dir_reader_open_dir rd inode flags = (0, rd')) :
    (sqfs_dir_reader_get_inode rd').1 = SQFS_ERROR_SEQUENCE ∧
    (sqfs_dir_reader_rewind rd').1 = 0 ∧
    (sqfs_dir_reader_get_inode (sqfs_dir_reader_rewind rd').2).1 = SQFS_ERROR_SEQUENCE := by
  obtain ⟨_, hss, _, hst⟩ := open_dir_ok rd rd' inode flags h
  rw [if_pos hd] at hst
  have hne : rd'.state ≠ DIR_STATE_NONE := by rw [hst]; decide
  refine ⟨by rw [get_inode_no_entry rd' (Or.inr hst)], ?_, ?_⟩
  · simp [sqfs_dir_reader_rewind, hne]
  · rw [get_inode_no_entry _ (Or.inr (by simp [sqfs_dir_reader_rewind, hne, hss, hst]))]

/-- C10, the failing case: a reader created without the synthetic entries is in
state `ENTRIES` right after `sqfs_dir_reader_open_dir` and right after
`sqfs_dir_reader_rewind`, before any entry has been read, and
`sqfs_dir_reader_get_inode` then reads the inode at the stale reference
`ent_ref` (0 after `calloc`) and returns 0 instead of `SQFS_ERROR_SEQUENCE`. -/
theorem c10_get_inode_before_read :
    (sample_open [[97]] 0 0).1 = 0 ∧
    (sample_open [[97]] 0 0).2.state = DIR_STATE_ENTRIES ∧
    (sqfs_dir_reader_get_inode (sample_open [[97]] 0 0).2).1 = 0 ∧
    (sqfs_dir_reader_get_inode (sample_open [[97]] 0 0).2).2.2 = some (sample_file_inode 0) ∧
    (sqfs_dir_reader_rewind (sample_open [[97]] 0 0).2).1 = 0 ∧
    (sqfs_dir_reader_get_inode (sqfs_dir_reader_rewind (sample_open [[97]] 0 0).2).2).1 = 0 ∧
    (sqfs_dir_reader_get_inode (sample_open [[97]] 0 0).2).1 ≠ SQFS_ERROR_SEQUENCE := by
  decide

/-- C1, the failing case: in a directory whose only child is named "-a", read
with the synthetic entries enabled, the sequential scan returns the entry "-a"
and resolves its inode, while `sqfs_dir_reader_find` stops at the synthetic
entry "." (which compares greater than "-a") and returns
`SQFS_ERROR_NO_ENTRY`; with the synthetic entries disabled both agree. -/
theorem c1_find_misses_entry :
    (sample_open [[45, 97]] 1 0).1 = 0 ∧
    (sequential_scan (sample_open [[45, 97]] 1 0).2 [45, 97]).map Prod.fst = some 0 ∧
    resolved_inode (sequential_scan (sample_open [[45, 97]] 1 0).2 [45, 97]) =
      some (sample_file_inode 0) ∧
    (sqfs_dir_reader_find (sample_open [[45, 97]] 1 0).2 [45, 97]).map Prod.fst =
      some SQFS_ERROR_NO_ENTRY ∧
    (sqfs_dir_reader_find (sample_open [[45, 97]] 0 0).2 [45, 97]).map Prod.fst = some 0 ∧
    resolved_inode (sqfs_dir_reader_find (sample_open [[45, 97]] 0 0).2 [45, 97]) =
      some (sample_file_inode 0) := by
  decide

/-! ### Data writer: the sparse map -/

/-- Source function `allign_file` never fails in the embedding. -/
theorem allign_file_ret (data : data_writer_t) : (allign_file data).1 = 0 := by
  by_cases hd : data.super.bytes_used % data.devblksz = 0 <;> simp [allign_file, hd]

/-- Source function `begin_file` returns 0 and leaves the file size, the block
size, the input, the file list and the record of handed regions alone. -/
theorem begin_file_ok (s : wstate) (flags : Nat) :
    (begin_file s flags).1 = 0 ∧ (begin_file s flags).2.handed = s.handed ∧
    (begin_file s flags).2.fi.size = s.fi.size ∧ (begin_file s flags).2.infd = s.infd ∧
    (begin_file s flags).2.data.super.block_size = s.data.super.block_size ∧
    (begin_file s flags).2.data.block_idx = 0 ∧ (begin_file s flags).2.fi.sparse = 0 ∧
    (begin_file s flags).2.fi.flags = s.fi.flags := by
  by_cases hf : flags &&& DW_ALLIGN_DEVBLK = 0 <;>
    by_cases hd : s.data.super.bytes_used % s.data.devblksz = 0 <;>
    simp [begin_file, allign_file, hf, hd]

/-- The validation loop stops with `fail_map` at the first entry that starts
before the 64-bit end of its predecessor. -/
theorem map_check_loop_unordered (pre post : List sparse_map_t) (a b : sparse_map_t)
    (h : b.offset < (a.offset + a.count) % 2 ^ 64) :
    ∀ offset, map_check_loop offset (pre ++ a :: b :: post) = none := by
  induction pre with
  | nil =>
    intro offset
    simp only [List.nil_append, map_check_loop]
    split
    · rfl
    · simp [h]
  | cons p pre ih =>
    intro offset
    simp only [List.cons_append, map_check_loop]
    split
    · rfl
    · exact ih _

/-- An unordered or self-overlapping map does not pass the validation step. -/
theorem map_check_unordered (pre post : List sparse_map_t) (a b : sparse_map_t) (size : Nat)
    (h : b.offset < (a.offset + a.count) % 2 ^ 64) :
    map_check (pre ++ a :: b :: post) size = -1 := by
  cases pre with
  | nil =>
    have e := map_check_loop_unordered [] post a b h a.offset
    simp only [List.nil_append] at e
    simp only [List.nil_append, map_check, e]
  | cons p pre =>
    have e := map_check_loop_unordered (p :: pre) post a b h p.offset
    simp only [List.cons_append] at e
    simp only [List.cons_append, map_check, e]

/-- C3: `write_data_from_fd_condensed` returns an error, and hands no block to
`flush_data_block`, for every sparse map in which some entry starts before the
end of the entry before it. The end of an entry is the 64-bit sum
`offset + count` the code computes, which is the mathematical end whenever that
fits 64 bits. -/
theorem c3_unordered_map_rejected (env : env_t) (s : wstate) (flags : Nat)
    (pre post : List sparse_map_t) (a b : sparse_map_t)
    (h : b.offset < (a.offset + a.count) % 2 ^ 64) :
    ∃ s', write_data_from_fd_condensed env s (pre ++ a :: b :: post) flags = some (-1, s') ∧
      s'.handed = s.handed := by
  obtain ⟨h1, h2, -⟩ := begin_file_ok s flags
  refine ⟨(begin_file s flags).2, ?_, h2⟩
  unfold write_data_from_fd_condensed
  simp only [h1, ne_eq, not_true_eq_false, if_false]
  rw [map_check_unordered pre post a b _ h]
  simp

/-- C3, witness: the maps `[(10,5),(12,5)]` and `[(0,5),(3,2)]` are rejected
before any block is handed on. -/
theorem c3_unordered_map_rejected_witness :
    ((12 : Nat) < (10 + 5) % 2 ^ 64 ∧
      ∃ s', write_data_from_fd_condensed (sample_env 0) (sample_state 4 1 0 20 [1, 2, 3, 4])
          ([] ++ (⟨10, 5⟩ : sparse_map_t) :: ⟨12, 5⟩ :: []) 0 = some (-1, s') ∧
        s'.handed = (sample_state 4 1 0 20 [1, 2, 3, 4]).handed) ∧
    outcome (write_data_from_fd_condensed (sample_env 0) (sample_state 4 1 0 20 [1, 2, 3, 4])
        [⟨0, 5⟩, ⟨3, 2⟩] 0) =
      some { ret := -1, handed := [], infd := [1, 2, 3, 4],
             outfd := { content := [], pos := 0, written := 0 }, bytes_used := 0, start := 0,
             startblock := 0, flags := 0, sparse := 0, block_idx := 0 } :=
  ⟨⟨by decide,
    c3_unordered_map_rejected (sample_env 0) (sample_state 4 1 0 20 [1, 2, 3, 4]) 0 [] []
      ⟨10, 5⟩ ⟨12, 5⟩ (by decide)⟩,
   by decide⟩

/-- The validation loop on entries whose 64-bit sums do not wrap: when it
ends without `fail_map`, every entry starts at or after the running offset and
at or after the end of its predecessors, and ends at or before the final
offset. -/
theorem map_check_loop_sound :
    ∀ (map : List sparse_map_t) (offset final : Nat),
      (∀ m ∈ map, m.offset + m.count < 2 ^ 64) →
      map_check_loop offset map = some final →
      offset ≤ final ∧ (∀ m ∈ map, offset ≤ m.offset ∧ m.offset + m.count ≤ final) ∧
      map.Pairwise (fun a b => a.offset + a.count ≤ b.offset) := by
  intro map
  induction map with
  | nil =>
    intro offset final _ h
    simp only [map_check_loop, Option.some.injEq] at h
    subst h
    exact ⟨le_refl _, by simp, List.Pairwise.nil⟩
  | cons m rest ih =>
    intro offset final hnw h
    simp only [map_check_loop] at h
    split_ifs at h with hlt
    rw [Nat.mod_eq_of_lt (hnw m (by simp))] at h
    obtain ⟨i1, i2, i3⟩ := ih _ final (fun m' hm' => hnw m' (by simp [hm'])) h
    refine ⟨by omega, ?_, ?_⟩
    · intro m' hm'
      rcases List.mem_cons.mp hm' with e | e
      · subst e; omega
      · have := i2 m' e; omega
    · exact List.Pairwise.cons (fun m' hm' => (i2 m' hm').1) i3

/-- On maps whose 64-bit sums `offset + count` do not wrap, an accepted map is
ordered, pairwise non-overlapping and within the file size. -/
theorem map_check_sound (map : List sparse_map_t) (size : Nat)
    (hnw : ∀ m ∈ map, m.offset + m.count < 2 ^ 64) (h : map_check map size = 0) :
    map.Pairwise (fun a b => a.offset + a.count ≤ b.offset) ∧
    ∀ m ∈ map, m.offset + m.count ≤ size := by
  cases map with
  | nil => exact ⟨List.Pairwise.nil, by simp⟩
  | cons m rest =>
    simp only [map_check] at h
    split at h
    · simp at h
    · rename_i final heq
      by_cases hgt : final > size
      · simp [hgt] at h
      · obtain ⟨_, i2, i3⟩ := map_check_loop_sound _ _ _ hnw heq
        exact ⟨i3, fun m' hm' => by have := i2 m' hm'; omega⟩

/-- C4, the failing case: the validation step accepts the one-entry map
`(5, 2^64 - 3)` for a file of 10 bytes, because the 64-bit sum
`offset + count` wraps to 2, although the entry extends far past the file size;
and the two-entry map `(5, 2^64 - 3), (6, 1)`, whose second entry lies inside
the first, is accepted as well and the write goes on to hand blocks to
`flush_data_block` and returns 0. -/
theorem c4_wrapping_map_accepted :
    map_check [⟨5, 2 ^ 64 - 3⟩] 10 = 0 ∧
    (5 : Nat) < 2 ^ 64 ∧ (2 ^ 64 - 3 : Nat) < 2 ^ 64 ∧ ¬ (5 + (2 ^ 64 - 3) ≤ 10) ∧
    map_check [⟨5, 2 ^ 64 - 3⟩, ⟨6, 1⟩] 10 = 0 ∧
    (outcome (write_data_from_fd_condensed (sample_env 0) (sample_state 4 1 0 10 [1, 2, 3, 4])
        [⟨5, 2 ^ 64 - 3⟩, ⟨6, 1⟩] 0)).map outcome_t.ret = some 0 := by
  decide

/-- C2, the failing case: block size 4, file size 8, map `[(2,4)]`, condensed
input 1, 2, 3, 4. The map passes the validation and the write returns 0, but
the entry crosses the block boundary: the first block receives the two bytes
that fit and the loop then moves on to the next map entry, so the second block
stays zero and only two of the four input bytes are read. The sparse expansion
is 0, 0, 1, 2, 3, 4, 0, 0. -/
theorem c2_entry_across_blocks :
    map_check [⟨2, 4⟩] 8 = 0 ∧
    sparse_expand [1, 2, 3, 4] [⟨2, 4⟩] 8 = [0, 0, 1, 2, 3, 4, 0, 0] ∧
    map_total [⟨2, 4⟩] = 4 ∧
    (write_data_from_fd_condensed (sample_env 0) (sample_state 4 1 0 8 [1, 2, 3, 4])
        [⟨2, 4⟩] 0).map (fun r => (r.1, handed_bytes r.2, r.2.infd)) =
      some (0, [0, 0, 1, 2, 0, 0, 0, 0], [3, 4]) := by
  decide

/-- What `begin_file` records: the rollback point `data.start` is the file
offset before any padding, and `fi.startblock` is `super.bytes_used` after the
padding, which is `super.bytes_used` before it when the alignment flag is
clear. -/
theorem begin_file_marks (s : wstate) (flags : Nat) :
    (begin_file s flags).2.data.start = s.data.outfd.pos ∧
    (begin_file s flags).2.fi.startblock = (begin_file s flags).2.data.super.bytes_used ∧
    (flags &&& DW_ALLIGN_DEVBLK = 0 →
      (begin_file s flags).2.data.super.bytes_used = s.data.super.bytes_used) ∧
    (flags &&& DW_ALLIGN_DEVBLK ≠ 0 → s.data.super.bytes_used % s.data.devblksz ≠ 0 →
      (begin_file s flags).2.data.super.bytes_used = s.data.super.bytes_used +
        (s.data.devblksz - s.data.super.bytes_used % s.data.devblksz)) := by
  by_cases hf : flags &&& DW_ALLIGN_DEVBLK = 0 <;>
    by_cases hd : s.data.super.bytes_used % s.data.devblksz = 0 <;>
    simp [begin_file, allign_file, hf, hd]

/-- What `deduplicate_data` does on a match: the file starts at the match and
is flagged, the output is positioned at and truncated to the rollback point
`data.start`, and `super.bytes_used` becomes the former `fi.startblock`. -/
theorem deduplicate_data_match (env : env_t) (s : wstate)
    (h : env.find_equal_blocks s.fi s.data.list s.data.super.block_size > 0) :
    (deduplicate_data env s).2.fi.startblock =
      env.find_equal_blocks s.fi s.data.list s.data.super.block_size ∧
    (deduplicate_data env s).2.fi.flags &&& FILE_FLAG_BLOCKS_ARE_DUPLICATE ≠ 0 ∧
    (deduplicate_data env s).2.data.outfd.pos = s.data.start ∧
    (deduplicate_data env s).2.data.outfd.content.length = s.data.start ∧
    (deduplicate_data env s).2.data.super.bytes_used = s.fi.startblock := by
  have hbit : (s.fi.flags ||| FILE_FLAG_BLOCKS_ARE_DUPLICATE) &&&
      FILE_FLAG_BLOCKS_ARE_DUPLICATE ≠ 0 := by
    intro h0
    have e := congrArg (fun x => Nat.testBit x 2) h0
    have h4 : Nat.testBit 4 2 = true := by decide
    simp [FILE_FLAG_BLOCKS_ARE_DUPLICATE, h4] at e
  have hlen : (ftruncate (lseek_set s.data.outfd s.data.start) s.data.start).content.length =
      s.data.start := by
    simp only [ftruncate, lseek_set, List.length_append, List.length_take, List.length_replicate]
    omega
  unfold deduplicate_data
  rw [if_pos h]
  exact ⟨rfl, hbit, rfl, hlen, rfl⟩

/-- C5, the failing case: device block size 4, an image of 6 bytes with
`super.bytes_used = 6` and the file offset at 6, a one-block file written with
`DW_ALLIGN_DEVBLK`, and a dedup scanner that finds an equal block run at 2.
`begin_file` records the rollback point 6 and pads to 8; after the match the
file starts at 2, is flagged, and the image is truncated to 6 bytes, but
`super.bytes_used` is 8. Without the flag it is 6. -/
theorem c5_dedup_after_alignment :
    outcome (write_data_from_fd (sample_env 2) (sample_state 4 4 6 4 [1, 2, 3, 4])
        DW_ALLIGN_DEVBLK) =
      some { ret := 0, handed := [([1, 2, 3, 4], true)], infd := [],
             outfd := { content := [255, 255, 255, 255, 255, 255], pos := 6, written := 6 },
             bytes_used := 8, start := 6, startblock := 2,
             flags := FILE_FLAG_BLOCKS_ARE_DUPLICATE, sparse := 0, block_idx := 1 } ∧
    outcome (write_data_from_fd (sample_env 2) (sample_state 4 4 6 4 [1, 2, 3, 4]) 0) =
      some { ret := 0, handed := [([1, 2, 3, 4], true)], infd := [],
             outfd := { content := [255, 255, 255, 255, 255, 255], pos := 6, written := 4 },
             bytes_used := 6, start := 6, startblock := 2,
             flags := FILE_FLAG_BLOCKS_ARE_DUPLICATE, sparse := 0, block_idx := 1 } := by
  decide

/-! ### Data writer: `write_compressed` -/

/-- A region of `n` bytes has `n` bytes. -/
theorem bytes_length (p : Buf) (n : Nat) : (bytes p n).length = n := by
  simp [bytes]

/-- Setting bit 24 of a size below 2^24 adds 2^24. -/
theorem or_bit24 (size : Nat) (h : size < 2 ^ 24) : size ||| (1 <<< 24) = size + 2 ^ 24 := by
  have e := Nat.mul_add_lt_is_or h 1
  rw [Nat.mul_one] at e
  rw [Nat.one_shiftLeft, Nat.or_comm, ← e, Nat.add_comm]

/-- Bit 24 is set after it has been or-ed in. -/
theorem and_bit24_set (size : Nat) (h : size < 2 ^ 24) :
    (size ||| (1 <<< 24)) &&& (1 <<< 24) ≠ 0 := by
  rw [or_bit24 size h, Nat.one_shiftLeft, Nat.and_two_pow, Nat.add_comm,
    Nat.testBit_two_pow_add_eq, Nat.testBit_lt_two_pow h]
  decide

/-- Bit 24 of a number below 2^24 is clear. -/
theorem and_bit24_clear (r : Nat) (h : r < 2 ^ 24) : r &&& (1 <<< 24) = 0 := by
  rw [Nat.one_shiftLeft, Nat.and_two_pow]
  simp [Nat.testBit_lt_two_pow h]

/-- C8: for a region of `size` bytes with `1 ≤ size ≤ block_size < 2^24`, a
successful `write_compressed` writes exactly the `r` compressed bytes and
records the descriptor `r` with bit 24 clear when compression is not disabled
and the compressor returns `0 < r < size`; otherwise it writes the `size` raw
bytes and records `size` with bit 24 set. In both cases `super.bytes_used`
grows by the number of bytes written, which is the low 24 bits of the
descriptor and at most `size`. -/
theorem c8_write_compressed (env : env_t) (s s' : wstate) (inp scratch : Buf)
    (size flags out : Nat) (r : Int)
    (_h1 : 1 ≤ size) (h2 : size ≤ s.data.super.block_size)
    (h3 : s.data.super.block_size < 2 ^ 24)
    (hr : env.do_block (bytes inp size) s.data.super.block_size = (r, scratch))
    (hres : write_compressed env s inp size flags = (0, s', out)) :
    (flags &&& DW_DONT_COMPRESS = 0 ∧ 0 < r ∧ r < (size : Int) →
      (out : Int) = r ∧ out &&& (1 <<< 24) = 0 ∧
      s'.data.outfd = write_data s.data.outfd (bytes scratch r.toNat)) ∧
    (¬ (flags &&& DW_DONT_COMPRESS = 0 ∧ 0 < r ∧ r < (size : Int)) →
      out = size ||| (1 <<< 24) ∧ out &&& (1 <<< 24) ≠ 0 ∧
      s'.data.outfd = write_data s.data.outfd (bytes inp size)) ∧
    s'.data.super.bytes_used = s.data.super.bytes_used + out % 2 ^ 24 ∧
    s'.data.outfd.written = s.data.outfd.written + out % 2 ^ 24 ∧
    out % 2 ^ 24 ≤ size := by
  have hs : size < 2 ^ 24 := lt_of_le_of_lt h2 h3
  unfold write_compressed at hres
  by_cases hf : flags &&& DW_DONT_COMPRESS = 0
  · simp only [hf, if_true, hr, true_and] at hres
    by_cases hneg : r < 0
    · simp [hneg] at hres
    · simp only [hneg, if_false] at hres
      by_cases hc : r > 0 ∧ r.toNat < size
      · simp only [hc, and_self, if_true, Prod.mk.injEq, true_and] at hres
        obtain ⟨hs', hout⟩ := hres
        have hrn : r.toNat < 2 ^ 24 := lt_trans hc.2 hs
        have hmod : r.toNat % 2 ^ 32 = r.toNat := Nat.mod_eq_of_lt (by omega)
        rw [hmod] at hout
        subst hout
        subst hs'
        have hcast : ((r.toNat : Nat) : Int) = r := Int.toNat_of_nonneg (le_of_lt hc.1)
        refine ⟨fun _ => ⟨hcast, and_bit24_clear _ hrn, rfl⟩, fun hn => ?_, ?_, ?_, ?_⟩
        · exact absurd ⟨hf, hc.1, by omega⟩ hn
        · rw [Nat.mod_eq_of_lt hrn]
        · rw [Nat.mod_eq_of_lt hrn]; simp [write_data, bytes_length]
        · rw [Nat.mod_eq_of_lt hrn]; exact le_of_lt hc.2
      · simp only [hc, if_false, Prod.mk.injEq, true_and] at hres
        obtain ⟨hs', hout⟩ := hres
        have hmod : (size ||| 1 <<< 24) % 2 ^ 32 = size ||| 1 <<< 24 := by
          rw [or_bit24 size hs]; exact Nat.mod_eq_of_lt (by omega)
        rw [hmod] at hout
        subst hout
        subst hs'
        have hlow : (size ||| 1 <<< 24) % 2 ^ 24 = size := by
          rw [or_bit24 size hs]; omega
        refine ⟨fun hy => ?_, fun _ => ⟨rfl, and_bit24_set size hs, rfl⟩, ?_, ?_, ?_⟩
        · exact absurd ⟨hy.2.1, by omega⟩ hc
        · rw [hlow]
        · rw [hlow]; simp [write_data, bytes_length]
        · rw [hlow]
  · simp only [hf, if_false, false_and] at hres
    have hc : ¬ ((0 : Int) > 0 ∧ (0 : Int).toNat < size) := by simp
    simp only [hc, if_false, Prod.mk.injEq, true_and] at hres
    obtain ⟨hs', hout⟩ := hres
    have hmod : (size ||| 1 <<< 24) % 2 ^ 32 = size ||| 1 <<< 24 := by
      rw [or_bit24 size hs]; exact Nat.mod_eq_of_lt (by omega)
    rw [hmod] at hout
    subst hout
    subst hs'
    have hlow : (size ||| 1 <<< 24) % 2 ^ 24 = size := by
      rw [or_bit24 size hs]; omega
    refine ⟨fun hy => absurd hy.1 hf, fun _ => ⟨rfl, and_bit24_set size hs, rfl⟩, ?_, ?_, ?_⟩
    · rw [hlow]
    · rw [hlow]; simp [write_data, bytes_length]
    · rw [hlow]


/-! ### Data writer: counting block descriptors -/

/-- Or-ing in another flag bit leaves the fragment bit alone. -/
theorem has_fragment_or (f m : Nat) (hm : m &&& FILE_FLAG_HAS_FRAGMENT = 0) :
    (f ||| m) &&& FILE_FLAG_HAS_FRAGMENT = f &&& FILE_FLAG_HAS_FRAGMENT := by
  rw [Nat.and_distrib_right, hm, Nat.or_zero]

/-- The fragment bit is set after it has been or-ed in. -/
theorem has_fragment_set (f : Nat) :
    (f ||| FILE_FLAG_HAS_FRAGMENT) &&& FILE_FLAG_HAS_FRAGMENT = FILE_FLAG_HAS_FRAGMENT := by
  rw [Nat.and_distrib_right, Nat.and_self]
  unfold FILE_FLAG_HAS_FRAGMENT
  rw [Nat.and_one_is_mod]
  rcases Nat.mod_two_eq_zero_or_one f with h | h <;> rw [h] <;> rfl

/-- What `deduplicate_data` leaves alone; it never fails in the embedding. -/
theorem deduplicate_data_frame (env : env_t) (s : wstate) :
    (deduplicate_data env s).1 = 0 ∧
    (deduplicate_data env s).2.data.block_idx = s.data.block_idx ∧
    (deduplicate_data env s).2.data.super.block_size = s.data.super.block_size ∧
    (deduplicate_data env s).2.fi.size = s.fi.size ∧
    (deduplicate_data env s).2.fi.flags &&& FILE_FLAG_HAS_FRAGMENT =
      s.fi.flags &&& FILE_FLAG_HAS_FRAGMENT := by
  unfold deduplicate_data
  simp only
  split
  · refine ⟨rfl, rfl, rfl, rfl, ?_⟩
    exact has_fragment_or _ _ (by decide)
  · exact ⟨rfl, rfl, rfl, rfl, rfl⟩

/-- What `write_compressed` leaves alone. -/
theorem write_compressed_frame (env : env_t) (s : wstate) (inp : Buf) (size flags : Nat) :
    (write_compressed env s inp size flags).2.1.data.block_idx = s.data.block_idx ∧
    (write_compressed env s inp size flags).2.1.data.super.block_size =
      s.data.super.block_size ∧
    (write_compressed env s inp size flags).2.1.fi = s.fi := by
  unfold write_compressed
  simp only
  split_ifs <;> exact ⟨rfl, rfl, rfl⟩

/-- What `flush_fragments` leaves alone. -/
theorem flush_fragments_frame (env : env_t) (s : wstate) :
    (flush_fragments env s).2.data.block_idx = s.data.block_idx ∧
    (flush_fragments env s).2.data.super.block_size = s.data.super.block_size ∧
    (flush_fragments env s).2.fi = s.fi := by
  have hg : (grow_fragment_table s.data).2.block_idx = s.data.block_idx ∧
      (grow_fragment_table s.data).2.super = s.data.super := by
    unfold grow_fragment_table
    split <;> exact ⟨rfl, rfl⟩
  have hw := write_compressed_frame env { s with data := (grow_fragment_table s.data).2 }
    (grow_fragment_table s.data).2.fragment (grow_fragment_table s.data).2.frag_offset 0
  simp only [hg] at hw
  unfold flush_fragments
  simp only
  split_ifs <;> simp [hw, hg]

/-- The sparse branch records one more block descriptor and leaves the
fragment bit alone. -/
theorem flush_sparse_count (env : env_t) (s : wstate) (size : Nat) (is_last : Bool) :
    (flush_sparse env s size is_last).1 = 0 ∧
    (flush_sparse env s size is_last).2.data.super.block_size = s.data.super.block_size ∧
    (flush_sparse env s size is_last).2.fi.size = s.fi.size ∧
    (flush_sparse env s size is_last).2.data.block_idx = s.data.block_idx + 1 ∧
    (flush_sparse env s size is_last).2.fi.flags &&& FILE_FLAG_HAS_FRAGMENT =
      s.fi.flags &&& FILE_FLAG_HAS_FRAGMENT := by
  unfold flush_sparse
  simp only
  split_ifs
  · simp [deduplicate_data_frame]
  · simp

/-- The fragment branch records no block descriptor and sets the fragment
bit. -/
theorem flush_tail_count (env : env_t) (s : wstate) (size chksum : Nat) :
    (flush_tail env s size chksum).2.data.super.block_size = s.data.super.block_size ∧
    (flush_tail env s size chksum).2.fi.size = s.fi.size ∧
    (flush_tail env s size chksum).2.data.block_idx = s.data.block_idx ∧
    (flush_tail env s size chksum).2.fi.flags &&& FILE_FLAG_HAS_FRAGMENT ≠ 0 := by
  have hne : FILE_FLAG_HAS_FRAGMENT ≠ 0 := by decide
  have hdup : ∀ f, (f ||| FILE_FLAG_FRAGMENT_IS_DUPLICATE) &&& FILE_FLAG_HAS_FRAGMENT =
      f &&& FILE_FLAG_HAS_FRAGMENT := fun f => has_fragment_or f _ (by decide)
  unfold flush_tail
  simp only
  split_ifs <;> (try split) <;>
    simp [deduplicate_data_frame, flush_fragments_frame, has_fragment_set, hne, hdup]

/-- The full-block branch, when it succeeds, records one more block descriptor
and leaves the fragment bit alone. -/
theorem flush_block_count (env : env_t) (s : wstate) (size : Nat) (is_last : Bool)
    (flags chksum : Nat) (h : (flush_block env s size is_last flags chksum).1 = 0) :
    (flush_block env s size is_last flags chksum).2.data.super.block_size =
      s.data.super.block_size ∧
    (flush_block env s size is_last flags chksum).2.fi.size = s.fi.size ∧
    (flush_block env s size is_last flags chksum).2.data.block_idx = s.data.block_idx + 1 ∧
    (flush_block env s size is_last flags chksum).2.fi.flags &&& FILE_FLAG_HAS_FRAGMENT =
      s.fi.flags &&& FILE_FLAG_HAS_FRAGMENT := by
  revert h
  unfold flush_block
  simp only
  split_ifs <;> simp [deduplicate_data_frame, write_compressed_frame]

/-- The block index and the fragment bit after one successful
`flush_data_block`: either one more block descriptor and the fragment bit as
before, or (only for a region shorter than a block) the same block index and
the fragment bit set. -/
theorem flush_data_block_count (env : env_t) (s : wstate) (size : Nat) (is_last : Bool)
    (flags : Nat) (h : (flush_data_block env s size is_last flags).1 = 0) :
    (flush_data_block env s size is_last flags).2.data.super.block_size =
      s.data.super.block_size ∧
    (flush_data_block env s size is_last flags).2.fi.size = s.fi.size ∧
    (((flush_data_block env s size is_last flags).2.data.block_idx = s.data.block_idx + 1 ∧
        (flush_data_block env s size is_last flags).2.fi.flags &&& FILE_FLAG_HAS_FRAGMENT =
          s.fi.flags &&& FILE_FLAG_HAS_FRAGMENT) ∨
      (size < s.data.super.block_size ∧
        (flush_data_block env s size is_last flags).2.data.block_idx = s.data.block_idx ∧
        (flush_data_block env s size is_last flags).2.fi.flags &&& FILE_FLAG_HAS_FRAGMENT ≠ 0)) := by
  revert h
  unfold flush_data_block
  simp only
  split_ifs with h1 h2
  · intro _
    have e := flush_sparse_count env
      { s with handed := s.handed ++ [(bytes s.data.block size, is_last)] } size is_last
    exact ⟨e.2.1, e.2.2.1, Or.inl ⟨e.2.2.2.1, e.2.2.2.2⟩⟩
  · intro _
    have e := flush_tail_count env
      { s with handed := s.handed ++ [(bytes s.data.block size, is_last)] } size
      (env.update_crc32 0 (bytes s.data.block size))
    exact ⟨e.1, e.2.1, Or.inr ⟨h2.1, e.2.2.1, e.2.2.2⟩⟩
  · intro h
    have e := flush_block_count env
      { s with handed := s.handed ++ [(bytes s.data.block size, is_last)] } size is_last flags
      (env.update_crc32 0 (bytes s.data.block size)) h
    exact ⟨e.1, e.2.1, Or.inl ⟨e.2.2.1, e.2.2.2⟩⟩

/-- Rounding up: one full block more is one more block. -/
theorem ceil_div_step (count bs : Nat) (h1 : 1 ≤ bs) (h2 : bs < count) :
    (count + bs - 1) / bs = (count - bs + bs - 1) / bs + 1 := by
  have e : count + bs - 1 = (count - bs + bs - 1) + bs := by omega
  rw [e, Nat.add_div_right _ (by omega)]

/-- Rounding down: one full block more is one more block. -/
theorem floor_div_step (count bs : Nat) (h1 : 1 ≤ bs) (h2 : bs < count) :
    count / bs = (count - bs) / bs + 1 := by
  have e : count = (count - bs) + bs := by omega
  rw [← Nat.add_div_right _ (by omega : 0 < bs), ← e]

/-- Rounding up a last chunk of between 1 and `bs` bytes gives one block. -/
theorem ceil_div_last (count bs : Nat) (h1 : 1 ≤ count) (h2 : count ≤ bs) :
    (count + bs - 1) / bs = 1 := by
  apply Nat.div_eq_of_lt_le
  · omega
  · omega

/-- With nothing left to write the loop of `write_data_from_fd` is over. -/
theorem fd_loop_done (env : env_t) (flags fuel : Nat) (s : wstate) :
    fd_loop env flags fuel 0 s = some (0, s) := by
  cases fuel <;> simp [fd_loop]

/-- The loop of `write_data_from_fd` counts blocks: started with the fragment
bit clear, a successful run ends with the block index advanced by the rounded
up quotient when the bit is still clear and by the rounded down quotient when
it is set. -/
theorem fd_loop_count (env : env_t) (flags : Nat) :
    ∀ (fuel count : Nat) (s s' : wstate),
      fd_loop env flags fuel count s = some (0, s') →
      1 ≤ s.data.super.block_size →
      s.fi.flags &&& FILE_FLAG_HAS_FRAGMENT = 0 →
      s'.data.super.block_size = s.data.super.block_size ∧ s'.fi.size = s.fi.size ∧
      ((s'.fi.flags &&& FILE_FLAG_HAS_FRAGMENT = 0 ∧
          s'.data.block_idx = s.data.block_idx +
            (count + s.data.super.block_size - 1) / s.data.super.block_size) ∨
        (s'.fi.flags &&& FILE_FLAG_HAS_FRAGMENT ≠ 0 ∧
          s'.data.block_idx = s.data.block_idx + count / s.data.super.block_size)) := by
  have hzero : ∀ (fuel : Nat) (s s' : wstate), fd_loop env flags fuel 0 s = some (0, s') →
      1 ≤ s.data.super.block_size → s.fi.flags &&& FILE_FLAG_HAS_FRAGMENT = 0 →
      s'.data.super.block_size = s.data.super.block_size ∧ s'.fi.size = s.fi.size ∧
      ((s'.fi.flags &&& FILE_FLAG_HAS_FRAGMENT = 0 ∧
          s'.data.block_idx = s.data.block_idx +
            (0 + s.data.super.block_size - 1) / s.data.super.block_size) ∨
        (s'.fi.flags &&& FILE_FLAG_HAS_FRAGMENT ≠ 0 ∧
          s'.data.block_idx = s.data.block_idx + 0 / s.data.super.block_size)) := by
    intro fuel s s' h hbs hfl
    rw [fd_loop_done] at h
    simp only [Option.some.injEq, Prod.mk.injEq, true_and] at h
    subst h
    refine ⟨rfl, rfl, Or.inl ⟨hfl, ?_⟩⟩
    rw [Nat.div_eq_of_lt (by omega)]
    rfl
  intro fuel
  induction fuel with
  | zero =>
    intro count s s' h hbs hfl
    cases count with
    | zero => exact hzero 0 s s' h hbs hfl
    | succ c => simp [fd_loop] at h
  | succ fuel ih =>
    intro count s s' h hbs hfl
    cases count with
    | zero => exact hzero _ s s' h hbs hfl
    | succ c =>
      by_cases hgt : c + 1 > s.data.super.block_size
      · simp only [fd_loop, hgt, if_true] at h
        split_ifs at h with hr hf
        · simp at h
        · simp at h
        · have hc := flush_data_block_count env _ _ _ _ (not_not.mp hf)
          simp only at hc
          obtain ⟨hc1, hc2, hc3⟩ := hc
          have hi := ih _ _ _ h (by rw [hc1]; exact hbs)
          rcases hc3 with ⟨hidx, hflag⟩ | ⟨hlt, _, _⟩
          · have hi' := hi (by rw [hflag]; exact hfl)
            rw [hc1, hc2, hidx] at hi'
            refine ⟨hi'.1, hi'.2.1, ?_⟩
            rcases hi'.2.2 with ⟨ha, hb⟩ | ⟨ha, hb⟩
            · left
              refine ⟨ha, ?_⟩
              rw [hb, ceil_div_step _ _ hbs hgt]
              omega
            · right
              refine ⟨ha, ?_⟩
              rw [hb, floor_div_step _ _ hbs hgt]
              omega
          · exact absurd hlt (lt_irrefl _)
      · simp only [fd_loop, hgt, if_false] at h
        split_ifs at h with hr hf
        · simp at h
        · simp at h
        · have hc := flush_data_block_count env _ _ _ _ (not_not.mp hf)
          simp only at hc
          obtain ⟨hc1, hc2, hc3⟩ := hc
          rw [Nat.sub_self, fd_loop_done] at h
          simp only [Option.some.injEq, Prod.mk.injEq, true_and] at h
          subst h
          refine ⟨hc1, hc2, ?_⟩
          rcases hc3 with ⟨hidx, hflag⟩ | ⟨hlt, hidx, hflag⟩
          · left
            refine ⟨by rw [hflag]; exact hfl, ?_⟩
            rw [hidx, ceil_div_last _ _ (by omega) (by omega)]
          · right
            refine ⟨hflag, ?_⟩
            rw [hidx, Nat.div_eq_of_lt hlt]
            rfl

/-- Filling the block buffer from the sparse map touches only the buffer and
the input. -/
theorem fill_block_frame (offset diff : Nat) :
    ∀ (map : List sparse_map_t) (s : wstate),
      (fill_block offset diff map s).2.1.fi = s.fi ∧
      (fill_block offset diff map s).2.1.data.super = s.data.super ∧
      (fill_block offset diff map s).2.1.data.block_idx = s.data.block_idx ∧
      (fill_block offset diff map s).2.1.handed = s.handed := by
  intro map
  induction map with
  | nil => intro s; exact ⟨rfl, rfl, rfl, rfl⟩
  | cons m rest ih =>
    intro s
    simp only [fill_block]
    split_ifs
    · exact ⟨rfl, rfl, rfl, rfl⟩
    · exact ih _
    · exact ⟨rfl, rfl, rfl, rfl⟩

/-- Past the end of the file the block loop of
`write_data_from_fd_condensed` is over. -/
theorem condensed_loop_done (env : env_t) (flags fuel offset : Nat) (map : List sparse_map_t)
    (s : wstate) (h : ¬ offset < s.fi.size) :
    condensed_loop env flags fuel offset map s = some (0, s) := by
  cases fuel <;> simp [condensed_loop, h]

/-- The block loop of `write_data_from_fd_condensed` counts blocks like the
loop of `write_data_from_fd`, over the `fi->size - offset` bytes left. -/
theorem condensed_loop_count (env : env_t) (flags : Nat) :
    ∀ (fuel offset : Nat) (map : List sparse_map_t) (s s' : wstate),
      condensed_loop env flags fuel offset map s = some (0, s') →
      1 ≤ s.data.super.block_size →
      s.fi.flags &&& FILE_FLAG_HAS_FRAGMENT = 0 →
      s'.data.super.block_size = s.data.super.block_size ∧ s'.fi.size = s.fi.size ∧
      ((s'.fi.flags &&& FILE_FLAG_HAS_FRAGMENT = 0 ∧
          s'.data.block_idx = s.data.block_idx +
            (s.fi.size - offset + s.data.super.block_size - 1) / s.data.super.block_size) ∨
        (s'.fi.flags &&& FILE_FLAG_HAS_FRAGMENT ≠ 0 ∧
          s'.data.block_idx = s.data.block_idx +
            (s.fi.size - offset) / s.data.super.block_size)) := by
  have hzero : ∀ (fuel offset : Nat) (map : List sparse_map_t) (s s' : wstate),
      ¬ offset < s.fi.size →
      condensed_loop env flags fuel offset map s = some (0, s') →
      1 ≤ s.data.super.block_size → s.fi.flags &&& FILE_FLAG_HAS_FRAGMENT = 0 →
      s'.data.super.block_size = s.data.super.block_size ∧ s'.fi.size = s.fi.size ∧
      ((s'.fi.flags &&& FILE_FLAG_HAS_FRAGMENT = 0 ∧
          s'.data.block_idx = s.data.block_idx +
            (s.fi.size - offset + s.data.super.block_size - 1) / s.data.super.block_size) ∨
        (s'.fi.flags &&& FILE_FLAG_HAS_FRAGMENT ≠ 0 ∧
          s'.data.block_idx = s.data.block_idx +
            (s.fi.size - offset) / s.data.super.block_size)) := by
    intro fuel offset map s s' hlt h hbs hfl
    rw [condensed_loop_done env flags fuel offset map s hlt] at h
    simp only [Option.some.injEq, Prod.mk.injEq, true_and] at h
    subst h
    refine ⟨rfl, rfl, Or.inl ⟨hfl, ?_⟩⟩
    have e : s.fi.size - offset = 0 := by omega
    rw [e, Nat.div_eq_of_lt (by omega)]
    rfl
  intro fuel
  induction fuel with
  | zero =>
    intro offset map s s' h hbs hfl
    by_cases hlt : offset < s.fi.size
    · simp [condensed_loop, hlt] at h
    · exact hzero 0 offset map s s' hlt h hbs hfl
  | succ fuel ih =>
    intro offset map s s' h hbs hfl
    by_cases hlt : offset < s.fi.size
    · by_cases hgt : s.fi.size - offset > s.data.super.block_size
      · simp only [condensed_loop, hlt, hgt, if_true] at h
        split_ifs at h with hr hf
        · simp at h
        · simp at h
        · have hb := fill_block_frame offset s.data.super.block_size map
            { s with data := { s.data with
              block := memset s.data.block 0 s.data.super.block_size } }
          simp only at hb
          obtain ⟨hb1, hb2, hb3, _⟩ := hb
          have hc := flush_data_block_count env _ _ _ _ (not_not.mp hf)
          simp only [hb1, hb2, hb3] at hc
          obtain ⟨hc1, hc2, hc3⟩ := hc
          have hi := ih _ _ _ _ h (by rw [hc1]; exact hbs)
          rcases hc3 with ⟨hidx, hflag⟩ | ⟨hl, _, _⟩
          · have hi' := hi (by rw [hflag]; exact hfl)
            rw [hc1, hc2, hidx] at hi'
            refine ⟨hi'.1, hi'.2.1, ?_⟩
            have e : s.fi.size - (offset + s.data.super.block_size) =
                s.fi.size - offset - s.data.super.block_size := by omega
            rw [e] at hi'
            rcases hi'.2.2 with ⟨ha, hb⟩ | ⟨ha, hb⟩
            · left
              refine ⟨ha, ?_⟩
              rw [hb, ceil_div_step _ _ hbs hgt]
              omega
            · right
              refine ⟨ha, ?_⟩
              rw [hb, floor_div_step _ _ hbs hgt]
              omega
          · exact absurd hl (lt_irrefl _)
      · simp only [condensed_loop, hlt, hgt, if_true, if_false] at h
        split_ifs at h with hr hf
        · simp at h
        · simp at h
        · have hb := fill_block_frame offset (s.fi.size - offset) map
            { s with data := { s.data with
              block := memset s.data.block 0 (s.fi.size - offset) } }
          simp only at hb
          obtain ⟨hb1, hb2, hb3, _⟩ := hb
          have hc := flush_data_block_count env _ _ _ _ (not_not.mp hf)
          simp only [hb1, hb2, hb3] at hc
          obtain ⟨hc1, hc2, hc3⟩ := hc
          rw [condensed_loop_done _ _ _ _ _ _ (by rw [hc2]; omega)] at h
          simp only [Option.some.injEq, Prod.mk.injEq, true_and] at h
          subst h
          refine ⟨hc1, hc2, ?_⟩
          rcases hc3 with ⟨hidx, hflag⟩ | ⟨hl, hidx, hflag⟩
          · left
            refine ⟨by rw [hflag]; exact hfl, ?_⟩
            rw [hidx, ceil_div_last _ _ (by omega) (by omega)]
          · right
            refine ⟨hflag, ?_⟩
            rw [hidx, Nat.div_eq_of_lt hl]
            rfl
    · exact hzero _ offset map s s' hlt h hbs hfl

/-- Source function `end_file` never fails in the embedding and leaves the file
and the block index alone. -/
theorem end_file_frame (s : wstate) (flags : Nat) :
    (end_file s flags).1 = 0 ∧ (end_file s flags).2.fi = s.fi ∧
    (end_file s flags).2.data.block_idx = s.data.block_idx := by
  by_cases hf : flags &&& DW_ALLIGN_DEVBLK = 0 <;>
    by_cases hd : s.data.super.bytes_used % s.data.devblksz = 0 <;>
    simp [end_file, allign_file, hf, hd]

/-- C6: after a successful `write_data_from_fd`, and likewise after a
successful `write_data_from_fd_condensed`, of a file of any size with
`block_size ≥ 1` and the `HAS_FRAGMENT` flag clear beforehand, the final block
index is the size divided by the block size rounded up when the file ends
without the flag, and rounded down when the flag is set; for all write flags,
contents and maps. -/
theorem c6_block_count (env : env_t) (s s' : wstate) (flags : Nat) (map : List sparse_map_t)
    (hbs : 1 ≤ s.data.super.block_size)
    (hfl : s.fi.flags &&& FILE_FLAG_HAS_FRAGMENT = 0) :
    (write_data_from_fd env s flags = some (0, s') →
      (s'.fi.flags &&& FILE_FLAG_HAS_FRAGMENT = 0 →
        s'.data.block_idx =
          (s.fi.size + s.data.super.block_size - 1) / s.data.super.block_size) ∧
      (s'.fi.flags &&& FILE_FLAG_HAS_FRAGMENT ≠ 0 →
        s'.data.block_idx = s.fi.size / s.data.super.block_size)) ∧
    (write_data_from_fd_condensed env s map flags = some (0, s') →
      (s'.fi.flags &&& FILE_FLAG_HAS_FRAGMENT = 0 →
        s'.data.block_idx =
          (s.fi.size + s.data.super.block_size - 1) / s.data.super.block_size) ∧
      (s'.fi.flags &&& FILE_FLAG_HAS_FRAGMENT ≠ 0 →
        s'.data.block_idx = s.fi.size / s.data.super.block_size)) := by
  obtain ⟨b1, _, b3, _, b5, b6, _, b8⟩ := begin_file_ok s flags
  constructor
  · intro h
    unfold write_data_from_fd at h
    simp only [b1, ne_eq, not_true_eq_false, if_false] at h
    split at h
    · simp at h
    · rename_i ret s2 heq
      split_ifs at h with hret
      swap
      · simp at h
      · simp only [Option.some.injEq] at h
        subst hret
        obtain ⟨_, e2, e3⟩ := end_file_frame s2 flags
        rw [h] at e2 e3
        simp only at e2 e3
        have hc := fd_loop_count env flags _ _ _ _ heq (by rw [b5]; exact hbs)
          (by rw [b8]; exact hfl)
        rw [b3, b5, b6, Nat.zero_add, Nat.zero_add] at hc
        rw [e2, e3]
        rcases hc.2.2 with ⟨ha, hb⟩ | ⟨ha, hb⟩
        · exact ⟨fun _ => hb, fun hn => absurd ha hn⟩
        · exact ⟨fun hn => absurd hn ha, fun _ => hb⟩
  · intro h
    unfold write_data_from_fd_condensed at h
    simp only [b1, ne_eq, not_true_eq_false, if_false] at h
    split_ifs at h with hm
    swap
    · simp at h
    · split at h
      · simp at h
      · rename_i ret s2 heq
        split_ifs at h with hret
        swap
        · simp at h
        · simp only [Option.some.injEq] at h
          subst hret
          obtain ⟨_, e2, e3⟩ := end_file_frame s2 flags
          rw [h] at e2 e3
          simp only at e2 e3
          have hc := condensed_loop_count env flags _ _ _ _ _ heq (by rw [b5]; exact hbs)
            (by rw [b8]; exact hfl)
          rw [b3, b5, b6, Nat.zero_add, Nat.zero_add, Nat.sub_zero] at hc
          rw [e2, e3]
          rcases hc.2.2 with ⟨ha, hb⟩ | ⟨ha, hb⟩
          · exact ⟨fun _ => hb, fun hn => absurd ha hn⟩
          · exact ⟨fun hn => absurd hn ha, fun _ => hb⟩

/-- C6, witness: a file of 10 bytes with block size 4 whose tail 5, 6 becomes a
fragment ends with 2 = 10 / 4 block descriptors and the flag set; a condensed
file of 8 bytes ends with 2 block descriptors and the flag clear. -/
theorem c6_block_count_witness :
    (1 ≤ (sample_state 4 4 6 10 [1, 2, 3, 4, 0, 0, 0, 0, 5, 6]).data.super.block_size ∧
      (sample_state 4 4 6 10 [1, 2, 3, 4, 0, 0, 0, 0, 5, 6]).fi.flags &&&
        FILE_FLAG_HAS_FRAGMENT = 0 ∧
      write_data_from_fd (sample_env 0)
          (sample_state 4 4 6 10 [1, 2, 3, 4, 0, 0, 0, 0, 5, 6]) 0 =
        some (0, result_state (write_data_from_fd (sample_env 0)
          (sample_state 4 4 6 10 [1, 2, 3, 4, 0, 0, 0, 0, 5, 6]) 0)
          (sample_state 4 4 6 10 [1, 2, 3, 4, 0, 0, 0, 0, 5, 6])) ∧
      (result_state (write_data_from_fd (sample_env 0)
          (sample_state 4 4 6 10 [1, 2, 3, 4, 0, 0, 0, 0, 5, 6]) 0)
          (sample_state 4 4 6 10 [1, 2, 3, 4, 0, 0, 0, 0, 5, 6])).fi.flags &&&
        FILE_FLAG_HAS_FRAGMENT ≠ 0 ∧
      (result_state (write_data_from_fd (sample_env 0)
          (sample_state 4 4 6 10 [1, 2, 3, 4, 0, 0, 0, 0, 5, 6]) 0)
          (sample_state 4 4 6 10 [1, 2, 3, 4, 0, 0, 0, 0, 5, 6])).data.block_idx =
        (sample_state 4 4 6 10 [1, 2, 3, 4, 0, 0, 0, 0, 5, 6]).fi.size /
          (sample_state 4 4 6 10 [1, 2, 3, 4, 0, 0, 0, 0, 5, 6]).data.super.block_size) ∧
    (write_data_from_fd_condensed (sample_env 0) (sample_state 4 1 0 8 [1, 2, 3, 4])
          [⟨2, 4⟩] 0 =
        some (0, result_state (write_data_from_fd_condensed (sample_env 0)
          (sample_state 4 1 0 8 [1, 2, 3, 4]) [⟨2, 4⟩] 0) (sample_state 4 1 0 8 [1, 2, 3, 4])) ∧
      (result_state (write_data_from_fd_condensed (sample_env 0)
          (sample_state 4 1 0 8 [1, 2, 3, 4]) [⟨2, 4⟩] 0)
          (sample_state 4 1 0 8 [1, 2, 3, 4])).fi.flags &&& FILE_FLAG_HAS_FRAGMENT = 0 ∧
      (result_state (write_data_from_fd_condensed (sample_env 0)
          (sample_state 4 1 0 8 [1, 2, 3, 4]) [⟨2, 4⟩] 0)
          (sample_state 4 1 0 8 [1, 2, 3, 4])).data.block_idx =
        ((sample_state 4 1 0 8 [1, 2, 3, 4]).fi.size +
          (sample_state 4 1 0 8 [1, 2, 3, 4]).data.super.block_size - 1) /
          (sample_state 4 1 0 8 [1, 2, 3, 4]).data.super.block_size) :=
  ⟨⟨by decide, by decide, by rfl, by decide,
     ((c6_block_count (sample_env 0) (sample_state 4 4 6 10 [1, 2, 3, 4, 0, 0, 0, 0, 5, 6]) _ 0 []
        (by decide) (by decide)).1 (by rfl)).2 (by decide)⟩,
   ⟨by rfl, by decide,
     ((c6_block_count (sample_env 0) (sample_state 4 1 0 8 [1, 2, 3, 4]) _ 0 [⟨2, 4⟩]
        (by decide) (by decide)).2 (by rfl)).1 (by decide)⟩⟩

/-- C8, witness: with the halving compressor a region of 4 bytes is stored as
2 compressed bytes, descriptor 2; with `DW_DONT_COMPRESS` it is stored raw,
descriptor `4 | 1 << 24`. -/
theorem c8_write_compressed_witness :
    ((1 ≤ 4 ∧ 4 ≤ (sample_state 1024 1 0 4 []).data.super.block_size ∧
      (sample_state 1024 1 0 4 []).data.super.block_size < 2 ^ 24 ∧
      halving_env.do_block (bytes sample_region 4)
          (sample_state 1024 1 0 4 []).data.super.block_size =
        (2, (halving_env.do_block (bytes sample_region 4) 1024).2) ∧
      write_compressed halving_env (sample_state 1024 1 0 4 []) sample_region 4 0 =
        (0, (write_compressed halving_env (sample_state 1024 1 0 4 []) sample_region 4 0).2.1,
          2)) ∧
      (write_compressed halving_env (sample_state 1024 1 0 4 [])
          sample_region 4 0).2.1.data.super.bytes_used =
        (sample_state 1024 1 0 4 []).data.super.bytes_used + 2 % 2 ^ 24) ∧
    (write_compressed halving_env (sample_state 1024 1 0 4 [])
        sample_region 4 0).2.1.data.outfd = { content := [1, 2], pos := 2, written := 2 } ∧
    (write_compressed halving_env (sample_state 1024 1 0 4 []) sample_region 4
        DW_DONT_COMPRESS).2.2 = 4 + 2 ^ 24 ∧
    (write_compressed halving_env (sample_state 1024 1 0 4 []) sample_region 4
        DW_DONT_COMPRESS).2.1.data.outfd = { content := [1, 2, 3, 4], pos := 4, written := 4 } :=
  ⟨⟨⟨by decide, by decide, by decide, by rfl, by rfl⟩,
    (c8_write_compressed halving_env (sample_state 1024 1 0 4 []) _ sample_region _ 4 0 2 2
      (by decide) (by decide) (by decide) (by rfl) (by rfl)).2.2.1⟩,
   by decide, by decide, by decide⟩


/-! ### Data writer: files of zero bytes -/

/-- Two regions that agree on a range compare equal there. -/
theorem memcmp_from_eq (a b : Buf) :
    ∀ (n i : Nat), (∀ j, i ≤ j → j < i + n → a j = b j) → memcmp_from a b i n = 0 := by
  intro n
  induction n with
  | zero => intro i _; rfl
  | succ n ih =>
    intro i h
    simp only [memcmp_from]
    rw [if_pos (h i (le_refl _) (by omega))]
    exact ih (i + 1) (fun j h1 h2 => h j (by omega) (by omega))

/-- A region of at least one byte whose bytes are all zero passes
`is_zero_block`. -/
theorem is_zero_block_zeros (p : Buf) (size : Nat) (h1 : 1 ≤ size)
    (h : ∀ i, i < size → p i = 0) : is_zero_block p size = true := by
  have e : memcmp p (shift p 1) (size - 1) = 0 := by
    unfold memcmp
    apply memcmp_from_eq
    intro j _ hj
    unfold shift
    rw [h j (by omega), h (j + 1) (by omega)]
  simp [is_zero_block, e, h 0 (by omega)]

/-- Reading from an input of zero bytes succeeds, fills the region with zeros
and leaves the rest of the zeros unread. -/
theorem read_data_zeros (n count : Nat) (buf : Buf) (h : count ≤ n) :
    (read_data (List.replicate n 0) buf 0 count).1 = 0 ∧
    (read_data (List.replicate n 0) buf 0 count).2.1 = List.replicate (n - count) 0 ∧
    ∀ i, i < count → (read_data (List.replicate n 0) buf 0 count).2.2 i = 0 := by
  unfold read_data
  have hl : ¬ (List.replicate n 0).length < count := by simp; exact h
  rw [if_neg hl]
  refine ⟨rfl, by simp, ?_⟩
  intro i hi
  simp only [memcpy]
  rw [if_pos ⟨Nat.zero_le _, by omega⟩]
  have : i < n := by omega
  simp [List.getElem?_replicate, this]

/-- What `deduplicate_data` does to the quantities a sparse file is measured
by: nothing, except that `super.bytes_used` may be reset to `fi.startblock`. -/
theorem deduplicate_data_sparse (env : env_t) (s : wstate) :
    (deduplicate_data env s).2.fi.sparse = s.fi.sparse ∧
    (deduplicate_data env s).2.fi.blocks = s.fi.blocks ∧
    (deduplicate_data env s).2.infd = s.infd ∧
    (deduplicate_data env s).2.data.outfd.written = s.data.outfd.written ∧
    ((deduplicate_data env s).2.data.super.bytes_used = s.data.super.bytes_used ∨
      (deduplicate_data env s).2.data.super.bytes_used = s.fi.startblock) := by
  unfold deduplicate_data
  simp only
  split
  · exact ⟨rfl, rfl, rfl, rfl, Or.inr rfl⟩
  · exact ⟨rfl, rfl, rfl, rfl, Or.inl rfl⟩

/-- The sparse branch of `flush_data_block`: descriptor (0, 0) at the block
index, the other descriptors untouched, the region added to `fi.sparse`,
nothing written; `super.bytes_used` and `fi.startblock` stay, except that on
the last region `super.bytes_used` may be reset to `fi.startblock`. -/
theorem flush_sparse_effect (env : env_t) (s : wstate) (size : Nat) (is_last : Bool) :
    (flush_sparse env s size is_last).2.fi.sparse = s.fi.sparse + size ∧
    (flush_sparse env s size is_last).2.fi.blocks s.data.block_idx = ⟨0, 0⟩ ∧
    (∀ i, i ≠ s.data.block_idx →
      (flush_sparse env s size is_last).2.fi.blocks i = s.fi.blocks i) ∧
    (flush_sparse env s size is_last).2.infd = s.infd ∧
    (flush_sparse env s size is_last).2.data.outfd.written = s.data.outfd.written ∧
    ((flush_sparse env s size is_last).2.data.super.bytes_used = s.data.super.bytes_used ∨
      (flush_sparse env s size is_last).2.data.super.bytes_used = s.fi.startblock) ∧
    (is_last = false →
      (flush_sparse env s size is_last).2.data.super.bytes_used = s.data.super.bytes_used ∧
      (flush_sparse env s size is_last).2.fi.startblock = s.fi.startblock) := by
  unfold flush_sparse
  simp only
  split_ifs with hl
  · obtain ⟨d1, d2, d3, d4, d5⟩ := deduplicate_data_sparse env
      { s with
        fi := { s.fi with
          blocks := Function.update (Function.update s.fi.blocks s.data.block_idx
              { (s.fi.blocks s.data.block_idx) with size := 0 }) s.data.block_idx
            { size := 0, chksum := 0 },
          sparse := s.fi.sparse + size },
        data := { s.data with block_idx := s.data.block_idx + 1 } }
    refine ⟨?_, ?_, ?_, ?_, ?_, ?_, ?_⟩
    · simpa using d1
    · have := congrFun d2 s.data.block_idx
      simpa using this
    · intro i hi
      have := congrFun d2 i
      simpa [Function.update, hi] using this
    · simpa using d3
    · simpa using d4
    · simpa using d5
    · intro h; simp [hl] at h
  · refine ⟨rfl, by simp, ?_, rfl, rfl, Or.inl rfl, fun _ => ⟨rfl, rfl⟩⟩
    intro i hi
    simp [Function.update, hi]

/-- One iteration of the loop of `write_data_from_fd` on a region of zeros:
the region is read and takes the sparse branch. -/
theorem fd_loop_zero_step (env : env_t) (flags fuel count n : Nat) (s : wstate)
    (hc : 1 ≤ count) (hbs : 1 ≤ s.data.super.block_size)
    (hn : count ≤ n) (hin : s.infd = List.replicate n 0) :
    ∃ s1 : wstate,
      fd_loop env flags (fuel + 1) count s =
        fd_loop env flags fuel (count - min count s.data.super.block_size)
          (flush_sparse env s1 (min count s.data.super.block_size)
            (decide (count ≤ s.data.super.block_size))).2 ∧
      s1.fi = s.fi ∧ s1.data.super = s.data.super ∧ s1.data.block_idx = s.data.block_idx ∧
      s1.data.outfd = s.data.outfd ∧
      s1.infd = List.replicate (n - min count s.data.super.block_size) 0 := by
  obtain ⟨c, rfl⟩ : ∃ c, count = c + 1 := ⟨count - 1, by omega⟩
  by_cases hgt : c + 1 > s.data.super.block_size
  · have hmin : min (c + 1) s.data.super.block_size = s.data.super.block_size := by omega
    have hdec : decide (c + 1 ≤ s.data.super.block_size) = false := by simp; omega
    obtain ⟨r1, r2, r3⟩ := read_data_zeros n s.data.super.block_size s.data.block (by omega)
    rw [← hin] at r1 r2 r3
    have hz := is_zero_block_zeros _ _ hbs r3
    refine ⟨{ s with
      infd := (read_data s.infd s.data.block 0 s.data.super.block_size).2.1,
      data := { s.data with
        block := (read_data s.infd s.data.block 0 s.data.super.block_size).2.2 },
      handed := s.handed ++
        [(bytes (read_data s.infd s.data.block 0 s.data.super.block_size).2.2
          s.data.super.block_size, false)] }, ?_, rfl, rfl, rfl, rfl, ?_⟩
    · rw [hmin, hdec]
      simp only [fd_loop, hgt, if_true, r1, ne_eq, not_true_eq_false, if_false]
      have hfs := (flush_sparse_count env { s with
        infd := (read_data s.infd s.data.block 0 s.data.super.block_size).2.1,
        data := { s.data with
          block := (read_data s.infd s.data.block 0 s.data.super.block_size).2.2 },
        handed := s.handed ++
          [(bytes (read_data s.infd s.data.block 0 s.data.super.block_size).2.2
            s.data.super.block_size, false)] } s.data.super.block_size false).1
      simp only [flush_data_block, hz, if_true, hfs, ne_eq, not_true_eq_false, if_false]
    · rw [hmin]; exact r2
  · have hmin : min (c + 1) s.data.super.block_size = c + 1 := by omega
    have hdec : decide (c + 1 ≤ s.data.super.block_size) = true := by simp; omega
    obtain ⟨r1, r2, r3⟩ := read_data_zeros n (c + 1) s.data.block hn
    rw [← hin] at r1 r2 r3
    have hz := is_zero_block_zeros _ _ hc r3
    refine ⟨{ s with
      infd := (read_data s.infd s.data.block 0 (c + 1)).2.1,
      data := { s.data with
        block := (read_data s.infd s.data.block 0 (c + 1)).2.2 },
      handed := s.handed ++
        [(bytes (read_data s.infd s.data.block 0 (c + 1)).2.2 (c + 1), true)] },
      ?_, rfl, rfl, rfl, rfl, ?_⟩
    · rw [hmin, hdec]
      simp only [fd_loop, hgt, if_false, r1, ne_eq, not_true_eq_false]
      have hfs := (flush_sparse_count env { s with
        infd := (read_data s.infd s.data.block 0 (c + 1)).2.1,
        data := { s.data with
          block := (read_data s.infd s.data.block 0 (c + 1)).2.2 },
        handed := s.handed ++
          [(bytes (read_data s.infd s.data.block 0 (c + 1)).2.2 (c + 1), true)] }
        (c + 1) true).1
      simp only [flush_data_block, hz, if_true, hfs, ne_eq, not_true_eq_false, if_false]
    · rw [hmin]; exact r2

/-- The loop of `write_data_from_fd` over `k` blocks of zero bytes: it
succeeds, records `k` descriptors (0, 0), adds the bytes to `fi.sparse`, writes
nothing and leaves `super.bytes_used` as it was. -/
theorem fd_loop_zeros (env : env_t) (flags : Nat) :
    ∀ (k fuel : Nat) (s : wstate),
      1 ≤ s.data.super.block_size → k ≤ fuel →
      s.infd = List.replicate (k * s.data.super.block_size) 0 →
      (1 ≤ k → s.fi.startblock = s.data.super.bytes_used) →
      ∃ s' : wstate,
        fd_loop env flags fuel (k * s.data.super.block_size) s = some (0, s') ∧
        s'.data.block_idx = s.data.block_idx + k ∧
        s'.fi.sparse = s.fi.sparse + k * s.data.super.block_size ∧
        (∀ i, s.data.block_idx ≤ i → i < s.data.block_idx + k → s'.fi.blocks i = ⟨0, 0⟩) ∧
        (∀ i, i < s.data.block_idx → s'.fi.blocks i = s.fi.blocks i) ∧
        s'.data.outfd.written = s.data.outfd.written ∧
        s'.data.super.bytes_used = s.data.super.bytes_used := by
  intro k
  induction k with
  | zero =>
    intro fuel s _ _ _ _
    refine ⟨s, ?_, rfl, by simp, ?_, fun _ _ => rfl, rfl, rfl⟩
    · rw [Nat.zero_mul]; exact fd_loop_done env flags fuel s
    · intro i h1 h2; omega
  | succ k ih =>
    intro fuel s hbs hfuel hin hstart
    obtain ⟨f, rfl⟩ : ∃ f, fuel = f + 1 := ⟨fuel - 1, by omega⟩
    have hcount : s.data.super.block_size ≤ (k + 1) * s.data.super.block_size :=
      Nat.le_mul_of_pos_left _ (by omega)
    have hmin : min ((k + 1) * s.data.super.block_size) s.data.super.block_size =
        s.data.super.block_size := by omega
    have hsub : (k + 1) * s.data.super.block_size - s.data.super.block_size =
        k * s.data.super.block_size := by
      rw [Nat.add_mul, Nat.one_mul, Nat.add_sub_cancel]
    obtain ⟨s1, hstep, e1, e2, e3, e4, e5⟩ := fd_loop_zero_step env flags f
      ((k + 1) * s.data.super.block_size) ((k + 1) * s.data.super.block_size) s
      (by omega) hbs (le_refl _) hin
    rw [hmin, hsub] at hstep e5
    obtain ⟨c1, c2, _, c4, _⟩ := flush_sparse_count env s1 s.data.super.block_size
      (decide ((k + 1) * s.data.super.block_size ≤ s.data.super.block_size))
    obtain ⟨g1, g2, g3, g4, g5, g6, g7⟩ := flush_sparse_effect env s1 s.data.super.block_size
      (decide ((k + 1) * s.data.super.block_size ≤ s.data.super.block_size))
    rw [e2] at c2 g6 g7
    rw [e3] at c4 g2 g3
    rw [e1] at g1 g3 g6 g7
    rw [e4] at g5
    rw [e5] at g4
    have hused : (flush_sparse env s1 s.data.super.block_size
        (decide ((k + 1) * s.data.super.block_size ≤ s.data.super.block_size))).2.data.super.bytes_used
        = s.data.super.bytes_used := by
      rcases g6 with h | h
      · exact h
      · rw [h]; exact hstart (by omega)
    have hnext : 1 ≤ k → (flush_sparse env s1 s.data.super.block_size
        (decide ((k + 1) * s.data.super.block_size ≤ s.data.super.block_size))).2.fi.startblock =
        (flush_sparse env s1 s.data.super.block_size
        (decide ((k + 1) * s.data.super.block_size ≤ s.data.super.block_size))).2.data.super.bytes_used
        := by
      intro hk
      have hlt : s.data.super.block_size < (k + 1) * s.data.super.block_size := by
        calc s.data.super.block_size = 1 * s.data.super.block_size := (Nat.one_mul _).symm
          _ < (k + 1) * s.data.super.block_size :=
            Nat.mul_lt_mul_of_pos_right (by omega) (by omega)
      have hd : decide ((k + 1) * s.data.super.block_size ≤ s.data.super.block_size) = false := by
        simp; exact hlt
      obtain ⟨h1, h2⟩ := g7 hd
      rw [h1, h2]
      exact hstart (by omega)
    obtain ⟨s', i1, i2, i3, i4, i5, i6, i7⟩ := ih f _ (by rw [c2]; exact hbs) (by omega)
      (by rw [c2]; exact g4) hnext
    rw [c2] at i1 i3
    rw [c4] at i2 i4 i5
    refine ⟨s', ?_, ?_, ?_, ?_, ?_, ?_, ?_⟩
    · rw [hstep]; exact i1
    · rw [i2]; omega
    · rw [i3, g1, Nat.add_mul, Nat.one_mul]; omega
    · intro i h1 h2
      by_cases hi : i = s.data.block_idx
      · rw [i5 i (by omega), hi]; exact g2
      · exact i4 i (by omega) (by omega)
    · intro i hi
      rw [i5 i (by omega)]
      exact g3 i (by omega)
    · rw [i6]; exact g5
    · rw [i7]; exact hused

/-- C7: for every `N ≥ 1` that is a multiple of the block size, writing a file
of `N` zero bytes without the device-block alignment flag succeeds, records
exactly `N / block_size` block descriptors, each with size 0 and checksum 0,
sets `fi.sparse = N`, passes no byte to `write_data` and leaves
`super.bytes_used` unchanged. -/
theorem c7_zero_file_is_sparse (env : env_t) (s : wstate) (flags k : Nat)
    (_hk : 1 ≤ k) (hbs : 1 ≤ s.data.super.block_size)
    (hsize : s.fi.size = k * s.data.super.block_size)
    (hin : s.infd = List.replicate (k * s.data.super.block_size) 0)
    (hflag : flags &&& DW_ALLIGN_DEVBLK = 0) :
    ∃ s' : wstate,
      write_data_from_fd env s flags = some (0, s') ∧
      s'.data.block_idx = s.fi.size / s.data.super.block_size ∧
      (∀ i, i < s.fi.size / s.data.super.block_size → s'.fi.blocks i = ⟨0, 0⟩) ∧
      s'.fi.sparse = s.fi.size ∧
      s'.data.outfd.written = s.data.outfd.written ∧
      s'.data.super.bytes_used = s.data.super.bytes_used := by
  have hb : begin_file s flags =
      (0, { s with
        data := { s.data with start := s.data.outfd.pos, block_idx := 0 },
        fi := { s.fi with startblock := s.data.super.bytes_used, sparse := 0 } }) := by
    simp [begin_file, hflag]
  have hdiv : k * s.data.super.block_size / s.data.super.block_size = k :=
    Nat.mul_div_cancel _ (by omega)
  have hfuel : k ≤ k * s.data.super.block_size := Nat.le_mul_of_pos_right _ (by omega)
  obtain ⟨s2, l1, l2, l3, l4, _, l6, l7⟩ := fd_loop_zeros env flags k
    (k * s.data.super.block_size)
    { s with
      data := { s.data with start := s.data.outfd.pos, block_idx := 0 },
      fi := { s.fi with startblock := s.data.super.bytes_used, sparse := 0 } }
    hbs hfuel hin (fun _ => rfl)
  simp only at l1 l2 l3 l4 l6 l7
  have he : end_file s2 flags = (0, { s2 with data := { s2.data with list := s2.fi :: s2.data.list } }) := by
    simp [end_file, hflag]
  refine ⟨{ s2 with data := { s2.data with list := s2.fi :: s2.data.list } }, ?_, ?_, ?_, ?_, ?_, ?_⟩
  · rw [← hsize] at l1
    unfold write_data_from_fd
    rw [hb]
    simp only [ne_eq, not_true_eq_false, if_false, l1, he]
  · rw [hsize, hdiv]; simpa using l2
  · intro i hi
    rw [hsize, hdiv] at hi
    exact l4 i (Nat.zero_le _) (by omega)
  · rw [hsize]; simpa using l3
  · exact l6
  · exact l7

/-- C7, witness: a file of 12 zero bytes with block size 4 on an image of 6
bytes: three descriptors (0, 0), `fi.sparse = 12`, nothing written,
`super.bytes_used` still 6. -/
theorem c7_zero_file_is_sparse_witness :
    (1 ≤ 3 ∧ 1 ≤ (sample_state 4 4 6 12 (List.replicate 12 0)).data.super.block_size ∧
      (sample_state 4 4 6 12 (List.replicate 12 0)).fi.size =
        3 * (sample_state 4 4 6 12 (List.replicate 12 0)).data.super.block_size ∧
      (sample_state 4 4 6 12 (List.replicate 12 0)).infd =
        List.replicate (3 * (sample_state 4 4 6 12 (List.replicate 12 0)).data.super.block_size) 0 ∧
      DW_DONT_FRAGMENT &&& DW_ALLIGN_DEVBLK = 0) ∧
    (∃ s' : wstate,
      write_data_from_fd (sample_env 0) (sample_state 4 4 6 12 (List.replicate 12 0))
        DW_DONT_FRAGMENT = some (0, s') ∧
      s'.data.block_idx = (sample_state 4 4 6 12 (List.replicate 12 0)).fi.size /
        (sample_state 4 4 6 12 (List.replicate 12 0)).data.super.block_size ∧
      (∀ i, i < (sample_state 4 4 6 12 (List.replicate 12 0)).fi.size /
          (sample_state 4 4 6 12 (List.replicate 12 0)).data.super.block_size →
        s'.fi.blocks i = ⟨0, 0⟩) ∧
      s'.fi.sparse = (sample_state 4 4 6 12 (List.replicate 12 0)).fi.size ∧
      s'.data.outfd.written = (sample_state 4 4 6 12 (List.replicate 12 0)).data.outfd.written ∧
      s'.data.super.bytes_used =
        (sample_state 4 4 6 12 (List.replicate 12 0)).data.super.bytes_used) ∧
    outcome (write_data_from_fd (sample_env 0) (sample_state 4 4 6 12 (List.replicate 12 0))
        DW_DONT_FRAGMENT) =
      some { ret := 0,
             handed := [([0, 0, 0, 0], false), ([0, 0, 0, 0], false), ([0, 0, 0, 0], true)],
             infd := [],
             outfd := { content := [255, 255, 255, 255, 255, 255], pos := 6, written := 0 },
             bytes_used := 6, start := 6, startblock := 6, flags := 0, sparse := 12,
             block_idx := 3 } :=
  ⟨⟨by decide, by decide, by decide, by decide, by decide⟩,
   c7_zero_file_is_sparse (sample_env 0) (sample_state 4 4 6 12 (List.replicate 12 0))
     DW_DONT_FRAGMENT 3 (by decide) (by decide) (by decide) (by decide) (by decide),
   by decide⟩


/-! ### Directory reader: `find` against the sequential scan without synthetic entries -/

/-- A string compares equal to itself. -/
theorem strcmp_self : ∀ a : List Nat, strcmp a a = 0 := by
  intro a
  induction a with
  | nil => rfl
  | cons x xs ih => simp [strcmp, ih]

/-- On strings without a NUL byte, `strcmp` returns 0 only for equal strings. -/
theorem strcmp_eq_zero : ∀ a b : List Nat, 0 ∉ a → 0 ∉ b → strcmp a b = 0 → a = b := by
  intro a
  induction a with
  | nil =>
    intro b _ hb h
    cases b with
    | nil => rfl
    | cons y ys =>
      simp only [strcmp] at h
      have : y ≠ 0 := fun e => hb (by simp [e])
      omega
  | cons x xs ih =>
    intro b ha hb h
    have hx : x ≠ 0 := fun e => ha (by simp [e])
    cases b with
    | nil =>
      simp only [strcmp] at h
      omega
    | cons y ys =>
      simp only [strcmp] at h
      split_ifs at h with hxy
      · rw [hxy, ih ys (fun m => ha (by simp [m])) (fun m => hb (by simp [m])) h]
      · omega

/-- In state `ENTRIES` a read returns the head of what the cursor has left, or
end-of-directory. -/
theorem read_entries_cons (rd : sqfs_dir_reader_t) (e : sqfs_dir_entry_t × Nat)
    (rest : List (sqfs_dir_entry_t × Nat))
    (h : rd.state = DIR_STATE_ENTRIES) (ht : rd.it.todo = e :: rest) :
    sqfs_dir_reader_read rd =
      (0, { rd with it := { rd.it with todo := rest }, ent_ref := e.2 }, some e.1) := by
  unfold sqfs_dir_reader_read sqfs_meta_reader_readdir
  rw [h]
  simp [ht, h]

/-- In state `ENTRIES` a read at the end of the directory returns a positive
result and no entry. -/
theorem read_entries_nil (rd : sqfs_dir_reader_t)
    (h : rd.state = DIR_STATE_ENTRIES) (ht : rd.it.todo = []) :
    sqfs_dir_reader_read rd = (1, rd, none) := by
  obtain ⟨sup, fl, st, sst, it, cr, pr, er, dc, tab⟩ := rd
  simp only at h ht
  subst h
  simp [sqfs_dir_reader_read, sqfs_meta_reader_readdir, ht]

/-- A search that did not end with result 0 resolves no inode. -/
theorem resolved_inode_none (r : Option (Int × sqfs_dir_reader_t))
    (h : r.map Prod.fst ≠ some 0) : resolved_inode r = none := by
  unfold resolved_inode
  split
  · simp at h
  · rfl

/-- A scan over entries none of which bears the name ends with
`SQFS_ERROR_NO_ENTRY`. -/
theorem scan_loop_absent (name : List Nat) :
    ∀ (todo : List (sqfs_dir_entry_t × Nat)) (fuel : Nat) (rd : sqfs_dir_reader_t),
      rd.state = DIR_STATE_ENTRIES → rd.it.todo = todo → todo.length < fuel →
      (∀ e ∈ todo, e.1.name ≠ name) →
      (scan_loop name fuel rd).map Prod.fst = some SQFS_ERROR_NO_ENTRY := by
  intro todo
  induction todo with
  | nil =>
    intro fuel rd h ht hf _
    obtain ⟨f, rfl⟩ : ∃ f, fuel = f + 1 := ⟨fuel - 1, by simp at hf; omega⟩
    simp [scan_loop, read_entries_nil rd h ht]
  | cons e rest ih =>
    intro fuel rd h ht hf hne
    obtain ⟨f, rfl⟩ : ∃ f, fuel = f + 1 := ⟨fuel - 1, by simp at hf; omega⟩
    have hn : e.1.name ≠ name := hne e (by simp)
    simp only [scan_loop, read_entries_cons rd e rest h ht, ne_eq, not_true_eq_false, if_false,
      hn]
    exact ih f _ h rfl (by simp at hf; omega) (fun e' he' => hne e' (by simp [he']))

/-- Without synthetic entries and over a listing sorted by `strcmp`, the loop
of `sqfs_dir_reader_find` and the sequential scan return the same result, and
when that is 0 they stand on the same entry. -/
theorem find_loop_eq_scan (name : List Nat) (hname : 0 ∉ name) :
    ∀ (todo : List (sqfs_dir_entry_t × Nat)) (fuel : Nat) (rd : sqfs_dir_reader_t),
      rd.state = DIR_STATE_ENTRIES → rd.it.todo = todo → todo.length < fuel →
      (∀ e ∈ todo, 0 ∉ e.1.name) →
      todo.Pairwise (fun a b => strcmp a.1.name b.1.name ≤ 0) →
      (find_loop name fuel rd).map Prod.fst = (scan_loop name fuel rd).map Prod.fst ∧
      ((find_loop name fuel rd).map Prod.fst = some 0 →
        find_loop name fuel rd = scan_loop name fuel rd) := by
  intro todo
  induction todo with
  | nil =>
    intro fuel rd h ht hf _ _
    obtain ⟨f, rfl⟩ : ∃ f, fuel = f + 1 := ⟨fuel - 1, by simp at hf; omega⟩
    simp [find_loop, scan_loop, read_entries_nil rd h ht]
  | cons e rest ih =>
    intro fuel rd h ht hf hnul hsorted
    obtain ⟨f, rfl⟩ : ∃ f, fuel = f + 1 := ⟨fuel - 1, by simp at hf; omega⟩
    have hrest := ih f { rd with it := { rd.it with todo := rest }, ent_ref := e.2 } h rfl
      (by simp at hf; omega) (fun e' he' => hnul e' (by simp [he']))
      (List.Pairwise.of_cons hsorted)
    simp only [find_loop, scan_loop, read_entries_cons rd e rest h ht, ne_eq, not_true_eq_false,
      if_false, lt_self_iff_false]
    by_cases hlt : strcmp e.1.name name < 0
    · have hn : e.1.name ≠ name := by
        intro he
        rw [he, strcmp_self] at hlt
        exact absurd hlt (lt_irrefl _)
      simp only [hlt, if_true, hn, if_false]
      exact hrest
    · simp only [hlt, if_false]
      by_cases hz : strcmp e.1.name name = 0
      · have he : e.1.name = name := strcmp_eq_zero _ _ (hnul e (by simp)) hname hz
        simp [he, strcmp_self]
      · have hn : e.1.name ≠ name := by
          intro he
          rw [he, strcmp_self] at hz
          exact hz rfl
        have habs := scan_loop_absent name rest f
          { rd with it := { rd.it with todo := rest }, ent_ref := e.2 } h rfl
          (by simp at hf; omega)
          (by
            intro e' he' hnm
            have hle := List.rel_of_pairwise_cons hsorted he'
            rw [hnm] at hle
            omega)
        simp only [hz, if_false, hn, habs]
        simp [SQFS_ERROR_NO_ENTRY]

/-- Without synthetic entries (the start state is `ENTRIES`) and over a listing
sorted by `strcmp` whose names carry no NUL byte, `sqfs_dir_reader_find` returns
what the sequential scan returns, and on success `sqfs_dir_reader_get_inode`
resolves the same inode after both. -/
theorem find_eq_scan_without_dots (rd : sqfs_dir_reader_t) (name : List Nat)
    (hstart : rd.start_state = DIR_STATE_ENTRIES) (hname : 0 ∉ name)
    (hnul : ∀ e ∈ rd.it.listing, 0 ∉ e.1.name)
    (hsorted : rd.it.listing.Pairwise (fun a b => strcmp a.1.name b.1.name ≤ 0)) :
    (sqfs_dir_reader_find rd name).map Prod.fst = (sequential_scan rd name).map Prod.fst ∧
    resolved_inode (sqfs_dir_reader_find rd name) = resolved_inode (sequential_scan rd name) := by
  unfold sqfs_dir_reader_find sequential_scan sqfs_dir_reader_rewind
  by_cases hs : rd.state = DIR_STATE_NONE
  · simp [hs, SQFS_ERROR_SEQUENCE, resolved_inode]
  · simp only [hs, if_false, ne_eq, not_true_eq_false, sqfs_readdir_state_reset]
    obtain ⟨h1, h2⟩ := find_loop_eq_scan name hname rd.it.listing (rd.it.listing.length + 3)
      { rd with it := { rd.it with todo := rd.it.listing }, state := rd.start_state }
      hstart rfl (by omega) hnul hsorted
    refine ⟨h1, ?_⟩
    by_cases h0 : (find_loop name (rd.it.listing.length + 3)
      { rd with it := { rd.it with todo := rd.it.listing }, state := rd.start_state }).map Prod.fst
        = some 0
    · rw [h2 h0]
    · rw [resolved_inode_none _ h0, resolved_inode_none _ (h1 ▸ h0)]


/-! ### Directory reader: rewinding -/

/-- From state `ENTRIES` a pass returns what the cursor has left, ends with
end-of-directory and leaves the reader in state `ENTRIES`. -/
theorem read_all_entries :
    ∀ (todo : List (sqfs_dir_entry_t × Nat)) (fuel : Nat) (rd : sqfs_dir_reader_t),
      rd.state = DIR_STATE_ENTRIES → rd.it.todo = todo → todo.length < fuel →
      ∃ rdE : sqfs_dir_reader_t, read_all fuel rd = some (todo, 1, rdE) ∧
        rdE.state = DIR_STATE_ENTRIES ∧ rdE.start_state = rd.start_state ∧
        rdE.it.listing = rd.it.listing ∧ rdE.cur_ref = rd.cur_ref ∧
        rdE.parent_ref = rd.parent_ref := by
  intro todo
  induction todo with
  | nil =>
    intro fuel rd h ht hf
    obtain ⟨f, rfl⟩ : ∃ f, fuel = f + 1 := ⟨fuel - 1, by simp at hf; omega⟩
    exact ⟨rd, by simp [read_all, read_entries_nil rd h ht], h, rfl, rfl, rfl, rfl⟩
  | cons e rest ih =>
    intro fuel rd h ht hf
    obtain ⟨f, rfl⟩ : ∃ f, fuel = f + 1 := ⟨fuel - 1, by simp at hf; omega⟩
    obtain ⟨sup, fl, st, sst, it, cr, pr, er, dc, tab⟩ := rd
    simp only at h ht
    subst h
    obtain ⟨rdE, i1, i2, i3, i4, i5, i6⟩ :=
      ih f ⟨sup, fl, DIR_STATE_ENTRIES, sst, { it with todo := rest }, cr, pr, e.2, dc, tab⟩ rfl rfl
        (by simp at hf; omega)
    refine ⟨rdE, ?_, i2, i3, i4, i5, i6⟩
    have hr := read_entries_cons ⟨sup, fl, DIR_STATE_ENTRIES, sst, it, cr, pr, er, dc, tab⟩
      e rest rfl ht
    simp only at hr
    simp only [read_all, hr, ne_eq, not_true_eq_false, if_false, i1, entry_ref]

/-- A read that returns an entry contributes that entry to the pass. -/
theorem read_all_step (fuel : Nat) (rd rd1 : sqfs_dir_reader_t) (ent : sqfs_dir_entry_t)
    (l : List (sqfs_dir_entry_t × Nat)) (r : Int) (rd2 : sqfs_dir_reader_t)
    (h : sqfs_dir_reader_read rd = (0, rd1, some ent))
    (hrest : read_all fuel rd1 = some (l, r, rd2)) :
    read_all (fuel + 1) rd = some ((ent, entry_ref rd1) :: l, r, rd2) := by
  simp only [read_all, h, ne_eq, not_true_eq_false, if_false, hrest]

/-- A pass from one of the start states: with the synthetic entries it returns
".", with the directory's own reference, "..", with the parent's reference,
and then the listing; without them it returns the listing. It ends with
end-of-directory in state `ENTRIES`. -/
theorem read_all_from_start (rd : sqfs_dir_reader_t)
    (hs : rd.state = DIR_STATE_OPENED ∨ rd.state = DIR_STATE_ENTRIES)
    (ht : rd.it.todo = rd.it.listing) :
    ∃ rdE : sqfs_dir_reader_t,
      read_all (rd.it.listing.length + 3) rd =
        some ((if rd.state = DIR_STATE_OPENED then
            [((⟨0, 0, SQFS_INODE_DIR, 0, [46]⟩ : sqfs_dir_entry_t), rd.cur_ref),
             ((⟨0, 0, SQFS_INODE_DIR, 1, [46, 46]⟩ : sqfs_dir_entry_t), rd.parent_ref)]
          else []) ++ rd.it.listing, 1, rdE) ∧
      rdE.state = DIR_STATE_ENTRIES ∧ rdE.start_state = rd.start_state ∧
      rdE.it.listing = rd.it.listing ∧ rdE.cur_ref = rd.cur_ref ∧
      rdE.parent_ref = rd.parent_ref := by
  obtain ⟨sup, fl, st, sst, it, cr, pr, er, dc, tab⟩ := rd
  simp only at hs ht ⊢
  rcases hs with hs | hs
  · subst hs
    have e1 : sqfs_dir_reader_read ⟨sup, fl, DIR_STATE_OPENED, sst, it, cr, pr, er, dc, tab⟩ =
        (0, ⟨sup, fl, DIR_STATE_DOT, sst, it, cr, pr, er, dc, tab⟩,
          some ⟨0, 0, SQFS_INODE_DIR, 0, [46]⟩) := rfl
    have e2 : sqfs_dir_reader_read ⟨sup, fl, DIR_STATE_DOT, sst, it, cr, pr, er, dc, tab⟩ =
        (0, ⟨sup, fl, DIR_STATE_DOT_DOT, sst, it, cr, pr, er, dc, tab⟩,
          some ⟨0, 0, SQFS_INODE_DIR, 1, [46, 46]⟩) := rfl
    obtain ⟨rdE, i1, i2, i3, i4, i5, i6⟩ := read_all_entries it.listing
      (it.listing.length + 1) ⟨sup, fl, DIR_STATE_ENTRIES, sst, it, cr, pr, er, dc, tab⟩
      rfl ht (by omega)
    have e3 : read_all (it.listing.length + 1)
        ⟨sup, fl, DIR_STATE_DOT_DOT, sst, it, cr, pr, er, dc, tab⟩ =
        some (it.listing, 1, rdE) := by
      rw [← i1]
      cases hl : it.listing with
      | nil =>
        have hn : it.todo = [] := by rw [ht, hl]
        simp [read_all, sqfs_dir_reader_read, sqfs_meta_reader_readdir, hn]
      | cons e rest =>
        have hn : it.todo = e :: rest := by rw [ht, hl]
        simp [read_all, sqfs_dir_reader_read, sqfs_meta_reader_readdir, hn]
    refine ⟨rdE, ?_, i2, i3, i4, i5, i6⟩
    have s2 := read_all_step _ _ _ _ _ _ _ e2 e3
    have s1 := read_all_step _ _ _ _ _ _ _ e1 s2
    rw [s1]
    rfl
  · subst hs
    obtain ⟨rdE, i1, i2, i3, i4, i5, i6⟩ := read_all_entries it.listing
      (it.listing.length + 3) ⟨sup, fl, DIR_STATE_ENTRIES, sst, it, cr, pr, er, dc, tab⟩
      rfl ht (by omega)
    refine ⟨rdE, ?_, i2, i3, i4, i5, i6⟩
    rw [i1]
    simp

/-- What `sqfs_dir_reader_rewind` does: it fails, with `SQFS_ERROR_SEQUENCE`,
exactly in state `NONE`; otherwise it returns 0, puts the reader into its start
state, the cursor at the start of the listing, and keeps the references. -/
theorem rewind_effect (r : sqfs_dir_reader_t) :
    ((sqfs_dir_reader_rewind r).1 = SQFS_ERROR_SEQUENCE ↔ r.state = DIR_STATE_NONE) ∧
    (r.state ≠ DIR_STATE_NONE →
      (sqfs_dir_reader_rewind r).1 = 0 ∧
      (sqfs_dir_reader_rewind r).2.state = r.start_state ∧
      (sqfs_dir_reader_rewind r).2.start_state = r.start_state ∧
      (sqfs_dir_reader_rewind r).2.it.todo = r.it.listing ∧
      (sqfs_dir_reader_rewind r).2.it.listing = r.it.listing ∧
      (sqfs_dir_reader_rewind r).2.cur_ref = r.cur_ref ∧
      (sqfs_dir_reader_rewind r).2.parent_ref = r.parent_ref) := by
  unfold sqfs_dir_reader_rewind
  by_cases h : r.state = DIR_STATE_NONE
  · simp [h]
  · simp [h, sqfs_readdir_state_reset, SQFS_ERROR_SEQUENCE]

/-- C11: after a successful `sqfs_dir_reader_open_dir`, a pass over the
directory ends with end-of-directory; `sqfs_dir_reader_rewind` then returns 0
and puts the reader back into the start state that `open_dir` set (`OPENED`
with the synthetic entries, `ENTRIES` without), and a second pass returns the
same entries with the same inode references. `sqfs_dir_reader_rewind` fails,
with `SQFS_ERROR_SEQUENCE`, only on a reader in state `NONE`. -/
theorem c11_rewind_repeats (rd rd1 : sqfs_dir_reader_t) (inode : sqfs_inode_generic_t)
    (flags : Nat) (h : sqfs_dir_reader_open_dir rd inode flags = (0, rd1)) :
    (∃ (l : List (sqfs_dir_entry_t × Nat)) (rdA rdB : sqfs_dir_reader_t),
      read_all (rd1.it.listing.length + 3) rd1 = some (l, 1, rdA) ∧
      (sqfs_dir_reader_rewind rdA).1 = 0 ∧
      (sqfs_dir_reader_rewind rdA).2.state = rd1.state ∧
      read_all (rd1.it.listing.length + 3) (sqfs_dir_reader_rewind rdA).2 = some (l, 1, rdB) ∧
      l = (if rd1.state = DIR_STATE_OPENED then
            [((⟨0, 0, SQFS_INODE_DIR, 0, [46]⟩ : sqfs_dir_entry_t), rd1.cur_ref),
             ((⟨0, 0, SQFS_INODE_DIR, 1, [46, 46]⟩ : sqfs_dir_entry_t), rd1.parent_ref)]
          else []) ++ inode.payload) ∧
    (dots_requested rd flags → rd1.state = DIR_STATE_OPENED) ∧
    (¬ dots_requested rd flags → rd1.state = DIR_STATE_ENTRIES) ∧
    ∀ r : sqfs_dir_reader_t,
      ((sqfs_dir_reader_rewind r).1 = SQFS_ERROR_SEQUENCE ↔ r.state = DIR_STATE_NONE) ∧
      (r.state ≠ DIR_STATE_NONE →
        (sqfs_dir_reader_rewind r).1 = 0 ∧ (sqfs_dir_reader_rewind r).2.state = r.start_state) := by
  obtain ⟨hit, hss, _, hst⟩ := open_dir_ok rd rd1 inode flags h
  have hinit : (sqfs_readdir_state_init inode).1 = 0 := by
    by_contra hne
    unfold sqfs_dir_reader_open_dir at h
    simp only [hne, ne_eq, not_false_eq_true, if_true] at h
    split_ifs at h
    · simp only [Prod.mk.injEq] at h
      exact hne h.1
    · simp [SQFS_ERROR_UNSUPPORTED] at h
  have hpay : rd1.it.listing = inode.payload ∧ rd1.it.todo = inode.payload := by
    rw [hit]
    unfold sqfs_readdir_state_init at hinit ⊢
    split_ifs at hinit ⊢
    · exact ⟨rfl, rfl⟩
    · simp [SQFS_ERROR_NOT_DIR] at hinit
  have hstart : rd1.state = DIR_STATE_OPENED ∨ rd1.state = DIR_STATE_ENTRIES := by
    rw [hst]; split_ifs <;> simp
  obtain ⟨rdA, a1, a2, a3, a4, a5, a6⟩ := read_all_from_start rd1 hstart (by rw [hpay.1, hpay.2])
  have hA : rdA.state ≠ DIR_STATE_NONE := by rw [a2]; decide
  obtain ⟨w1, w2, w3, w4, w5, w6, w7⟩ := (rewind_effect rdA).2 hA
  have hstart2 : (sqfs_dir_reader_rewind rdA).2.state = DIR_STATE_OPENED ∨
      (sqfs_dir_reader_rewind rdA).2.state = DIR_STATE_ENTRIES := by
    rw [w2, a3, hss]; exact hstart
  obtain ⟨rdB, b1, _⟩ := read_all_from_start (sqfs_dir_reader_rewind rdA).2 hstart2
    (by rw [w4, w5])
  rw [w5, a4, w2, a3, hss, w6, a5, w7, a6] at b1
  refine ⟨⟨_, rdA, rdB, a1, w1, by rw [w2, a3, hss], b1, by rw [hpay.1]⟩, ?_, ?_, ?_⟩
  · intro hd
    exact hst.trans (if_pos hd)
  · intro hd
    exact hst.trans (if_neg hd)
  · intro r
    obtain ⟨r1, r2⟩ := rewind_effect r
    exact ⟨r1, fun hr => ⟨(r2 hr).1, (r2 hr).2.1⟩⟩

/-- C11, witness: the sample directory with children a, b, c and synthetic
entries: both passes return ".", "..", a, b, c with the references 96, 96, 0,
32, 64. -/
theorem c11_rewind_repeats_witness :
    sqfs_dir_reader_open_dir (sample_reader [[97], [98], [99]] 1)
        (sample_root [[97], [98], [99]]) 0 = (0, (sample_open [[97], [98], [99]] 1 0).2) ∧
    (∃ (l : List (sqfs_dir_entry_t × Nat)) (rdA rdB : sqfs_dir_reader_t),
      read_all ((sample_open [[97], [98], [99]] 1 0).2.it.listing.length + 3)
        (sample_open [[97], [98], [99]] 1 0).2 = some (l, 1, rdA) ∧
      (sqfs_dir_reader_rewind rdA).1 = 0 ∧
      (sqfs_dir_reader_rewind rdA).2.state = (sample_open [[97], [98], [99]] 1 0).2.state ∧
      read_all ((sample_open [[97], [98], [99]] 1 0).2.it.listing.length + 3)
        (sqfs_dir_reader_rewind rdA).2 = some (l, 1, rdB) ∧
      l = (if (sample_open [[97], [98], [99]] 1 0).2.state = DIR_STATE_OPENED then
            [((⟨0, 0, SQFS_INODE_DIR, 0, [46]⟩ : sqfs_dir_entry_t),
               (sample_open [[97], [98], [99]] 1 0).2.cur_ref),
             ((⟨0, 0, SQFS_INODE_DIR, 1, [46, 46]⟩ : sqfs_dir_entry_t),
               (sample_open [[97], [98], [99]] 1 0).2.parent_ref)]
          else []) ++ (sample_root [[97], [98], [99]]).payload) ∧
    (read_all 6 (sample_open [[97], [98], [99]] 1 0).2).map
        (fun p => (p.1.map (fun e => (e.1.name, e.2)), p.2.1)) =
      some ([([46], 96), ([46, 46], 96), ([97], 0), ([98], 32), ([99], 64)], 1) :=
  ⟨by decide,
   (c11_rewind_repeats (sample_reader [[97], [98], [99]] 1) _
      (sample_root [[97], [98], [99]]) 0 (by decide)).1,
   by decide⟩

/-! ### Directory reader: which inode `get_inode` reads -/

/-- In the states `DOT`, `DOT_DOT` and `ENTRIES`, `sqfs_dir_reader_get_inode`
reads the inode at the reference that belongs to the state. -/
theorem get_inode_reads (rd : sqfs_dir_reader_t)
    (h : rd.state = DIR_STATE_DOT ∨ rd.state = DIR_STATE_DOT_DOT ∨
      rd.state = DIR_STATE_ENTRIES) :
    reads_inode_at rd (entry_ref rd) := by
  unfold reads_inode_at sqfs_dir_reader_get_inode entry_ref sqfs_dir_reader_dcache_add
  rcases h with h | h | h <;> rw [h] <;> simp only <;>
    (generalize sqfs_meta_reader_read_inode rd _ _ = x
     obtain ⟨ret, out⟩ := x
     by_cases hret : ret = 0
     · subst hret
       cases out with
       | none => simp
       | some inode =>
         by_cases hdir : inode.type = SQFS_INODE_DIR ∨ inode.type = SQFS_INODE_EXT_DIR <;>
           simp [hdir]
     · simp [hret])

/-- A 64-bit reference splits into block start `r >> 16` and offset
`r & 0xFFFF` without loss. -/
theorem ref_split (r : Nat) (h : r < 2 ^ 64) :
    ((r >>> 16) <<< 16) ||| (r &&& 0xFFFF) = r ∧ r &&& 0xFFFF < 65536 ∧ r >>> 16 < 2 ^ 48 := by
  have e1 : r &&& 0xFFFF = r % 2 ^ 16 := Nat.and_pow_two_sub_one_eq_mod r 16
  have e2 : r >>> 16 = r / 2 ^ 16 := Nat.shiftRight_eq_div_pow r 16
  have hlt : r % 2 ^ 16 < 2 ^ 16 := Nat.mod_lt _ (by norm_num)
  refine ⟨?_, ?_, ?_⟩
  · rw [e1, e2, Nat.shiftLeft_eq, Nat.mul_comm, ← Nat.mul_add_lt_is_or hlt]
    exact Nat.div_add_mod r (2 ^ 16)
  · rw [e1]; exact hlt
  · rw [e2]
    apply Nat.div_lt_of_lt_mul
    calc r < 2 ^ 64 := h
      _ = 2 ^ 16 * 2 ^ 48 := by norm_num

/-- C12: `sqfs_dir_reader_get_inode` reads the inode of the entry that
`sqfs_dir_reader_read` has just returned: the opened directory's own reference
after ".", the parent's reference after "..", and the entry's reference after a
real entry. A 64-bit reference `r` is split into block start `r >> 16` and
offset `r & 0xFFFF`, with `(block_start << 16) | offset = r`, `offset < 65536`
and `block_start < 2^48`. -/
theorem c12_get_inode_reference (rd rd' : sqfs_dir_reader_t) (ent : sqfs_dir_entry_t)
    (h : sqfs_dir_reader_read rd = (0, rd', some ent)) :
    (rd.state = DIR_STATE_OPENED →
      ent.name = [46] ∧ reads_inode_at rd' rd.cur_ref) ∧
    (rd.state = DIR_STATE_DOT →
      ent.name = [46, 46] ∧ reads_inode_at rd' rd.parent_ref) ∧
    (rd.state = DIR_STATE_DOT_DOT ∨ rd.state = DIR_STATE_ENTRIES →
      ∃ ref, (sqfs_meta_reader_readdir rd.it).2.2 = some (ent, ref) ∧
        reads_inode_at rd' ref) ∧
    ∀ r, r < 2 ^ 64 →
      ((r >>> 16) <<< 16) ||| (r &&& 0xFFFF) = r ∧ r &&& 0xFFFF < 65536 ∧ r >>> 16 < 2 ^ 48 := by
  refine ⟨?_, ?_, ?_, ref_split⟩
  · intro hs
    unfold sqfs_dir_reader_read at h
    rw [hs] at h
    simp only [mk_dummy_entry, if_true, Prod.mk.injEq, true_and, Option.some.injEq] at h
    obtain ⟨h1, h2⟩ := h
    subst h1 h2
    exact ⟨rfl, get_inode_reads _ (Or.inl rfl)⟩
  · intro hs
    unfold sqfs_dir_reader_read at h
    rw [hs] at h
    simp only [mk_dummy_entry, if_true, Prod.mk.injEq, true_and, Option.some.injEq] at h
    obtain ⟨h1, h2⟩ := h
    subst h1 h2
    exact ⟨rfl, get_inode_reads _ (Or.inr (Or.inl rfl))⟩
  · intro hs
    have hrd : ∃ ref, (sqfs_meta_reader_readdir rd.it).2.2 = some (ent, ref) ∧
        rd'.state = DIR_STATE_ENTRIES ∧ rd'.ent_ref = ref := by
      unfold sqfs_dir_reader_read sqfs_meta_reader_readdir at h
      unfold sqfs_meta_reader_readdir
      rcases hs with hs | hs <;> rw [hs] at h <;>
        (cases ht : rd.it.todo with
         | nil => simp [ht] at h
         | cons e rest =>
           simp only [ht, Prod.mk.injEq, true_and, Option.some.injEq] at h
           obtain ⟨h1, h2⟩ := h
           subst h1 h2
           exact ⟨e.2, rfl, by first | rfl | exact hs, rfl⟩)
    obtain ⟨ref, r1, r2, r3⟩ := hrd
    refine ⟨ref, r1, ?_⟩
    have := get_inode_reads rd' (Or.inr (Or.inr r2))
    unfold entry_ref at this
    rw [r2] at this
    simp only at this
    rw [r3] at this
    exact this

/-- C12, witness: in the sample directory with child a and synthetic entries,
the first read returns "." and `sqfs_dir_reader_get_inode` then reads the root
inode at the directory's own reference 32; after the third read, which returns
a, it reads the inode of a at reference 0 (block start 0, offset 0). -/
theorem c12_get_inode_reference_witness :
    sqfs_dir_reader_read (sample_open [[97]] 1 0).2 =
      (0, (sqfs_dir_reader_read (sample_open [[97]] 1 0).2).2.1,
        some ⟨0, 0, SQFS_INODE_DIR, 0, [46]⟩) ∧
    ((sample_open [[97]] 1 0).2.state = DIR_STATE_OPENED →
      (⟨0, 0, SQFS_INODE_DIR, 0, [46]⟩ : sqfs_dir_entry_t).name = [46] ∧
      reads_inode_at (sqfs_dir_reader_read (sample_open [[97]] 1 0).2).2.1
        (sample_open [[97]] 1 0).2.cur_ref) ∧
    (sample_open [[97]] 1 0).2.cur_ref = 32 ∧
    (sqfs_dir_reader_get_inode (sqfs_dir_reader_read (sample_open [[97]] 1 0).2).2.1).2.2 =
      some (sample_root [[97]]) ∧
    (sqfs_dir_reader_get_inode
        (sqfs_dir_reader_read (sqfs_dir_reader_read
          (sqfs_dir_reader_read (sample_open [[97]] 1 0).2).2.1).2.1).2.1).2.2 =
      some (sample_file_inode 0) :=
  ⟨by decide,
   (c12_get_inode_reference (sample_open [[97]] 1 0).2 _ _ (by decide)).1,
   by decide, by decide, by decide⟩

/-! ### Directory reader: the directory cache -/

/-- C13: when the open flags are valid, the readdir state initialises
successfully and the synthetic entries are requested,
`sqfs_dir_reader_open_dir` returns `SQFS_ERROR_NO_ENTRY` exactly when the
directory's own inode number is missing from the directory cache, or its cached
reference differs from `super.root_inode_ref` and its parent inode number is
missing; otherwise it succeeds in state `OPENED` with the cached references,
and for the root the parent reference is the root's own. When the synthetic
entries are not requested it succeeds in state `ENTRIES` whatever the cache
holds, and leaves the cache and the references alone. -/
theorem c13_open_dir_cache (rd : sqfs_dir_reader_t) (inode : sqfs_inode_generic_t)
    (flags : Nat) (hflags : andNot flags SQFS_DIR_OPEN_ALL_FLAGS = 0)
    (hinit : (sqfs_readdir_state_init inode).1 = 0) :
    (dots_requested rd flags →
      ((sqfs_dir_reader_open_dir rd inode flags).1 = SQFS_ERROR_NO_ENTRY ↔
        ((sqfs_dir_reader_dcache_find rd inode.inode_number).1 ≠ 0 ∨
          ((sqfs_dir_reader_dcache_find rd inode.inode_number).2 ≠
              some rd.super.root_inode_ref ∧
            (sqfs_dir_reader_dcache_find rd inode.parent_inode).1 ≠ 0))) ∧
      ((sqfs_dir_reader_open_dir rd inode flags).1 ≠ SQFS_ERROR_NO_ENTRY →
        (sqfs_dir_reader_open_dir rd inode flags).1 = 0 ∧
        (sqfs_dir_reader_open_dir rd inode flags).2.state = DIR_STATE_OPENED ∧
        some (sqfs_dir_reader_open_dir rd inode flags).2.cur_ref =
          (sqfs_dir_reader_dcache_find rd inode.inode_number).2 ∧
        ((sqfs_dir_reader_open_dir rd inode flags).2.cur_ref = rd.super.root_inode_ref →
          (sqfs_dir_reader_open_dir rd inode flags).2.parent_ref =
            (sqfs_dir_reader_open_dir rd inode flags).2.cur_ref) ∧
        ((sqfs_dir_reader_open_dir rd inode flags).2.cur_ref ≠ rd.super.root_inode_ref →
          some (sqfs_dir_reader_open_dir rd inode flags).2.parent_ref =
            (sqfs_dir_reader_dcache_find rd inode.parent_inode).2))) ∧
    (¬ dots_requested rd flags →
      ∀ dc : List (Nat × Nat),
        (sqfs_dir_reader_open_dir { rd with dcache := dc } inode flags).1 = 0 ∧
        (sqfs_dir_reader_open_dir { rd with dcache := dc } inode flags).2 =
          { rd with dcache := dc, it := (sqfs_readdir_state_init inode).2,
                    state := DIR_STATE_ENTRIES, start_state := DIR_STATE_ENTRIES }) := by
  constructor
  · intro hd
    unfold dots_requested at hd
    unfold sqfs_dir_reader_open_dir sqfs_dir_reader_dcache_find
    simp only [hflags, hinit, ne_eq, not_true_eq_false, if_false, hd, not_false_eq_true,
      and_self, if_true]
    cases h1 : rd.dcache.lookup inode.inode_number with
    | none => simp [SQFS_ERROR_NO_ENTRY]
    | some c =>
      by_cases hroot : c = rd.super.root_inode_ref
      · simp [hroot, SQFS_ERROR_NO_ENTRY]
      · cases h2 : rd.dcache.lookup inode.parent_inode with
        | none => simp [hroot, SQFS_ERROR_NO_ENTRY]
        | some p => simp [hroot, SQFS_ERROR_NO_ENTRY]
  · intro hd dc
    have hd' : ¬ (rd.flags &&& SQFS_DIR_READER_DOT_ENTRIES ≠ 0 ∧
        flags &&& SQFS_DIR_OPEN_NO_DOT_ENTRIES = 0) := hd
    unfold sqfs_dir_reader_open_dir
    simp only [hflags, hinit, ne_eq, not_true_eq_false, if_false, hd', and_self]

/-- C13, witness: over the image with a subdirectory, with the root inode
cached, opening the root succeeds in state `OPENED` with parent reference equal
to the root's own reference 32; opening the subdirectory `d`, whose inode number
is not in the cache, returns `SQFS_ERROR_NO_ENTRY`; once `d` has been fetched
through `sqfs_dir_reader_get_inode` it opens with parent reference 32. -/
theorem c13_open_dir_cache_witness :
    (andNot 0 SQFS_DIR_OPEN_ALL_FLAGS = 0 ∧
      (sqfs_readdir_state_init
        ⟨SQFS_INODE_DIR, 2, 3, [(⟨0, 0, SQFS_INODE_DIR, 0, [100]⟩, 0)]⟩).1 = 0 ∧
      dots_requested (sqfs_dir_reader_get_root_inode nested_reader).2.1 0) ∧
    ((sqfs_dir_reader_open_dir (sqfs_dir_reader_get_root_inode nested_reader).2.1
        ⟨SQFS_INODE_DIR, 2, 3, [(⟨0, 0, SQFS_INODE_DIR, 0, [100]⟩, 0)]⟩ 0).1 = 0 ∧
      (sqfs_dir_reader_open_dir (sqfs_dir_reader_get_root_inode nested_reader).2.1
        ⟨SQFS_INODE_DIR, 2, 3, [(⟨0, 0, SQFS_INODE_DIR, 0, [100]⟩, 0)]⟩ 0).2.state =
        DIR_STATE_OPENED) ∧
    (sqfs_dir_reader_open_dir (sqfs_dir_reader_get_root_inode nested_reader).2.1
        ⟨SQFS_INODE_DIR, 2, 3, [(⟨0, 0, SQFS_INODE_DIR, 0, [100]⟩, 0)]⟩ 0).2.parent_ref = 32 ∧
    (sqfs_dir_reader_open_dir (sqfs_dir_reader_get_root_inode nested_reader).2.1
        ⟨SQFS_INODE_DIR, 1, 2, []⟩ 0).1 = SQFS_ERROR_NO_ENTRY ∧
    (sqfs_dir_reader_open_dir
        (sqfs_dir_reader_get_inode
          (sqfs_dir_reader_read (sqfs_dir_reader_read (sqfs_dir_reader_read
            (sqfs_dir_reader_open_dir
              (sqfs_dir_reader_get_root_inode nested_reader).2.1
              ⟨SQFS_INODE_DIR, 2, 3, [(⟨0, 0, SQFS_INODE_DIR, 0, [100]⟩, 0)]⟩
              0).2).2.1).2.1).2.1).2.1
        ⟨SQFS_INODE_DIR, 1, 2, []⟩ 0).2.parent_ref = 32 :=
  ⟨⟨by decide, by decide, by decide⟩,
   ⟨(((c13_open_dir_cache (sqfs_dir_reader_get_root_inode nested_reader).2.1
        ⟨SQFS_INODE_DIR, 2, 3, [(⟨0, 0, SQFS_INODE_DIR, 0, [100]⟩, 0)]⟩ 0
        (by decide) (by decide)).1 (by decide)).2 (by decide)).1,
    (((c13_open_dir_cache (sqfs_dir_reader_get_root_inode nested_reader).2.1
        ⟨SQFS_INODE_DIR, 2, 3, [(⟨0, 0, SQFS_INODE_DIR, 0, [100]⟩, 0)]⟩ 0
        (by decide) (by decide)).1 (by decide)).2 (by decide)).2.1⟩,
   by decide, by decide, by decide⟩

/-- C14: after `sqfs_dir_reader_get_inode` or `sqfs_dir_reader_get_root_inode`
succeeds and yields an inode of type directory or extended directory with inode
number `n`, read from the reference `r` (the reference of the entry the reader
stands on, respectively `super.root_inode_ref`), a directory-cache lookup of
`n` yields `r`; when the inode has any other type the cache is unchanged. -/
theorem c14_cache_after_get_inode (rd rd' : sqfs_dir_reader_t)
    (inode : sqfs_inode_generic_t) :
    (sqfs_dir_reader_get_inode rd = (0, rd', some inode) →
      (sqfs_meta_reader_read_inode rd (entry_ref rd >>> 16) (entry_ref rd &&& 0xFFFF)).2 =
        some inode ∧
      (is_dir_inode inode →
        sqfs_dir_reader_dcache_find rd' inode.inode_number = (0, some (entry_ref rd))) ∧
      (¬ is_dir_inode inode → rd'.dcache = rd.dcache)) ∧
    (sqfs_dir_reader_get_root_inode rd = (0, rd', some inode) →
      (sqfs_meta_reader_read_inode rd (rd.super.root_inode_ref >>> 16)
        (rd.super.root_inode_ref &&& 0xFFFF)).2 = some inode ∧
      (is_dir_inode inode →
        sqfs_dir_reader_dcache_find rd' inode.inode_number =
          (0, some rd.super.root_inode_ref)) ∧
      (¬ is_dir_inode inode → rd'.dcache = rd.dcache)) := by
  constructor
  · intro h
    unfold sqfs_dir_reader_get_inode sqfs_dir_reader_dcache_add at h
    unfold entry_ref is_dir_inode sqfs_dir_reader_dcache_find
    cases hs : rd.state <;> rw [hs] at h <;> simp only at h ⊢
    case DIR_STATE_NONE => simp [SQFS_ERROR_SEQUENCE] at h
    case DIR_STATE_OPENED => simp [SQFS_ERROR_SEQUENCE] at h
    all_goals
      (generalize sqfs_meta_reader_read_inode rd _ _ = x at h ⊢
       obtain ⟨ret, out⟩ := x
       by_cases hret : ret = 0
       · subst hret
         cases out with
         | none => simp at h
         | some ino =>
           by_cases hdir : ino.type = SQFS_INODE_DIR ∨ ino.type = SQFS_INODE_EXT_DIR
           · simp only [hdir, ne_eq, not_true_eq_false, if_false, if_true, Prod.mk.injEq,
               true_and, Option.some.injEq] at h
             obtain ⟨h1, h2⟩ := h
             subst h1 h2
             simp [hdir]
           · simp only [hdir, ne_eq, not_true_eq_false, if_false, Prod.mk.injEq,
               true_and, Option.some.injEq] at h
             obtain ⟨h1, h2⟩ := h
             subst h1 h2
             simp [hdir]
       · simp [hret] at h)
  · intro h
    unfold sqfs_dir_reader_get_root_inode sqfs_dir_reader_dcache_add at h
    unfold is_dir_inode sqfs_dir_reader_dcache_find
    simp only at h ⊢
    generalize sqfs_meta_reader_read_inode rd _ _ = x at h ⊢
    obtain ⟨ret, out⟩ := x
    by_cases hret : ret = 0
    · subst hret
      cases out with
      | none => simp at h
      | some ino =>
        by_cases hdir : ino.type = SQFS_INODE_DIR ∨ ino.type = SQFS_INODE_EXT_DIR
        · simp only [hdir, ne_eq, not_true_eq_false, if_false, if_true, Prod.mk.injEq,
            true_and, Option.some.injEq] at h
          obtain ⟨h1, h2⟩ := h
          subst h1 h2
          simp [hdir]
        · simp only [hdir, ne_eq, not_true_eq_false, if_false, Prod.mk.injEq,
            true_and, Option.some.injEq] at h
          obtain ⟨h1, h2⟩ := h
          subst h1 h2
          simp [hdir]
    · simp [hret] at h

/-- C14, witness: on the image with a subdirectory, reading the root inode
(number 2, a directory) from the root reference 32 makes the cache map 2 to 32;
standing on the entry `d`, `sqfs_dir_reader_get_inode` reads inode 1 from
reference 0 and the cache maps 1 to 0; reading the inode of a regular file
leaves the cache as it was. -/
theorem c14_cache_after_get_inode_witness :
    (sqfs_dir_reader_get_root_inode nested_reader =
        (0, (sqfs_dir_reader_get_root_inode nested_reader).2.1,
          some ⟨SQFS_INODE_DIR, 2, 3, [(⟨0, 0, SQFS_INODE_DIR, 0, [100]⟩, 0)]⟩) ∧
      is_dir_inode ⟨SQFS_INODE_DIR, 2, 3, [(⟨0, 0, SQFS_INODE_DIR, 0, [100]⟩, 0)]⟩) ∧
    sqfs_dir_reader_dcache_find (sqfs_dir_reader_get_root_inode nested_reader).2.1 2 =
      (0, some 32) ∧
    (sqfs_dir_reader_dcache_find
      (sqfs_dir_reader_get_inode
        (sqfs_dir_reader_read (sqfs_dir_reader_read (sqfs_dir_reader_read
          (sqfs_dir_reader_open_dir
            (sqfs_dir_reader_get_root_inode nested_reader).2.1
            ⟨SQFS_INODE_DIR, 2, 3, [(⟨0, 0, SQFS_INODE_DIR, 0, [100]⟩, 0)]⟩
            0).2).2.1).2.1).2.1).2.1 1 = (0, some 0)) ∧
    (sqfs_dir_reader_get_inode
      (sqfs_dir_reader_read (sample_open [[97]] 0 0).2).2.1).2.1.dcache =
      (sqfs_dir_reader_read (sample_open [[97]] 0 0).2).2.1.dcache :=
  ⟨⟨by decide, by decide⟩,
   ((c14_cache_after_get_inode nested_reader
      (sqfs_dir_reader_get_root_inode nested_reader).2.1
      ⟨SQFS_INODE_DIR, 2, 3, [(⟨0, 0, SQFS_INODE_DIR, 0, [100]⟩, 0)]⟩).2
      (by decide)).2.1 (by decide),
   by decide, by decide⟩

/-! ### Directory reader: the synthetic entries -/

/-- C20: for a name of length `len` between 1 and 65536, `mk_dummy_entry`
succeeds with an entry of type directory whose size field is `len - 1`, whose
offset and inode difference are 0 and whose name is the given string; there is
no wraparound for such a name. -/
theorem c20_dummy_entry_size (str : List Nat) (h1 : 1 ≤ strlen str)
    (h2 : strlen str ≤ 2 ^ 16) :
    mk_dummy_entry str =
      (0, some { offset := 0, inode_diff := 0, type := SQFS_INODE_DIR,
                 size := strlen str - 1, name := str }) := by
  unfold mk_dummy_entry
  simp only
  have e : (strlen str + 2 ^ 64 - 1) % 2 ^ 64 % 2 ^ 16 = strlen str - 1 := by
    have e1 : strlen str + 2 ^ 64 - 1 = (strlen str - 1) + 2 ^ 64 := by omega
    rw [e1, Nat.add_mod_right, Nat.mod_eq_of_lt (by omega), Nat.mod_eq_of_lt (by omega)]
  rw [e]

/-- C20, witness: the entry for `.` carries size 0 and the entry for `..`
carries size 1, both of type directory. -/
theorem c20_dummy_entry_size_witness :
    (1 ≤ strlen [46] ∧ strlen [46] ≤ 2 ^ 16) ∧
    mk_dummy_entry [46] =
      (0, some { offset := 0, inode_diff := 0, type := SQFS_INODE_DIR,
                 size := strlen [46] - 1, name := [46] }) ∧
    mk_dummy_entry [46] = (0, some ⟨0, 0, 1, 0, [46]⟩) ∧
    mk_dummy_entry [46, 46] = (0, some ⟨0, 0, 1, 1, [46, 46]⟩) :=
  ⟨⟨by decide, by decide⟩, c20_dummy_entry_size [46] (by decide) (by decide),
   by decide, by decide⟩

/-! ### The tool `sqfsdiff`: exit status -/

/-- C16: the exit status of `main` at the five outcomes: an image that cannot
be opened, first or second, gives 1 (`EXIT_FAILURE`), not 2; a failed
comparison gives 2, equal images 0 and different images 1. -/
theorem c16_exit_status_open_failure :
    main (-1) 0 0 = 1 ∧ main 0 (-1) 0 = 1 ∧ main 0 0 (-1) = 2 ∧
    main 0 0 0 = 0 ∧ main 0 0 1 = 1 := by
  decide

/-! ### Data writer: the fragment table -/

/-- C15: `data_writer_write_fragment_table` on a writer with
`num_fragments = 0` returns 0, sets `fragment_entry_count` to 0 and
`fragment_table_start` to `0xFFFFFFFFFFFFFFFF` and changes nothing else, the
output file included, whatever the table-write helper is. On a writer with
`0 < num_fragments < 2 ^ 32` the helper is called with the writer's file, super
block and array and `16 * num_fragments` bytes; the call succeeds exactly when
the helper does, and then `fragment_entry_count` is `num_fragments`,
`fragment_table_start` is the location the helper returned, and file and the
rest of the super block are as the helper left them. -/
theorem c15_fragment_table
    (wt : out_file_t → sqfs_super_t → (Nat → sqfs_fragment_t) → Nat →
      Int × out_file_t × sqfs_super_t × Nat)
    (data : data_writer_t) :
    (data.num_fragments = 0 →
      data_writer_write_fragment_table wt data =
        (0, { data with super := { data.super with
                fragment_entry_count := 0,
                fragment_table_start := 0xFFFFFFFFFFFFFFFF } })) ∧
    (0 < data.num_fragments → data.num_fragments < 2 ^ 32 →
      ((data_writer_write_fragment_table wt data).1 = 0 ↔
        (wt data.outfd data.super data.fragments (16 * data.num_fragments)).1 = 0) ∧
      ((data_writer_write_fragment_table wt data).1 = 0 →
        data_writer_write_fragment_table wt data =
          (0, { data with
            outfd := (wt data.outfd data.super data.fragments (16 * data.num_fragments)).2.1,
            super := { (wt data.outfd data.super data.fragments
                (16 * data.num_fragments)).2.2.1 with
              fragment_entry_count := data.num_fragments,
              fragment_table_start :=
                (wt data.outfd data.super data.fragments
                  (16 * data.num_fragments)).2.2.2 } }))) := by
  constructor
  · intro h
    unfold data_writer_write_fragment_table
    simp only [h, if_true]
  · intro h0 h32
    have hne : data.num_fragments ≠ 0 := by omega
    have hsz : sizeof_sqfs_fragment_t * data.num_fragments % 2 ^ 64 =
        16 * data.num_fragments := by
      unfold sizeof_sqfs_fragment_t
      exact Nat.mod_eq_of_lt (by omega)
    have hcnt : data.num_fragments % 2 ^ 32 = data.num_fragments := Nat.mod_eq_of_lt h32
    unfold data_writer_write_fragment_table
    simp only [hne, if_false, hsz, hcnt]
    by_cases hw : (wt data.outfd data.super data.fragments (16 * data.num_fragments)).1 = 0
    · simp [hw]
    · simp [hw]



/-- C15, witness: a writer with three fragment table entries and the sample
helper, which is given 48 bytes and reports location 96: the call returns 0,
`fragment_entry_count` becomes 3 and `fragment_table_start` 96. With no entry
the same helper is not called: the sentinel is stored and the file is as
before. With a failing helper the call returns -1. -/
theorem c15_fragment_table_witness :
    (0 < (sample_writer 3).num_fragments ∧ (sample_writer 3).num_fragments < 2 ^ 32 ∧
      (data_writer_write_fragment_table sample_write_table (sample_writer 3)).1 = 0) ∧
    (data_writer_write_fragment_table sample_write_table (sample_writer 3)).2.super =
      { block_size := 4096, bytes_used := 144, flags := 0, root_inode_ref := 0,
        fragment_entry_count := 3, fragment_table_start := 96 } ∧
    (data_writer_write_fragment_table sample_write_table (sample_writer 3)).2.outfd.written
      = 48 ∧
    (data_writer_write_fragment_table sample_write_table (sample_writer 0)).2.super =
      { block_size := 4096, bytes_used := 96, flags := 0, root_inode_ref := 0,
        fragment_entry_count := 0, fragment_table_start := 0xFFFFFFFFFFFFFFFF } ∧
    (data_writer_write_fragment_table sample_write_table (sample_writer 0)).2.outfd =
      (sample_writer 0).outfd ∧
    (data_writer_write_fragment_table failing_write_table (sample_writer 3)).1 = -1 :=
  ⟨⟨by decide, by decide, by decide⟩,
   congrArg (fun r => r.2.super)
     (((c15_fragment_table sample_write_table (sample_writer 3)).2
       (by decide) (by decide)).2 (by decide)),
   by decide, by decide, by decide, by decide⟩

/-! ### Data writer: which regions are recorded as sparse -/

/-- Two regions that compare equal over a range agree there. -/
theorem memcmp_from_zero (a b : Buf) :
    ∀ (n i : Nat), memcmp_from a b i n = 0 → ∀ j, i ≤ j → j < i + n → a j = b j := by
  intro n
  induction n with
  | zero => intro i _ j h1 h2; omega
  | succ n ih =>
    intro i h j h1 h2
    simp only [memcmp_from] at h
    by_cases hab : a i = b i
    · rw [if_pos hab] at h
      by_cases hj : j = i
      · rw [hj]; exact hab
      · exact ih (i + 1) h j (by omega) (by omega)
    · rw [if_neg hab] at h
      exfalso
      apply hab
      have : (a i : Int) = (b i : Int) := by omega
      exact_mod_cast this

/-- For a length of at least 1, `is_zero_block` holds exactly of the regions
whose bytes are all zero. -/
theorem is_zero_block_iff (p : Buf) (size : Nat) (h1 : 1 ≤ size) :
    is_zero_block p size = true ↔ ∀ i, i < size → p i = 0 := by
  constructor
  · intro h
    simp only [is_zero_block, decide_eq_true_eq] at h
    obtain ⟨h0, hm⟩ := h
    have hstep := memcmp_from_zero p (shift p 1) (size - 1) 0 hm
    intro i
    induction i with
    | zero => intro _; exact h0
    | succ k ih =>
      intro hk
      have e := hstep k (Nat.zero_le _) (by omega)
      unfold shift at e
      rw [← e]
      exact ih (by omega)
  · exact is_zero_block_zeros p size h1

/-- The descriptor `write_compressed` hands back for a region of between 1 and
`2 ^ 32 - 1` bytes is not zero. -/
theorem write_compressed_size_ne_zero (env : env_t) (s : wstate) (inp : Buf)
    (size flags : Nat) (h2 : size < 2 ^ 32)
    (h : (write_compressed env s inp size flags).1 = 0) :
    (write_compressed env s inp size flags).2.2 ≠ 0 := by
  have hbit : (size ||| 1 <<< 24) % 2 ^ 32 ≠ 0 := by
    intro h0
    have ht : ((size ||| 1 <<< 24) % 2 ^ 32).testBit 24 = true := by
      rw [Nat.testBit_mod_two_pow, Nat.testBit_or, Nat.one_shiftLeft,
        Nat.testBit_two_pow_self]
      simp
    rw [h0] at ht
    simp at ht
  revert h
  unfold write_compressed
  simp only
  generalize (if flags &&& DW_DONT_COMPRESS = 0 then
    env.do_block (bytes inp size) s.data.super.block_size else (0, s.data.scratch)) = cmp
  obtain ⟨ret, buf⟩ := cmp
  simp only
  by_cases hfail : flags &&& DW_DONT_COMPRESS = 0 ∧ ret < 0
  · rw [if_pos hfail]
    intro h
    simp at h
  · rw [if_neg hfail]
    intro _
    by_cases hsel : ret > 0 ∧ ret.toNat < size
    · rw [if_pos hsel]
      simp only
      obtain ⟨hpos, hlt⟩ := hsel
      rw [Nat.mod_eq_of_lt (by omega)]
      omega
    · rw [if_neg hsel]
      exact hbit

/-- The fragment branch records no block descriptor and leaves `fi.sparse`
alone. -/
theorem flush_tail_blocks (env : env_t) (s : wstate) (size chksum : Nat) :
    (flush_tail env s size chksum).2.fi.blocks = s.fi.blocks ∧
    (flush_tail env s size chksum).2.fi.sparse = s.fi.sparse := by
  unfold flush_tail
  simp only
  split_ifs <;> (try split) <;>
    simp [deduplicate_data_sparse, flush_fragments_frame]

/-- The full-block branch leaves `fi.sparse` alone; when it fails it records
nothing, when it succeeds on a region of between 1 and `2 ^ 32 - 1` bytes it
records a descriptor with a non-zero size at the block index. -/
theorem flush_block_effect (env : env_t) (s : wstate) (size : Nat) (is_last : Bool)
    (flags chksum : Nat) (h2 : size < 2 ^ 32) :
    (flush_block env s size is_last flags chksum).2.fi.sparse = s.fi.sparse ∧
    (((flush_block env s size is_last flags chksum).2.data.block_idx = s.data.block_idx ∧
        (flush_block env s size is_last flags chksum).2.fi.blocks = s.fi.blocks) ∨
      ((flush_block env s size is_last flags chksum).2.data.block_idx = s.data.block_idx + 1 ∧
        ((flush_block env s size is_last flags chksum).2.fi.blocks s.data.block_idx).size ≠ 0 ∧
        ∀ i, i ≠ s.data.block_idx →
          (flush_block env s size is_last flags chksum).2.fi.blocks i = s.fi.blocks i)) := by
  have hw := write_compressed_frame env s s.data.block size flags
  have hn := write_compressed_size_ne_zero env s s.data.block size flags h2
  unfold flush_block
  simp only
  generalize write_compressed env s s.data.block size flags = w at hw hn
  obtain ⟨ret, s1, out⟩ := w
  simp only at hw hn ⊢
  obtain ⟨hw1, _, hw3⟩ := hw
  by_cases hr : ret = 0
  · have hn' := hn hr
    simp only [hr, ne_eq, not_true_eq_false, if_false]
    cases is_last
    · simp only [Bool.false_eq_true, if_false]
      refine ⟨by rw [hw3], Or.inr ⟨by rw [hw1], ?_, ?_⟩⟩
      · simp [hw1, hn', Function.update]
      · intro i hi
        simp [hw1, hw3, Function.update, hi]
    · simp only [if_true]
      split_ifs <;>
      · refine ⟨by simp [deduplicate_data_sparse, hw3], Or.inr
          ⟨by simp [deduplicate_data_frame, hw1], ?_, ?_⟩⟩
        · simp [deduplicate_data_sparse, hw1, hn', Function.update]
        · intro i hi
          simp [deduplicate_data_sparse, hw1, hw3, Function.update, hi]
  · simp only [hr, ne_eq, not_false_eq_true, if_true]
    exact ⟨by rw [hw3], Or.inl ⟨hw1, by rw [hw3]⟩⟩

/-- C19: for every buffer and every length `L ≥ 1`, `is_zero_block` is true
exactly when every byte below `L` is zero. Hence `flush_data_block`, on a
region of between 1 and `2 ^ 32 - 1` bytes: when every byte is zero it returns
0, records the descriptor (size 0, checksum 0) at the block index, advances
the index and adds the length to `fi.sparse`; when some byte is not zero it
leaves `fi.sparse` alone and either records no descriptor or records one with a
non-zero size at the block index. -/
theorem c19_sparse_iff_zero (env : env_t) (s : wstate) (size : Nat) (is_last : Bool)
    (flags : Nat) (h1 : 1 ≤ size) (h2 : size < 2 ^ 32) :
    (∀ (ptr : Buf) (L : Nat), 1 ≤ L →
      (is_zero_block ptr L = true ↔ ∀ i, i < L → ptr i = 0)) ∧
    ((∀ i, i < size → s.data.block i = 0) →
      (flush_data_block env s size is_last flags).1 = 0 ∧
      (flush_data_block env s size is_last flags).2.fi.blocks s.data.block_idx = ⟨0, 0⟩ ∧
      (flush_data_block env s size is_last flags).2.data.block_idx = s.data.block_idx + 1 ∧
      (flush_data_block env s size is_last flags).2.fi.sparse = s.fi.sparse + size) ∧
    ((∃ i, i < size ∧ s.data.block i ≠ 0) →
      (flush_data_block env s size is_last flags).2.fi.sparse = s.fi.sparse ∧
      (((flush_data_block env s size is_last flags).2.data.block_idx = s.data.block_idx ∧
          (flush_data_block env s size is_last flags).2.fi.blocks = s.fi.blocks) ∨
        ((flush_data_block env s size is_last flags).2.data.block_idx = s.data.block_idx + 1 ∧
          ((flush_data_block env s size is_last flags).2.fi.blocks s.data.block_idx).size ≠ 0 ∧
          ∀ i, i ≠ s.data.block_idx →
            (flush_data_block env s size is_last flags).2.fi.blocks i = s.fi.blocks i))) := by
  refine ⟨fun ptr L hL => is_zero_block_iff ptr L hL, ?_, ?_⟩
  · intro hz
    have hzb := (is_zero_block_iff s.data.block size h1).mpr hz
    have e1 := flush_sparse_count env
      { s with handed := s.handed ++ [(bytes s.data.block size, is_last)] } size is_last
    have e2 := flush_sparse_effect env
      { s with handed := s.handed ++ [(bytes s.data.block size, is_last)] } size is_last
    unfold flush_data_block
    simp only [hzb, if_true]
    exact ⟨e1.1, e2.2.1, e1.2.2.2.1, e2.1⟩
  · intro hnz
    have hzb : is_zero_block s.data.block size = false := by
      cases hc : is_zero_block s.data.block size
      · rfl
      · obtain ⟨i, hi, hne⟩ := hnz
        exact absurd ((is_zero_block_iff s.data.block size h1).mp hc i hi) hne
    unfold flush_data_block
    simp only [hzb, Bool.false_eq_true, if_false]
    split_ifs with ht
    · have e1 := flush_tail_blocks env
        { s with handed := s.handed ++ [(bytes s.data.block size, is_last)] } size
        (env.update_crc32 0 (bytes s.data.block size))
      have e2 := flush_tail_count env
        { s with handed := s.handed ++ [(bytes s.data.block size, is_last)] } size
        (env.update_crc32 0 (bytes s.data.block size))
      exact ⟨e1.2, Or.inl ⟨e2.2.2.1, e1.1⟩⟩
    · exact flush_block_effect env
        { s with handed := s.handed ++ [(bytes s.data.block size, is_last)] } size is_last
        flags (env.update_crc32 0 (bytes s.data.block size)) h2

/-- C19, witness: with block size 8, a region of eight zero bytes is recorded
as the descriptor (0, 0) and counted in `fi.sparse`; a region of eight bytes
whose last byte alone is 1 is written as a block with a non-zero descriptor and
`fi.sparse` stays 0; `is_zero_block` is true of the first region only. The
first five bytes of the second region are zero and are recorded as sparse; five
bytes with a 1 among them are not. -/
theorem c19_sparse_iff_zero_witness :
    (1 ≤ 8 ∧ 8 < 2 ^ 32) ∧
    ((flush_data_block (sample_env 0) (region_state (fun _ => 0)) 8 true 0).1 = 0 ∧
      (flush_data_block (sample_env 0) (region_state (fun _ => 0)) 8 true 0).2.fi.blocks
        (region_state (fun _ => 0)).data.block_idx = ⟨0, 0⟩ ∧
      (flush_data_block (sample_env 0) (region_state (fun _ => 0)) 8 true 0).2.data.block_idx =
        (region_state (fun _ => 0)).data.block_idx + 1 ∧
      (flush_data_block (sample_env 0) (region_state (fun _ => 0)) 8 true 0).2.fi.sparse =
        (region_state (fun _ => 0)).fi.sparse + 8) ∧
    is_zero_block (fun _ => 0) 8 = true ∧
    is_zero_block (fun i => if i = 7 then 1 else 0) 8 = false ∧
    (flush_data_block (sample_env 0) (region_state (fun _ => 0)) 8 true 0).2.fi.sparse = 8 ∧
    (flush_data_block (sample_env 0) (region_state (fun i => if i = 7 then 1 else 0))
      8 true 0).2.fi.sparse = 0 ∧
    (flush_data_block (sample_env 0) (region_state (fun i => if i = 7 then 1 else 0))
      8 true 0).2.fi.blocks 0 = ⟨8 + 2 ^ 24, 1⟩ ∧
    (flush_data_block (sample_env 0) (region_state (fun i => if i = 7 then 1 else 0))
      5 true 0).2.fi.sparse = 5 ∧
    (flush_data_block (sample_env 0) (region_state (fun i => if i = 2 then 1 else 0))
      5 true 0).2.fi.sparse = 0 :=
  ⟨⟨by decide, by decide⟩,
   (c19_sparse_iff_zero (sample_env 0) (region_state (fun _ => 0)) 8 true 0
     (by decide) (by decide)).2.1 (fun _ _ => rfl),
   by decide, by decide, by decide, by decide, by decide, by decide, by decide⟩

/-! ### Data writer: when `deduplicate_data` is called -/

/-- Every call of `deduplicate_data` is counted and returns 0. -/
theorem deduplicate_data_calls (env : env_t) (s : wstate) :
    (deduplicate_data env s).2.dedup_calls = s.dedup_calls + 1 ∧
    deduplicate_data env s = (0, (deduplicate_data env s).2) := by
  unfold deduplicate_data
  simp only
  split <;> exact ⟨rfl, rfl⟩

/-- Neither `write_compressed` nor `flush_fragments` calls
`deduplicate_data`. -/
theorem write_flush_calls (env : env_t) (s : wstate) (inp : Buf) (size flags : Nat) :
    (write_compressed env s inp size flags).2.1.dedup_calls = s.dedup_calls ∧
    (flush_fragments env s).2.dedup_calls = s.dedup_calls := by
  have hw : ∀ (t : wstate) (p : Buf) (n f : Nat),
      (write_compressed env t p n f).2.1.dedup_calls = t.dedup_calls := by
    intro t p n f
    unfold write_compressed
    simp only
    split_ifs <;> rfl
  refine ⟨hw s inp size flags, ?_⟩
  have hw2 := hw { s with data := (grow_fragment_table s.data).2 }
    (grow_fragment_table s.data).2.fragment (grow_fragment_table s.data).2.frag_offset 0
  simp only at hw2
  unfold flush_fragments
  simp only
  split_ifs <;> simp [hw2]

/-- The sparse branch calls `deduplicate_data` once on the last region and not
at all otherwise; on the last region the call comes after the descriptor has
been recorded. -/
theorem flush_sparse_calls (env : env_t) (s : wstate) (size : Nat) (is_last : Bool) :
    (flush_sparse env s size is_last).2.dedup_calls =
      s.dedup_calls + (if is_last = true then 1 else 0) ∧
    flush_sparse env s size true = deduplicate_data env (flush_sparse env s size false).2 := by
  have hdc : ∀ t, (deduplicate_data env t).2.dedup_calls = t.dedup_calls + 1 :=
    fun t => (deduplicate_data_calls env t).1
  constructor
  · unfold flush_sparse
    simp only
    split_ifs
    · simp [hdc]
    · simp
  · rfl

/-- The fragment branch is the call of `deduplicate_data`, right after the
fragment bit is set, followed by the staging of the tail. -/
theorem flush_tail_eq (env : env_t) (s : wstate) (size chksum : Nat) :
    flush_tail env s size chksum =
      stage_tail env (deduplicate_data env
        { s with fi := { s.fi with flags := s.fi.flags ||| FILE_FLAG_HAS_FRAGMENT } }).2
        size chksum := by
  have hd := (deduplicate_data_frame env
    { s with fi := { s.fi with flags := s.fi.flags ||| FILE_FLAG_HAS_FRAGMENT } }).1
  unfold flush_tail stage_tail
  simp only [hd, ne_eq, not_true_eq_false, if_false]

/-- The staging of a tail does not call `deduplicate_data`. -/
theorem stage_tail_calls (env : env_t) (s : wstate) (size chksum : Nat) :
    (stage_tail env s size chksum).2.dedup_calls = s.dedup_calls := by
  have hf := (write_flush_calls env s s.data.block 0 0).2
  unfold stage_tail
  simp only
  split
  · rfl
  · split_ifs <;> simp [hf]

/-- The fragment branch calls `deduplicate_data` exactly once. -/
theorem flush_tail_calls (env : env_t) (s : wstate) (size chksum : Nat) :
    (flush_tail env s size chksum).2.dedup_calls = s.dedup_calls + 1 := by
  rw [flush_tail_eq, stage_tail_calls, (deduplicate_data_calls env _).1]

/-- The full-block branch, when it succeeds, calls `deduplicate_data` once on
the last region and not at all otherwise; on the last region the call comes
after the block has been written and recorded. -/
theorem flush_block_calls (env : env_t) (s : wstate) (size : Nat) (is_last : Bool)
    (flags chksum : Nat) :
    ((flush_block env s size is_last flags chksum).1 = 0 →
      (flush_block env s size is_last flags chksum).2.dedup_calls =
        s.dedup_calls + (if is_last = true then 1 else 0)) ∧
    ((flush_block env s size false flags chksum).1 = 0 →
      flush_block env s size true flags chksum =
        deduplicate_data env (flush_block env s size false flags chksum).2) := by
  have hw := (write_flush_calls env s s.data.block size flags).1
  unfold flush_block
  simp only
  generalize write_compressed env s s.data.block size flags = w at hw
  obtain ⟨ret, s1, out⟩ := w
  simp only at hw ⊢
  have hdc : ∀ t, (deduplicate_data env t).2.dedup_calls = t.dedup_calls + 1 :=
    fun t => (deduplicate_data_calls env t).1
  have hd0 : ∀ t, (deduplicate_data env t).1 = 0 :=
    fun t => (deduplicate_data_frame env t).1
  by_cases hr : ret = 0
  · simp only [hr, ne_eq, not_true_eq_false, if_false, Bool.false_eq_true, if_true, hd0]
    constructor
    · cases is_last
      · simp [hw]
      · simp [hdc, hw]
    · intro _
      exact ((deduplicate_data_calls env _).2).symm
  · simp [hr]

/-- One `flush_data_block`: on the last region a successful call contains
exactly one call of `deduplicate_data`; on a region that is not the last and
is at least a block long there is none. -/
theorem flush_data_block_calls (env : env_t) (s : wstate) (size : Nat) (is_last : Bool)
    (flags : Nat) (h : (flush_data_block env s size is_last flags).1 = 0) :
    (is_last = true →
      (flush_data_block env s size is_last flags).2.dedup_calls = s.dedup_calls + 1) ∧
    (is_last = false → s.data.super.block_size ≤ size →
      (flush_data_block env s size is_last flags).2.dedup_calls = s.dedup_calls) := by
  revert h
  unfold flush_data_block
  simp only
  split_ifs with hz ht
  · intro _
    have e := (flush_sparse_calls env
      { s with handed := s.handed ++ [(bytes s.data.block size, is_last)] } size is_last).1
    simp only at e
    constructor
    · intro hl; rw [e, if_pos hl]
    · intro hl _; rw [e, if_neg (by simp [hl]), Nat.add_zero]
  · intro _
    have e := flush_tail_calls env
      { s with handed := s.handed ++ [(bytes s.data.block size, is_last)] } size
      (env.update_crc32 0 (bytes s.data.block size))
    simp only at e
    constructor
    · intro _; exact e
    · intro _ hge
      exact absurd ht.1 (by omega)
  · intro h
    have e := (flush_block_calls env
      { s with handed := s.handed ++ [(bytes s.data.block size, is_last)] } size is_last flags
      (env.update_crc32 0 (bytes s.data.block size))).1 h
    simp only at e
    constructor
    · intro hl; rw [e, if_pos hl]
    · intro hl _; rw [e, if_neg (by simp [hl]), Nat.add_zero]

/-- The loop of `write_data_from_fd`, when it succeeds, contains one call of
`deduplicate_data` if there is anything to write and none otherwise. -/
theorem fd_loop_calls (env : env_t) (flags : Nat) :
    ∀ (fuel count : Nat) (s s' : wstate),
      fd_loop env flags fuel count s = some (0, s') →
      s'.dedup_calls = s.dedup_calls + (if count = 0 then 0 else 1) := by
  have hzero : ∀ (fuel : Nat) (s s' : wstate), fd_loop env flags fuel 0 s = some (0, s') →
      s'.dedup_calls = s.dedup_calls + (if 0 = 0 then 0 else 1) := by
    intro fuel s s' h
    rw [fd_loop_done] at h
    simp only [Option.some.injEq, Prod.mk.injEq, true_and] at h
    subst h
    rfl
  intro fuel
  induction fuel with
  | zero =>
    intro count s s' h
    cases count with
    | zero => exact hzero 0 s s' h
    | succ c => simp [fd_loop] at h
  | succ fuel ih =>
    intro count s s' h
    cases count with
    | zero => exact hzero _ s s' h
    | succ c =>
      by_cases hgt : c + 1 > s.data.super.block_size
      · simp only [fd_loop, hgt, if_true] at h
        split_ifs at h with hr hf
        · simp at h
        · simp at h
        · have hc := (flush_data_block_calls env _ _ _ _ (not_not.mp hf)).2 rfl (le_refl _)
          simp only at hc
          have hi := ih _ _ _ h
          rw [hi, hc, if_neg (by omega), if_neg (by omega)]
      · simp only [fd_loop, hgt, if_false] at h
        split_ifs at h with hr hf
        · simp at h
        · simp at h
        · have hc := (flush_data_block_calls env _ _ _ _ (not_not.mp hf)).1 rfl
          simp only at hc
          rw [Nat.sub_self, fd_loop_done] at h
          simp only [Option.some.injEq, Prod.mk.injEq, true_and] at h
          subst h
          rw [hc, if_neg (by omega)]

/-- Neither `begin_file` nor `end_file` calls `deduplicate_data`. -/
theorem begin_end_file_calls (s : wstate) (flags : Nat) :
    (begin_file s flags).2.dedup_calls = s.dedup_calls ∧
    (end_file s flags).2.dedup_calls = s.dedup_calls := by
  by_cases hf : flags &&& DW_ALLIGN_DEVBLK = 0 <;>
    by_cases hd : s.data.super.bytes_used % s.data.devblksz = 0 <;>
    simp [begin_file, end_file, allign_file, hf, hd]

/-- C18: a successful `write_data_from_fd` contains exactly one call of
`deduplicate_data` when the file size is at least 1 and none when it is 0, for
every content, state and combination of write flags. The call belongs to the
final chunk: `flush_data_block` on a chunk that is not the last and is a block
long contains none, on the last chunk a successful one contains exactly one;
there it comes after the sparse descriptor was recorded, after the block was
written and recorded, or, for a tail, right after the fragment bit is set and
before the tail is staged. -/
theorem c18_dedup_once (env : env_t) (s s' : wstate) (flags : Nat)
    (h : write_data_from_fd env s flags = some (0, s')) :
    (1 ≤ s.fi.size → s'.dedup_calls = s.dedup_calls + 1) ∧
    (s.fi.size = 0 → s'.dedup_calls = s.dedup_calls) ∧
    (∀ (t : wstate) (size fl : Nat),
      (t.data.super.block_size ≤ size → (flush_data_block env t size false fl).1 = 0 →
        (flush_data_block env t size false fl).2.dedup_calls = t.dedup_calls) ∧
      ((flush_data_block env t size true fl).1 = 0 →
        (flush_data_block env t size true fl).2.dedup_calls = t.dedup_calls + 1)) ∧
    (∀ (t : wstate) (size fl chksum : Nat),
      flush_sparse env t size true = deduplicate_data env (flush_sparse env t size false).2 ∧
      ((flush_block env t size false fl chksum).1 = 0 →
        flush_block env t size true fl chksum =
          deduplicate_data env (flush_block env t size false fl chksum).2) ∧
      flush_tail env t size chksum =
        stage_tail env (deduplicate_data env
          { t with fi := { t.fi with flags := t.fi.flags ||| FILE_FLAG_HAS_FRAGMENT } }).2
          size chksum) := by
  obtain ⟨b1, _, b3, _, _, _, _, _⟩ := begin_file_ok s flags
  have bc := (begin_end_file_calls s flags).1
  refine ⟨?_, ?_, ?_, ?_⟩
  · intro hsz
    unfold write_data_from_fd at h
    simp only [b1, ne_eq, not_true_eq_false, if_false] at h
    split at h
    · simp at h
    · rename_i ret s2 heq
      split_ifs at h with hret
      swap
      · simp at h
      · simp only [Option.some.injEq] at h
        subst hret
        have e := (begin_end_file_calls s2 flags).2
        rw [h] at e
        simp only at e
        have hc := fd_loop_calls env flags _ _ _ _ heq
        rw [b3, bc, if_neg (by omega)] at hc
        rw [e, hc]
  · intro hsz
    unfold write_data_from_fd at h
    simp only [b1, ne_eq, not_true_eq_false, if_false] at h
    split at h
    · simp at h
    · rename_i ret s2 heq
      split_ifs at h with hret
      swap
      · simp at h
      · simp only [Option.some.injEq] at h
        subst hret
        have e := (begin_end_file_calls s2 flags).2
        rw [h] at e
        simp only at e
        have hc := fd_loop_calls env flags _ _ _ _ heq
        rw [b3, bc, if_pos hsz] at hc
        rw [e, hc]
        rfl
  · intro t size fl
    exact ⟨fun hge hr => (flush_data_block_calls env t size false fl hr).2 rfl hge,
      fun hr => (flush_data_block_calls env t size true fl hr).1 rfl⟩
  · intro t size fl chksum
    exact ⟨(flush_sparse_calls env t size true).2,
      (flush_block_calls env t size true fl chksum).2, flush_tail_eq env t size chksum⟩

/-- C18, witness: with block size 4, a file of the ten bytes 1 to 10 is written
successfully with one call of `deduplicate_data`, whether its tail becomes a
fragment (flags 0) or a block (`DW_DONT_FRAGMENT`); so is a file of eight bytes
that ends on a block boundary and a file of six zero bytes; an empty file is
written without any call. -/
theorem c18_dedup_once_witness :
    (write_data_from_fd (sample_env 0) (sample_state 4 4 6 10 [1, 2, 3, 4, 5, 6, 7, 8, 9, 10]) 0 =
        some (0, result_state
          (write_data_from_fd (sample_env 0)
            (sample_state 4 4 6 10 [1, 2, 3, 4, 5, 6, 7, 8, 9, 10]) 0)
          (sample_state 4 4 6 10 [])) ∧
      1 ≤ (sample_state 4 4 6 10 [1, 2, 3, 4, 5, 6, 7, 8, 9, 10]).fi.size) ∧
    (result_state
        (write_data_from_fd (sample_env 0)
          (sample_state 4 4 6 10 [1, 2, 3, 4, 5, 6, 7, 8, 9, 10]) 0)
        (sample_state 4 4 6 10 [])).dedup_calls =
      (sample_state 4 4 6 10 [1, 2, 3, 4, 5, 6, 7, 8, 9, 10]).dedup_calls + 1 ∧
    (outcome (write_data_from_fd (sample_env 0)
        (sample_state 4 4 6 10 [1, 2, 3, 4, 5, 6, 7, 8, 9, 10]) 0)).map (fun o => o.ret) =
      some 0 ∧
    (result_state
        (write_data_from_fd (sample_env 0)
          (sample_state 4 4 6 10 [1, 2, 3, 4, 5, 6, 7, 8, 9, 10]) DW_DONT_FRAGMENT)
        (sample_state 4 4 6 10 [])).dedup_calls = 1 ∧
    (result_state
        (write_data_from_fd (sample_env 0)
          (sample_state 4 4 6 8 [1, 2, 3, 4, 5, 6, 7, 8]) 0)
        (sample_state 4 4 6 10 [])).dedup_calls = 1 ∧
    (result_state
        (write_data_from_fd (sample_env 0)
          (sample_state 4 4 6 6 [0, 0, 0, 0, 0, 0]) 0)
        (sample_state 4 4 6 10 [])).dedup_calls = 1 ∧
    (outcome (write_data_from_fd (sample_env 0) (sample_state 4 4 6 0 []) 0)).map
        (fun o => o.ret) = some 0 ∧
    (result_state
        (write_data_from_fd (sample_env 0) (sample_state 4 4 6 0 []) 0)
        (sample_state 4 4 6 10 [])).dedup_calls = 0 :=
  ⟨⟨by rfl, by decide⟩,
   (c18_dedup_once (sample_env 0) (sample_state 4 4 6 10 [1, 2, 3, 4, 5, 6, 7, 8, 9, 10])
     (result_state
       (write_data_from_fd (sample_env 0)
         (sample_state 4 4 6 10 [1, 2, 3, 4, 5, 6, 7, 8, 9, 10]) 0)
       (sample_state 4 4 6 10 [])) 0 (by rfl)).1 (by decide),
   by decide, by decide, by decide, by decide, by decide, by decide⟩

/-! ### Data writer: the fragment staging buffer -/

/-- What `deduplicate_data` leaves alone of the staging of fragments. -/
theorem deduplicate_data_staging (env : env_t) (s : wstate) :
    (deduplicate_data env s).2.data.frag_offset = s.data.frag_offset ∧
    (deduplicate_data env s).2.data.num_fragments = s.data.num_fragments ∧
    (deduplicate_data env s).2.data.super.block_size = s.data.super.block_size ∧
    (deduplicate_data env s).2.data.list = s.data.list ∧
    (deduplicate_data env s).2.data.block = s.data.block ∧
    (deduplicate_data env s).2.data.fragment = s.data.fragment := by
  unfold deduplicate_data
  simp only
  split <;> exact ⟨rfl, rfl, rfl, rfl, rfl, rfl⟩

/-- What `write_compressed` leaves alone of the staging of fragments. -/
theorem write_compressed_staging (env : env_t) (s : wstate) (inp : Buf) (size flags : Nat) :
    (write_compressed env s inp size flags).2.1.data.frag_offset = s.data.frag_offset ∧
    (write_compressed env s inp size flags).2.1.data.num_fragments = s.data.num_fragments ∧
    (write_compressed env s inp size flags).2.1.data.super.block_size =
      s.data.super.block_size ∧
    (write_compressed env s inp size flags).2.1.data.block = s.data.block ∧
    (write_compressed env s inp size flags).2.1.data.fragment = s.data.fragment := by
  unfold write_compressed
  simp only
  split_ifs <;> exact ⟨rfl, rfl, rfl, rfl, rfl⟩

/-- Source function `flush_fragments` on the staging of fragments: a successful
call empties the staging buffer and, unless it was empty, adds one entry to the
fragment table; a failed call changes neither. -/
theorem flush_fragments_staging (env : env_t) (s : wstate) :
    (flush_fragments env s).2.data.super.block_size = s.data.super.block_size ∧
    (flush_fragments env s).2.data.block = s.data.block ∧
    (flush_fragments env s).2.data.fragment = s.data.fragment ∧
    (((flush_fragments env s).1 = 0 ∧ (flush_fragments env s).2.data.frag_offset = 0 ∧
        (flush_fragments env s).2.data.num_fragments =
          s.data.num_fragments + (if s.data.frag_offset = 0 then 0 else 1)) ∨
      ((flush_fragments env s).1 ≠ 0 ∧
        (flush_fragments env s).2.data.frag_offset = s.data.frag_offset ∧
        (flush_fragments env s).2.data.num_fragments = s.data.num_fragments)) := by
  have hg : (grow_fragment_table s.data).1 = 0 ∧
      (grow_fragment_table s.data).2.super = s.data.super ∧
      (grow_fragment_table s.data).2.block = s.data.block ∧
      (grow_fragment_table s.data).2.fragment = s.data.fragment ∧
      (grow_fragment_table s.data).2.frag_offset = s.data.frag_offset ∧
      (grow_fragment_table s.data).2.num_fragments = s.data.num_fragments := by
    unfold grow_fragment_table
    split <;> exact ⟨rfl, rfl, rfl, rfl, rfl, rfl⟩
  have hw := write_compressed_staging env { s with data := (grow_fragment_table s.data).2 }
    (grow_fragment_table s.data).2.fragment (grow_fragment_table s.data).2.frag_offset 0
  simp only [hg] at hw
  unfold flush_fragments
  simp only
  by_cases h0 : s.data.frag_offset = 0
  · simp [h0]
  · simp only [h0, if_false, hg, ne_eq, not_true_eq_false]
    by_cases hr : (write_compressed env { s with data := (grow_fragment_table s.data).2 }
        s.data.fragment s.data.frag_offset 0).1 = 0
    · simp [hr, hw]
    · simp [hr, hw]

/-- The staging of a tail shorter than a block keeps the staging length within
the block size, whatever the lookup and the flush return. -/
theorem stage_tail_inv (env : env_t) (t : wstate) (size chksum : Nat)
    (hs : size < t.data.super.block_size)
    (hinv : t.data.frag_offset ≤ t.data.super.block_size) :
    (stage_tail env t size chksum).2.data.super.block_size = t.data.super.block_size ∧
    (stage_tail env t size chksum).2.data.frag_offset ≤ t.data.super.block_size := by
  have hf := flush_fragments_staging env t
  unfold stage_tail
  simp only
  split
  · exact ⟨rfl, hinv⟩
  · by_cases hov : t.data.frag_offset + size > t.data.super.block_size
    · simp only [if_pos hov]
      generalize flush_fragments env t = r at hf
      obtain ⟨ret, t1⟩ := r
      simp only at hf ⊢
      obtain ⟨f1, _, _, f4⟩ := hf
      rcases f4 with ⟨h1, h2, _⟩ | ⟨h1, h2, _⟩
      · simp only [h1, ne_eq, not_true_eq_false, if_false]
        exact ⟨f1, by rw [h2]; omega⟩
      · simp only [h1, ne_eq, not_false_eq_true, if_true]
        exact ⟨f1, by rw [h2]; exact hinv⟩
    · simp only [if_neg hov, ne_eq, not_true_eq_false, if_false]
      exact ⟨by first | rfl | trivial, by omega⟩

/-- The staging of a tail of `size < block_size` bytes for which no equal
fragment is found, when it succeeds: the staging buffer is flushed first
exactly when `frag_offset + size > block_size`; the file records the number of
fragment table entries after that as its fragment index and the staging length
before the append as its offset; the bytes are copied there. -/
theorem stage_tail_effect (env : env_t) (t : wstate) (size chksum : Nat)
    (hnone : env.fragment_by_chksum chksum size t.data.list t.data.super.block_size = none)
    (hs : size < t.data.super.block_size)
    (hok : (stage_tail env t size chksum).1 = 0) :
    ((stage_tail env t size chksum).2.data.num_fragments = t.data.num_fragments + 1 ↔
      t.data.frag_offset + size > t.data.super.block_size) ∧
    (t.data.frag_offset + size > t.data.super.block_size →
      (stage_tail env t size chksum).2.fi.fragment_offset = 0) ∧
    (¬ t.data.frag_offset + size > t.data.super.block_size →
      (stage_tail env t size chksum).2.data.num_fragments = t.data.num_fragments ∧
      (stage_tail env t size chksum).2.fi.fragment_offset = t.data.frag_offset) ∧
    (stage_tail env t size chksum).2.fi.fragment =
      (stage_tail env t size chksum).2.data.num_fragments ∧
    (stage_tail env t size chksum).2.data.frag_offset =
      (stage_tail env t size chksum).2.fi.fragment_offset + size ∧
    (stage_tail env t size chksum).2.fi.fragment_offset + size ≤ t.data.super.block_size ∧
    (∀ i, i < size →
      (stage_tail env t size chksum).2.data.fragment
        ((stage_tail env t size chksum).2.fi.fragment_offset + i) = t.data.block i) := by
  have hf := flush_fragments_staging env t
  revert hok
  unfold stage_tail
  simp only [hnone]
  by_cases hov : t.data.frag_offset + size > t.data.super.block_size
  · simp only [if_pos hov]
    generalize flush_fragments env t = r at hf
    obtain ⟨ret, t1⟩ := r
    simp only at hf ⊢
    obtain ⟨_, f2, _, f4⟩ := hf
    have hne : t.data.frag_offset ≠ 0 := by omega
    rcases f4 with ⟨h1, h2, h3⟩ | ⟨h1, _, _⟩
    · subst h1
      simp only [ne_eq, not_true_eq_false, if_false]
      rw [if_neg hne] at h3
      intro _
      refine ⟨⟨fun _ => hov, fun _ => h3⟩, fun _ => h2, fun hc => absurd hov hc,
        by first | rfl | trivial, by first | rfl | trivial, ?_, ?_⟩
      · rw [h2]; omega
      · intro i hi
        simp [memcpy, h2, hi, f2]
    · simp only [h1, ne_eq, not_false_eq_true, if_true]
      intro hc
      simp at hc
  · simp only [if_neg hov, ne_eq, not_true_eq_false, if_false]
    intro _
    refine ⟨⟨fun hc => absurd hc (by omega), fun hc => absurd hc hov⟩,
      fun hc => absurd hc hov, fun _ => ⟨by first | rfl | trivial, by first | rfl | trivial⟩,
      by first | rfl | trivial, by first | rfl | trivial, ?_, ?_⟩
    · omega
    · intro i hi
      simp [memcpy, hi]

/-- One `flush_data_block`, successful or not, leaves the block size alone and
keeps the staging length within it. -/
theorem flush_data_block_staging (env : env_t) (s : wstate) (size : Nat) (is_last : Bool)
    (flags : Nat) (hinv : s.data.frag_offset ≤ s.data.super.block_size) :
    (flush_data_block env s size is_last flags).2.data.super.block_size =
      s.data.super.block_size ∧
    (flush_data_block env s size is_last flags).2.data.frag_offset ≤
      s.data.super.block_size := by
  have hd : ∀ t, (deduplicate_data env t).2.data.frag_offset = t.data.frag_offset ∧
      (deduplicate_data env t).2.data.super.block_size = t.data.super.block_size :=
    fun t => ⟨(deduplicate_data_staging env t).1, (deduplicate_data_staging env t).2.2.1⟩
  unfold flush_data_block
  simp only
  split_ifs with hz ht
  · unfold flush_sparse
    simp only
    split_ifs
    · simp only [hd]
      exact ⟨trivial, hinv⟩
    · exact ⟨rfl, hinv⟩
  · rw [flush_tail_eq]
    have e := stage_tail_inv env (deduplicate_data env
      { s with handed := s.handed ++ [(bytes s.data.block size, is_last)],
               fi := { s.fi with flags := s.fi.flags ||| FILE_FLAG_HAS_FRAGMENT } }).2 size
      (env.update_crc32 0 (bytes s.data.block size))
    simp only [hd] at e
    exact e ht.1 hinv
  · have hw := write_compressed_staging env
      { s with handed := s.handed ++ [(bytes s.data.block size, is_last)] } s.data.block size
      flags
    unfold flush_block
    simp only
    generalize write_compressed env
      { s with handed := s.handed ++ [(bytes s.data.block size, is_last)] } s.data.block size
      flags = w at hw
    obtain ⟨ret, s1, out⟩ := w
    simp only at hw ⊢
    obtain ⟨w1, _, w3, _, _⟩ := hw
    split_ifs <;> simp [hd, w1, w3, hinv]

/-- A sequence of `flush_data_block` calls leaves the block size alone and
keeps the staging length within it. -/
theorem run_flushes_staging (env : env_t) :
    ∀ (calls : List flush_call) (s : wstate),
      s.data.frag_offset ≤ s.data.super.block_size →
      (run_flushes env calls s).data.super.block_size = s.data.super.block_size ∧
      (run_flushes env calls s).data.frag_offset ≤ s.data.super.block_size := by
  intro calls
  induction calls with
  | nil => intro s h; exact ⟨rfl, h⟩
  | cons c rest ih =>
    intro s h
    have e := flush_data_block_staging env
      { s with data := { s.data with block := c.block }, fi := c.fi } c.size c.is_last c.flags h
    simp only at e
    have e2 := ih _ (by rw [e.1]; exact e.2)
    simp only [run_flushes]
    rw [e.1] at e2
    exact e2

/-- C17: starting from a fresh data writer, after any sequence of
`flush_data_block` calls with region lengths between 1 and `block_size`, on any
files and with any flags, `frag_offset` is at most `block_size`. Whenever
`flush_data_block` succeeds on a region of `1 ≤ L < block_size` bytes that is
not all zero, with fragments allowed and no equal fragment found, the number of
fragment table entries grows by one (the staging buffer is flushed first)
exactly when `frag_offset + L > block_size`; the file records fragment index
`num_fragments` as it is afterwards and as fragment offset the staging length
before the append, which is 0 after a flush and the former `frag_offset`
otherwise; the new staging length is that offset plus `L`, at most
`block_size`, and the region's bytes are staged at that offset. -/
theorem c17_fragment_staging (env : env_t) (super : sqfs_super_t) (outfd : out_file_t)
    (devblksize : Nat) (fi : file_info_t) (infd : List Nat) (calls : List flush_call)
    (_hsize : ∀ c ∈ calls, 1 ≤ c.size ∧ c.size ≤ super.block_size) :
    (run_flushes env calls (fresh_state super outfd devblksize fi infd)).data.frag_offset ≤
      super.block_size ∧
    (run_flushes env calls (fresh_state super outfd devblksize fi infd)).data.super.block_size =
      super.block_size ∧
    ∀ (s : wstate) (L : Nat) (is_last : Bool) (flags : Nat),
      1 ≤ L → L < s.data.super.block_size → flags &&& DW_DONT_FRAGMENT = 0 →
      is_zero_block s.data.block L = false →
      env.fragment_by_chksum (env.update_crc32 0 (bytes s.data.block L)) L s.data.list
        s.data.super.block_size = none →
      (flush_data_block env s L is_last flags).1 = 0 →
      ((flush_data_block env s L is_last flags).2.data.num_fragments =
          s.data.num_fragments + 1 ↔
        s.data.frag_offset + L > s.data.super.block_size) ∧
      (s.data.frag_offset + L > s.data.super.block_size →
        (flush_data_block env s L is_last flags).2.fi.fragment_offset = 0) ∧
      (¬ s.data.frag_offset + L > s.data.super.block_size →
        (flush_data_block env s L is_last flags).2.data.num_fragments =
          s.data.num_fragments ∧
        (flush_data_block env s L is_last flags).2.fi.fragment_offset =
          s.data.frag_offset) ∧
      (flush_data_block env s L is_last flags).2.fi.fragment =
        (flush_data_block env s L is_last flags).2.data.num_fragments ∧
      (flush_data_block env s L is_last flags).2.data.frag_offset =
        (flush_data_block env s L is_last flags).2.fi.fragment_offset + L ∧
      (flush_data_block env s L is_last flags).2.fi.fragment_offset + L ≤
        s.data.super.block_size ∧
      (∀ i, i < L →
        (flush_data_block env s L is_last flags).2.data.fragment
          ((flush_data_block env s L is_last flags).2.fi.fragment_offset + i) =
          s.data.block i) := by
  have hrun := run_flushes_staging env calls (fresh_state super outfd devblksize fi infd)
    (Nat.zero_le _)
  refine ⟨hrun.2, hrun.1, ?_⟩
  intro s L is_last flags _ hL hfl hz hnone
  have hd := deduplicate_data_staging env
    { s with handed := s.handed ++ [(bytes s.data.block L, is_last)],
             fi := { s.fi with flags := s.fi.flags ||| FILE_FLAG_HAS_FRAGMENT } }
  simp only at hd
  obtain ⟨d1, d2, d3, d4, d5, _⟩ := hd
  have e := stage_tail_effect env (deduplicate_data env
    { s with handed := s.handed ++ [(bytes s.data.block L, is_last)],
             fi := { s.fi with flags := s.fi.flags ||| FILE_FLAG_HAS_FRAGMENT } }).2 L
    (env.update_crc32 0 (bytes s.data.block L))
  rw [d1, d2, d3, d4, d5] at e
  have hfd : flush_data_block env s L is_last flags =
      stage_tail env (deduplicate_data env
        { s with handed := s.handed ++ [(bytes s.data.block L, is_last)],
                 fi := { s.fi with flags := s.fi.flags ||| FILE_FLAG_HAS_FRAGMENT } }).2 L
        (env.update_crc32 0 (bytes s.data.block L)) := by
    unfold flush_data_block
    simp only [hz, Bool.false_eq_true, if_false, hL, hfl, and_self, if_true]
    rw [flush_tail_eq]
  rw [hfd]
  intro hok
  exact e hnone hL hok

/-- C17, witness: block size 8 and three non-zero tails of 5, 5 and 3 bytes on
a fresh writer. The first is staged at offset 0; the second does not fit
(5 + 5 > 8), so the staging buffer is flushed, the fragment table has one entry
and the tail is staged at offset 0 of fragment 1; the third fits (5 + 3 = 8)
and is staged at offset 5 of fragment 1, which fills the staging buffer to
exactly the block size. -/
theorem c17_fragment_staging_witness :
    (∀ c ∈ sample_calls, 1 ≤ c.size ∧
      c.size ≤ (⟨8, 6, 0, 0, 0, 0⟩ : sqfs_super_t).block_size) ∧
    (run_flushes (sample_env 0) sample_calls
      (fresh_state ⟨8, 6, 0, 0, 0, 0⟩ ⟨[255, 255, 255, 255, 255, 255], 6, 0⟩ 8
        (sample_file 0) [])).data.frag_offset ≤ 8 ∧
    (run_flushes (sample_env 0) (sample_calls.take 1)
      (fresh_state ⟨8, 6, 0, 0, 0, 0⟩ ⟨[255, 255, 255, 255, 255, 255], 6, 0⟩ 8
        (sample_file 0) [])).data.frag_offset = 5 ∧
    (run_flushes (sample_env 0) (sample_calls.take 1)
      (fresh_state ⟨8, 6, 0, 0, 0, 0⟩ ⟨[255, 255, 255, 255, 255, 255], 6, 0⟩ 8
        (sample_file 0) [])).fi.fragment = 0 ∧
    (run_flushes (sample_env 0) (sample_calls.take 2)
      (fresh_state ⟨8, 6, 0, 0, 0, 0⟩ ⟨[255, 255, 255, 255, 255, 255], 6, 0⟩ 8
        (sample_file 0) [])).data.num_fragments = 1 ∧
    (run_flushes (sample_env 0) (sample_calls.take 2)
      (fresh_state ⟨8, 6, 0, 0, 0, 0⟩ ⟨[255, 255, 255, 255, 255, 255], 6, 0⟩ 8
        (sample_file 0) [])).fi.fragment = 1 ∧
    (run_flushes (sample_env 0) (sample_calls.take 2)
      (fresh_state ⟨8, 6, 0, 0, 0, 0⟩ ⟨[255, 255, 255, 255, 255, 255], 6, 0⟩ 8
        (sample_file 0) [])).fi.fragment_offset = 0 ∧
    (run_flushes (sample_env 0) (sample_calls.take 2)
      (fresh_state ⟨8, 6, 0, 0, 0, 0⟩ ⟨[255, 255, 255, 255, 255, 255], 6, 0⟩ 8
        (sample_file 0) [])).data.frag_offset = 5 ∧
    (run_flushes (sample_env 0) sample_calls
      (fresh_state ⟨8, 6, 0, 0, 0, 0⟩ ⟨[255, 255, 255, 255, 255, 255], 6, 0⟩ 8
        (sample_file 0) [])).data.num_fragments = 1 ∧
    (run_flushes (sample_env 0) sample_calls
      (fresh_state ⟨8, 6, 0, 0, 0, 0⟩ ⟨[255, 255, 255, 255, 255, 255], 6, 0⟩ 8
        (sample_file 0) [])).fi.fragment = 1 ∧
    (run_flushes (sample_env 0) sample_calls
      (fresh_state ⟨8, 6, 0, 0, 0, 0⟩ ⟨[255, 255, 255, 255, 255, 255], 6, 0⟩ 8
        (sample_file 0) [])).fi.fragment_offset = 5 ∧
    (run_flushes (sample_env 0) sample_calls
      (fresh_state ⟨8, 6, 0, 0, 0, 0⟩ ⟨[255, 255, 255, 255, 255, 255], 6, 0⟩ 8
        (sample_file 0) [])).data.frag_offset = 8 ∧
    bytes (run_flushes (sample_env 0) sample_calls
      (fresh_state ⟨8, 6, 0, 0, 0, 0⟩ ⟨[255, 255, 255, 255, 255, 255], 6, 0⟩ 8
        (sample_file 0) [])).data.fragment 8 = [2, 3, 4, 5, 6, 3, 4, 5] :=
  ⟨by decide,
   (c17_fragment_staging (sample_env 0) ⟨8, 6, 0, 0, 0, 0⟩
     ⟨[255, 255, 255, 255, 255, 255], 6, 0⟩ 8 (sample_file 0) [] sample_calls (by decide)).1,
   by decide, by decide, by decide, by decide, by decide, by decide, by decide, by decide,
   by decide, by decide, by decide⟩

/-! ### Data writer: the chunks handed to `flush_data_block` -/

/-- The plan for an empty file has no chunk. -/
theorem chunk_plan_zero (bs : Nat) : chunk_plan bs 0 = [] := by
  simp [chunk_plan]

/-- The plan for at most one block is one final chunk. -/
theorem chunk_plan_last (bs count : Nat) (h1 : 1 ≤ count) (h2 : count ≤ bs) :
    chunk_plan bs count = [(count, true)] := by
  have hq : (count - 1) / bs = 0 := Nat.div_eq_of_lt (by omega)
  unfold chunk_plan
  rw [if_neg (by omega), hq]
  simp

/-- The plan for more than one block starts with a full chunk that is not the
last. -/
theorem chunk_plan_step (bs count : Nat) (h1 : 1 ≤ bs) (h2 : bs < count) :
    chunk_plan bs count = (bs, false) :: chunk_plan bs (count - bs) := by
  have hq : (count - 1) / bs = (count - bs - 1) / bs + 1 := by
    have e : count - 1 = (count - bs - 1) + bs := by omega
    rw [e, Nat.add_div_right _ (by omega)]
  have hle : (count - bs - 1) / bs * bs ≤ count - bs - 1 := Nat.div_mul_le_self _ _
  unfold chunk_plan
  rw [if_neg (by omega), if_neg (by omega), hq, List.replicate_succ, Nat.add_mul, Nat.one_mul]
  generalize (count - bs - 1) / bs * bs = t at hle
  have e2 : count - (t + bs) = count - bs - t := by omega
  rw [e2]
  rfl

/-- The shape of the plan: full chunks that are not the last, then a final
chunk of between 1 and `bs` bytes; the lengths add up to the size. -/
theorem chunk_plan_shape (bs size : Nat) (h1 : 1 ≤ bs) (h2 : 1 ≤ size) :
    ∃ n last, chunk_plan bs size = List.replicate n (bs, false) ++ [(last, true)] ∧
      1 ≤ last ∧ last ≤ bs ∧ n * bs + last = size := by
  refine ⟨(size - 1) / bs, size - (size - 1) / bs * bs, ?_, ?_⟩
  · unfold chunk_plan
    rw [if_neg (by omega)]
  · have hle : (size - 1) / bs * bs ≤ size - 1 := Nat.div_mul_le_self _ _
    have hlt : size - 1 < (size - 1) / bs * bs + bs := by
      have e := Nat.div_add_mod (size - 1) bs
      have m := Nat.mod_lt (size - 1) (by omega : bs > 0)
      rw [Nat.mul_comm] at e
      omega
    generalize (size - 1) / bs * bs = t at hle hlt
    omega

/-- Every chunk of the plan has between 1 and `bs` bytes. -/
theorem chunk_plan_bounds (bs size : Nat) (h1 : 1 ≤ bs) :
    ∀ c ∈ chunk_plan bs size, 1 ≤ c.1 ∧ c.1 ≤ bs := by
  intro c hc
  by_cases h0 : size = 0
  · rw [h0, chunk_plan_zero] at hc
    simp at hc
  · obtain ⟨n, last, e, l1, l2, _⟩ := chunk_plan_shape bs size h1 (by omega)
    rw [e, List.mem_append] at hc
    rcases hc with hc | hc
    · rw [(List.mem_replicate.mp hc).2]
      exact ⟨h1, le_refl _⟩
    · rw [List.mem_singleton.mp hc]
      exact ⟨l1, l2⟩

/-- What the parts of `flush_data_block` leave alone of the record of handed
regions. -/
theorem handed_frame (env : env_t) (s : wstate) :
    (deduplicate_data env s).2.handed = s.handed ∧
    (∀ (inp : Buf) (size flags : Nat),
      (write_compressed env s inp size flags).2.1.handed = s.handed) ∧
    (flush_fragments env s).2.handed = s.handed := by
  have hw : ∀ (t : wstate) (p : Buf) (n f : Nat),
      (write_compressed env t p n f).2.1.handed = t.handed := by
    intro t p n f
    unfold write_compressed
    simp only
    split_ifs <;> rfl
  refine ⟨?_, hw s, ?_⟩
  · unfold deduplicate_data
    simp only
    split <;> rfl
  · have hw2 := hw { s with data := (grow_fragment_table s.data).2 }
      (grow_fragment_table s.data).2.fragment (grow_fragment_table s.data).2.frag_offset 0
    simp only at hw2
    unfold flush_fragments
    simp only
    split_ifs <;> simp [hw2]

/-- Every `flush_data_block`, successful or not, adds exactly its own region
to the record of handed regions. -/
theorem flush_data_block_handed (env : env_t) (s : wstate) (size : Nat) (is_last : Bool)
    (flags : Nat) :
    (flush_data_block env s size is_last flags).2.handed =
      s.handed ++ [(bytes s.data.block size, is_last)] := by
  have hd : ∀ t, (deduplicate_data env t).2.handed = t.handed :=
    fun t => (handed_frame env t).1
  have hf : ∀ t, (flush_fragments env t).2.handed = t.handed :=
    fun t => (handed_frame env t).2.2
  have hw : ∀ t inp n f, (write_compressed env t inp n f).2.1.handed = t.handed :=
    fun t => (handed_frame env t).2.1
  unfold flush_data_block
  simp only
  split_ifs with hz ht
  · unfold flush_sparse
    simp only
    split_ifs <;> simp [hd]
  · rw [flush_tail_eq]
    unfold stage_tail
    simp only
    split
    · simp [hd]
    · split_ifs <;> simp [hd, hf]
  · unfold flush_block
    simp only
    split_ifs <;> simp [hd, hw]

/-- The loop of `write_data_from_fd` with enough fuel returns, and the regions
it hands to `flush_data_block` follow the plan: all of it when the loop
succeeds, a first part of it when it fails. -/
theorem fd_loop_plan (env : env_t) (flags : Nat) :
    ∀ (fuel count : Nat) (s : wstate),
      1 ≤ s.data.super.block_size → count ≤ fuel →
      ∃ (ret : Int) (s' : wstate) (new : List (List Nat × Bool)),
        fd_loop env flags fuel count s = some (ret, s') ∧
        s'.handed = s.handed ++ new ∧
        chunk_shape new <+: chunk_plan s.data.super.block_size count ∧
        (ret = 0 → chunk_shape new = chunk_plan s.data.super.block_size count) := by
  have hzero : ∀ (fuel : Nat) (s : wstate),
      ∃ (ret : Int) (s' : wstate) (new : List (List Nat × Bool)),
        fd_loop env flags fuel 0 s = some (ret, s') ∧
        s'.handed = s.handed ++ new ∧
        chunk_shape new <+: chunk_plan s.data.super.block_size 0 ∧
        (ret = 0 → chunk_shape new = chunk_plan s.data.super.block_size 0) := by
    intro fuel s
    refine ⟨0, s, [], fd_loop_done env flags fuel s, by simp, ?_, ?_⟩
    · rw [chunk_plan_zero]; exact List.prefix_refl _
    · intro _; rw [chunk_plan_zero]; rfl
  intro fuel
  induction fuel with
  | zero =>
    intro count s _ hc
    have e : count = 0 := by omega
    subst e
    exact hzero 0 s
  | succ fuel ih =>
    intro count s hbs hc
    cases count with
    | zero => exact hzero _ s
    | succ c =>
      by_cases hgt : c + 1 > s.data.super.block_size
      · simp only [fd_loop, hgt, if_true]
        have hplan := chunk_plan_step s.data.super.block_size (c + 1) hbs hgt
        split_ifs with hr hf
        · refine ⟨-1, _, [], rfl, by simp, ?_, ?_⟩
          · exact List.nil_prefix
          · intro h; simp at h
        · refine ⟨-1, _, _, rfl, flush_data_block_handed env _ _ _ _, ?_, ?_⟩
          · rw [hplan]
            simp only [chunk_shape, List.map_cons, List.map_nil, bytes_length]
            exact List.prefix_iff_eq_append.mpr (by simp)
          · intro h; simp at h
        · have hcnt := flush_data_block_count env _ _ _ _ (not_not.mp hf)
          simp only at hcnt
          obtain ⟨ret, s', new, e1, e2, e3, e4⟩ := ih (c + 1 - s.data.super.block_size) _
            (by rw [hcnt.1]; exact hbs) (by omega)
          rw [hcnt.1] at e3 e4
          rw [flush_data_block_handed] at e2
          simp only at e2
          refine ⟨ret, s',
            (bytes (read_data s.infd s.data.block 0 s.data.super.block_size).2.2
              s.data.super.block_size, false) :: new, e1, by rw [e2]; simp, ?_, ?_⟩
          · rw [hplan]
            simp only [chunk_shape, List.map_cons, bytes_length]
            exact List.cons_prefix_cons.mpr ⟨rfl, e3⟩
          · intro h
            rw [hplan]
            simp only [chunk_shape, List.map_cons, bytes_length]
            exact congrArg _ (e4 h)
      · simp only [fd_loop, hgt, if_false]
        have hplan := chunk_plan_last s.data.super.block_size (c + 1) (by omega) (by omega)
        split_ifs with hr hf
        · refine ⟨-1, _, [], rfl, by simp, ?_, ?_⟩
          · exact List.nil_prefix
          · intro h; simp at h
        · refine ⟨-1, _, _, rfl, flush_data_block_handed env _ _ _ _, ?_, ?_⟩
          · rw [hplan]
            simp only [chunk_shape, List.map_cons, List.map_nil, bytes_length]
            exact List.prefix_refl _
          · intro h; simp at h
        · rw [Nat.sub_self, fd_loop_done]
          refine ⟨0, _, _, rfl, flush_data_block_handed env _ _ _ _, ?_, ?_⟩
          · rw [hplan]
            simp only [chunk_shape, List.map_cons, List.map_nil, bytes_length]
            exact List.prefix_refl _
          · intro _
            rw [hplan]
            simp only [chunk_shape, List.map_cons, List.map_nil, bytes_length]



/-- The block loop of `write_data_from_fd_condensed` with enough fuel returns,
and the regions it hands to `flush_data_block` follow the plan for the
`fi->size - offset` bytes left: all of it when the loop succeeds, a first part
of it when it fails. -/
theorem condensed_loop_plan (env : env_t) (flags : Nat) :
    ∀ (fuel offset : Nat) (map : List sparse_map_t) (s : wstate),
      1 ≤ s.data.super.block_size → s.fi.size - offset ≤ fuel →
      ∃ (ret : Int) (s' : wstate) (new : List (List Nat × Bool)),
        condensed_loop env flags fuel offset map s = some (ret, s') ∧
        s'.handed = s.handed ++ new ∧
        chunk_shape new <+: chunk_plan s.data.super.block_size (s.fi.size - offset) ∧
        (ret = 0 →
          chunk_shape new = chunk_plan s.data.super.block_size (s.fi.size - offset)) := by
  have hzero : ∀ (fuel offset : Nat) (map : List sparse_map_t) (s : wstate),
      ¬ offset < s.fi.size →
      ∃ (ret : Int) (s' : wstate) (new : List (List Nat × Bool)),
        condensed_loop env flags fuel offset map s = some (ret, s') ∧
        s'.handed = s.handed ++ new ∧
        chunk_shape new <+: chunk_plan s.data.super.block_size (s.fi.size - offset) ∧
        (ret = 0 →
          chunk_shape new = chunk_plan s.data.super.block_size (s.fi.size - offset)) := by
    intro fuel offset map s hlt
    have e : s.fi.size - offset = 0 := by omega
    refine ⟨0, s, [], condensed_loop_done env flags fuel offset map s hlt, by simp, ?_, ?_⟩
    · rw [e, chunk_plan_zero]; exact List.prefix_refl _
    · intro _; rw [e, chunk_plan_zero]; rfl
  intro fuel
  induction fuel with
  | zero =>
    intro offset map s _ hc
    exact hzero 0 offset map s (by omega)
  | succ fuel ih =>
    intro offset map s hbs hc
    by_cases hlt : offset < s.fi.size
    · by_cases hgt : s.fi.size - offset > s.data.super.block_size
      · have hplan := chunk_plan_step s.data.super.block_size (s.fi.size - offset) hbs hgt
        have hb := fill_block_frame offset s.data.super.block_size map
          { s with data := { s.data with
            block := memset s.data.block 0 s.data.super.block_size } }
        simp only at hb
        obtain ⟨hb1, hb2, hb3, hb4⟩ := hb
        simp only [condensed_loop, hlt, hgt, if_true]
        split_ifs with hr hf
        · refine ⟨-1, _, [], rfl, by rw [hb4]; simp, ?_, ?_⟩
          · exact List.nil_prefix
          · intro h; simp at h
        · refine ⟨-1, _, _, rfl, by rw [flush_data_block_handed, hb4], ?_, ?_⟩
          · rw [hplan]
            simp only [chunk_shape, List.map_cons, List.map_nil, bytes_length]
            exact List.prefix_iff_eq_append.mpr (by simp)
          · intro h; simp at h
        · have hcnt := flush_data_block_count env _ _ _ _ (not_not.mp hf)
          simp only [hb1, hb2] at hcnt
          obtain ⟨ret, s', new, e1, e2, e3, e4⟩ := ih (offset + s.data.super.block_size)
            (fill_block offset s.data.super.block_size map
              { s with data := { s.data with
                block := memset s.data.block 0 s.data.super.block_size } }).2.2 _
            (by rw [hcnt.1]; exact hbs) (by rw [hcnt.2.1]; omega)
          have esub : s.fi.size - (offset + s.data.super.block_size) =
              s.fi.size - offset - s.data.super.block_size := by omega
          rw [hcnt.1, hcnt.2.1, esub] at e3 e4
          rw [flush_data_block_handed, hb4] at e2
          refine ⟨ret, s',
            (bytes (fill_block offset s.data.super.block_size map
              { s with data := { s.data with
                block := memset s.data.block 0 s.data.super.block_size } }).2.1.data.block
              s.data.super.block_size, false) :: new, e1, by rw [e2]; simp, ?_, ?_⟩
          · rw [hplan]
            simp only [chunk_shape, List.map_cons, bytes_length]
            exact List.cons_prefix_cons.mpr ⟨rfl, e3⟩
          · intro h
            rw [hplan]
            simp only [chunk_shape, List.map_cons, bytes_length]
            exact congrArg _ (e4 h)
      · have hplan := chunk_plan_last s.data.super.block_size (s.fi.size - offset)
          (by omega) (by omega)
        have hb := fill_block_frame offset (s.fi.size - offset) map
          { s with data := { s.data with
            block := memset s.data.block 0 (s.fi.size - offset) } }
        simp only at hb
        obtain ⟨hb1, hb2, hb3, hb4⟩ := hb
        simp only [condensed_loop, hlt, hgt, if_true, if_false]
        split_ifs with hr hf
        · refine ⟨-1, _, [], rfl, by rw [hb4]; simp, ?_, ?_⟩
          · exact List.nil_prefix
          · intro h; simp at h
        · refine ⟨-1, _, _, rfl, by rw [flush_data_block_handed, hb4], ?_, ?_⟩
          · rw [hplan]
            simp only [chunk_shape, List.map_cons, List.map_nil, bytes_length]
            exact List.prefix_refl _
          · intro h; simp at h
        · have hcnt := flush_data_block_count env _ _ _ _ (not_not.mp hf)
          simp only [hb1, hb2] at hcnt
          rw [condensed_loop_done _ _ _ _ _ _ (by rw [hcnt.2.1]; omega)]
          refine ⟨0, _, _, rfl, by rw [flush_data_block_handed, hb4], ?_, ?_⟩
          · rw [hplan]
            simp only [chunk_shape, List.map_cons, List.map_nil, bytes_length]
            exact List.prefix_refl _
          · intro _
            rw [hplan]
            simp only [chunk_shape, List.map_cons, List.map_nil, bytes_length]
    · exact hzero _ offset map s hlt

/-- Source function `end_file` leaves the record of handed regions alone. -/
theorem end_file_handed (s : wstate) (flags : Nat) :
    (end_file s flags).2.handed = s.handed := by
  by_cases hf : flags &&& DW_ALLIGN_DEVBLK = 0 <;>
    by_cases hd : s.data.super.bytes_used % s.data.devblksz = 0 <;>
    simp [end_file, allign_file, hf, hd]

/-- Regions whose shape is a first part of the plan have between 1 and `bs`
bytes each. -/
theorem plan_prefix_bounds (bs size : Nat) (h1 : 1 ≤ bs) (new : List (List Nat × Bool))
    (hp : chunk_shape new <+: chunk_plan bs size) :
    ∀ c ∈ new, 1 ≤ c.1.length ∧ c.1.length ≤ bs := by
  intro c hc
  have hm : (c.1.length, c.2) ∈ chunk_shape new :=
    List.mem_map_of_mem (fun p : List Nat × Bool => (p.1.length, p.2)) hc
  exact chunk_plan_bounds bs size h1 _ (hp.subset hm)

/-- C21: for every file size, content, state, map and flags, with
`block_size ≥ 1`, `write_data_from_fd` and `write_data_from_fd_condensed`
return (their block loops terminate), and the regions they hand to
`flush_data_block` follow one and the same plan: all of it when the call
succeeds, a first part of it when it fails, so no region has length 0. The plan
is empty for an empty file; otherwise it consists of chunks of exactly
`block_size` bytes with `is_last` false followed by one final chunk of between
1 and `block_size` bytes with `is_last` true, and the lengths add up to
`fi.size`. -/
theorem c21_chunk_sequence (env : env_t) (s : wstate) (flags : Nat)
    (map : List sparse_map_t) (hbs : 1 ≤ s.data.super.block_size) :
    (∃ (ret : Int) (s' : wstate) (new : List (List Nat × Bool)),
      write_data_from_fd env s flags = some (ret, s') ∧
      s'.handed = s.handed ++ new ∧
      chunk_shape new <+: chunk_plan s.data.super.block_size s.fi.size ∧
      (ret = 0 → chunk_shape new = chunk_plan s.data.super.block_size s.fi.size) ∧
      ∀ c ∈ new, 1 ≤ c.1.length ∧ c.1.length ≤ s.data.super.block_size) ∧
    (∃ (ret : Int) (s' : wstate) (new : List (List Nat × Bool)),
      write_data_from_fd_condensed env s map flags = some (ret, s') ∧
      s'.handed = s.handed ++ new ∧
      chunk_shape new <+: chunk_plan s.data.super.block_size s.fi.size ∧
      (ret = 0 → chunk_shape new = chunk_plan s.data.super.block_size s.fi.size) ∧
      ∀ c ∈ new, 1 ≤ c.1.length ∧ c.1.length ≤ s.data.super.block_size) ∧
    (s.fi.size = 0 → chunk_plan s.data.super.block_size s.fi.size = []) ∧
    (1 ≤ s.fi.size →
      ∃ n last, chunk_plan s.data.super.block_size s.fi.size =
          List.replicate n (s.data.super.block_size, false) ++ [(last, true)] ∧
        1 ≤ last ∧ last ≤ s.data.super.block_size ∧
        n * s.data.super.block_size + last = s.fi.size) := by
  obtain ⟨b1, b2, b3, _, b5, _⟩ := begin_file_ok s flags
  refine ⟨?_, ?_, ?_, ?_⟩
  · obtain ⟨ret, s2, new, e1, e2, e3, e4⟩ := fd_loop_plan env flags
      (begin_file s flags).2.fi.size (begin_file s flags).2.fi.size (begin_file s flags).2
      (by rw [b5]; exact hbs) (le_refl _)
    rw [b5, b3] at e3 e4
    rw [b2] at e2
    have hb := plan_prefix_bounds _ _ hbs new e3
    unfold write_data_from_fd
    simp only [b1, ne_eq, not_true_eq_false, if_false, e1]
    by_cases hret : ret = 0
    · rw [if_neg (not_not.mpr hret)]
      exact ⟨(end_file s2 flags).1, (end_file s2 flags).2, new, rfl,
        by rw [end_file_handed, e2], e3, fun _ => e4 hret, hb⟩
    · rw [if_pos hret]
      exact ⟨-1, s2, new, rfl, e2, e3, fun h => absurd h (by decide), hb⟩
  · unfold write_data_from_fd_condensed
    simp only [b1, ne_eq, not_true_eq_false, if_false]
    by_cases hm : map_check map (begin_file s flags).2.fi.size = 0
    · obtain ⟨ret, s2, new, e1, e2, e3, e4⟩ := condensed_loop_plan env flags
        (begin_file s flags).2.fi.size 0 map (begin_file s flags).2
        (by rw [b5]; exact hbs) (by omega)
      rw [b5, b3, Nat.sub_zero] at e3 e4
      rw [b2] at e2
      have hb := plan_prefix_bounds _ _ hbs new e3
      simp only [hm, not_true_eq_false, if_false, e1]
      by_cases hret : ret = 0
      · rw [if_neg (not_not.mpr hret)]
        exact ⟨(end_file s2 flags).1, (end_file s2 flags).2, new, rfl,
          by rw [end_file_handed, e2], e3, fun _ => e4 hret, hb⟩
      · rw [if_pos hret]
        exact ⟨-1, s2, new, rfl, e2, e3, fun h => absurd h (by decide), hb⟩
    · rw [if_pos hm]
      refine ⟨-1, _, [], rfl, by rw [b2]; simp, List.nil_prefix,
        fun h => absurd h (by decide), ?_⟩
      intro c hc
      simp at hc
  · intro h0
    rw [h0]
    exact chunk_plan_zero _
  · intro h1
    exact chunk_plan_shape _ _ hbs h1

/-- C21, witness: block size 4 and a file of 10 bytes. The plan is two chunks
of 4 bytes that are not the last and a final chunk of 2 bytes; both
`write_data_from_fd` on the bytes 1 to 10 and `write_data_from_fd_condensed`
on a map with the four bytes at offsets 2 to 5 succeed and hand
`flush_data_block` exactly these chunks. -/
theorem c21_chunk_sequence_witness :
    (1 ≤ (sample_state 4 4 6 10 [1, 2, 3, 4, 5, 6, 7, 8, 9, 10]).data.super.block_size ∧
      1 ≤ (sample_state 4 4 6 10 [1, 2, 3, 4, 5, 6, 7, 8, 9, 10]).fi.size) ∧
    (∃ n last,
      chunk_plan (sample_state 4 4 6 10 [1, 2, 3, 4, 5, 6, 7, 8, 9, 10]).data.super.block_size
          (sample_state 4 4 6 10 [1, 2, 3, 4, 5, 6, 7, 8, 9, 10]).fi.size =
        List.replicate n
          ((sample_state 4 4 6 10 [1, 2, 3, 4, 5, 6, 7, 8, 9, 10]).data.super.block_size,
            false) ++ [(last, true)] ∧
      1 ≤ last ∧
      last ≤ (sample_state 4 4 6 10 [1, 2, 3, 4, 5, 6, 7, 8, 9, 10]).data.super.block_size ∧
      n * (sample_state 4 4 6 10 [1, 2, 3, 4, 5, 6, 7, 8, 9, 10]).data.super.block_size + last =
        (sample_state 4 4 6 10 [1, 2, 3, 4, 5, 6, 7, 8, 9, 10]).fi.size) ∧
    chunk_plan 4 10 = [(4, false), (4, false), (2, true)] ∧
    (outcome (write_data_from_fd (sample_env 0)
        (sample_state 4 4 6 10 [1, 2, 3, 4, 5, 6, 7, 8, 9, 10]) 0)).map
      (fun o => (o.ret, chunk_shape o.handed)) =
      some (0, [(4, false), (4, false), (2, true)]) ∧
    (outcome (write_data_from_fd_condensed (sample_env 0)
        (sample_state 4 4 6 10 [1, 2, 3, 4]) [⟨2, 4⟩] 0)).map
      (fun o => (o.ret, chunk_shape o.handed)) =
      some (0, [(4, false), (4, false), (2, true)]) ∧
    chunk_plan 4 8 = [(4, false), (4, true)] ∧
    chunk_plan 4 0 = [] :=
  ⟨⟨by decide, by decide⟩,
   (c21_chunk_sequence (sample_env 0) (sample_state 4 4 6 10 [1, 2, 3, 4, 5, 6, 7, 8, 9, 10])
     0 [⟨2, 4⟩] (by decide)).2.2.2 (by decide),
   by decide, by decide, by decide, by decide, by decide⟩



/-! ### Reading a table -/

/-- With nothing left to read the loop of `sqfs_read_table` is over. -/
theorem table_loop_done {M : Type} (env : table_env M) (locations : Buf)
    (list_size fuel blk_idx ptr : Nat) (m : M) (data : Buf) (ops : List table_op) :
    table_loop env locations list_size fuel 0 blk_idx ptr m data ops =
      exec_t.done (some data, ops, ptr) := by
  cases fuel <;> simp [table_loop]

/-- The read loop of `sqfs_read_table`, entered at block `i` with
`table_size - 8192 * i` bytes left, `n` blocks to go, enough fuel and a
location list that holds `i + n` entries: it returns without reading outside
the list; its calls are those of the iterations `i` to `i + n - 1` when it
succeeds, and a first part of them when it fails. -/
theorem table_loop_plan {M : Type} (env : table_env M) (locations : Buf)
    (list_size ts : Nat) :
    ∀ (fuel n i : Nat) (m : M) (data : Buf) (ops : List table_op),
      n ≤ fuel → 8192 * i ≤ ts → n = (ts - 8192 * i + 8191) / 8192 →
      8 * (i + n) ≤ list_size →
      ∃ (d : Option Buf) (new : List table_op) (filled : Nat),
        table_loop env locations list_size fuel (ts - 8192 * i) i (8192 * i) m data ops =
          exec_t.done (d, ops ++ new, filled) ∧
        new <+: (List.range' i n).flatMap (table_step locations ts) ∧
        (d ≠ none →
          new = (List.range' i n).flatMap (table_step locations ts) ∧ filled = ts) := by
  have hc : SQFS_META_BLOCK_SIZE = 8192 := rfl
  have hzero : ∀ (fuel n i : Nat) (m : M) (data : Buf) (ops : List table_op),
      8192 * i ≤ ts → n = (ts - 8192 * i + 8191) / 8192 → ¬ ts - 8192 * i > 0 →
      ∃ (d : Option Buf) (new : List table_op) (filled : Nat),
        table_loop env locations list_size fuel (ts - 8192 * i) i (8192 * i) m data ops =
          exec_t.done (d, ops ++ new, filled) ∧
        new <+: (List.range' i n).flatMap (table_step locations ts) ∧
        (d ≠ none →
          new = (List.range' i n).flatMap (table_step locations ts) ∧ filled = ts) := by
    intro fuel n i m data ops hi hn hr
    have e0 : ts - 8192 * i = 0 := by omega
    have en : n = 0 := by omega
    subst en
    rw [e0, table_loop_done]
    refine ⟨some data, [], 8192 * i, by simp, List.prefix_refl _, fun _ => ⟨rfl, by omega⟩⟩
  intro fuel
  induction fuel with
  | zero =>
    intro n i m data ops hf hi hn _
    exact hzero 0 n i m data ops hi hn (by omega)
  | succ fuel ih =>
    intro n i m data ops hf hi hn hls
    by_cases hr : ts - 8192 * i > 0
    · obtain ⟨k, hk⟩ : ∃ k, n = k + 1 := ⟨n - 1, by omega⟩
      subst hk
      have hoob : ¬ 8 * i + 8 > list_size := by omega
      have hplan : (List.range' i (k + 1)).flatMap (table_step locations ts) =
          [table_op.seek i (le64toh_at locations i) 0,
            table_op.read (8192 * i) (min 8192 (ts - 8192 * i))] ++
            (List.range' (i + 1) k).flatMap (table_step locations ts) := by
        rw [List.range'_succ, List.flatMap_cons]
        rfl
      have hdiff : (if 8192 > ts - 8192 * i then ts - 8192 * i else 8192) =
          min 8192 (ts - 8192 * i) := by
        split_ifs <;> omega
      simp only [table_loop, if_pos hr, if_neg hoob, hc, hdiff]
      split_ifs with hs hrd
      · refine ⟨none, [table_op.seek i (le64toh_at locations i) 0], 8192 * i, rfl, ?_,
          fun h => absurd rfl h⟩
        rw [hplan]
        exact List.prefix_iff_eq_append.mpr (by simp)
      · refine ⟨none, [table_op.seek i (le64toh_at locations i) 0,
            table_op.read (8192 * i) (min 8192 (ts - 8192 * i))], 8192 * i, by simp, ?_,
          fun h => absurd rfl h⟩
        rw [hplan]
        exact List.prefix_append _ _
      · by_cases hlast : ts - 8192 * i ≤ 8192
        · have hk0 : k = 0 := by omega
          subst hk0
          have hmin : min 8192 (ts - 8192 * i) = ts - 8192 * i := by omega
          rw [hmin, Nat.sub_self, table_loop_done]
          refine ⟨some (memcpy data (8192 * i)
              (env.meta_reader_read (env.meta_reader_seek m (le64toh_at locations i) 0).2
                (ts - 8192 * i)).2.2 (ts - 8192 * i)),
            [table_op.seek i (le64toh_at locations i) 0,
              table_op.read (8192 * i) (ts - 8192 * i)],
            8192 * i + (ts - 8192 * i), ?_, ?_, ?_⟩
          · rw [List.append_assoc]
            rfl
          · rw [hplan, hmin]
            simp
          · intro _
            rw [hplan, hmin]
            exact ⟨by simp, by omega⟩
        · have hmin : min 8192 (ts - 8192 * i) = 8192 := by omega
          have e1 : ts - 8192 * i - 8192 = ts - 8192 * (i + 1) := by omega
          have e2 : 8192 * i + 8192 = 8192 * (i + 1) := by omega
          rw [hmin, e1, e2]
          obtain ⟨d, new, filled, r1, r2, r3⟩ := ih k (i + 1)
            (env.meta_reader_read (env.meta_reader_seek m (le64toh_at locations i) 0).2
              8192).2.1
            (memcpy data (8192 * i)
              (env.meta_reader_read (env.meta_reader_seek m (le64toh_at locations i) 0).2
                8192).2.2 8192)
            (ops ++ [table_op.seek i (le64toh_at locations i) 0] ++
              [table_op.read (8192 * i) 8192])
            (by omega) (by omega) (by omega) (by omega)
          rw [r1]
          refine ⟨d, [table_op.seek i (le64toh_at locations i) 0,
              table_op.read (8192 * i) 8192] ++ new, filled, by simp, ?_, ?_⟩
          · rw [hplan, hmin]
            exact (List.prefix_append_right_inj _).mpr r2
          · intro hd
            rw [hplan, hmin]
            exact ⟨congrArg _ (r3 hd).1, (r3 hd).2⟩
    · exact hzero _ n i m data ops hi hn hr

/-- The calls in the plan: every seek is to an index below the number of
blocks, at offset 0, to the location stored at that index; every read is that
of some block `i`, of between 1 and 8192 bytes, and stays within the first
`table_size` bytes of the output. -/
theorem table_plan_mem (locations : Buf) (ts : Nat) (op : table_op)
    (h : op ∈ table_plan locations ts) :
    ∃ i, i < (ts + 8191) / 8192 ∧
      (op = table_op.seek i (le64toh_at locations i) 0 ∨
        (op = table_op.read (8192 * i) (min 8192 (ts - 8192 * i)) ∧
          1 ≤ min 8192 (ts - 8192 * i) ∧ 8192 * i + min 8192 (ts - 8192 * i) ≤ ts)) := by
  unfold table_plan at h
  obtain ⟨i, hi, hop⟩ := List.mem_flatMap.mp h
  rw [List.mem_range] at hi
  refine ⟨i, hi, ?_⟩
  unfold table_step at hop
  simp only [List.mem_cons, List.mem_singleton, List.not_mem_nil, or_false] at hop
  rcases hop with hop | hop
  · exact Or.inl hop
  · exact Or.inr ⟨hop, by omega, by omega⟩

/-- C22: for every `table_size` below `2 ^ 64` and all collaborators,
`sqfs_read_table` returns (its read loop terminates) and never reads outside
the location list. It asks `read_data_at` for `8 * ceil(table_size / 8192)`
bytes. Its calls of the meta reader are, for each block `i` in order, a seek to
location `i` at offset 0 and a read of `min(8192, table_size - 8192 * i)` bytes
to byte offset `8192 * i` of the output: all blocks when a table is returned,
and then exactly `table_size` bytes have been filled; a first part of them when
`NULL` is returned. Every seek uses an index below the number of entries; every
read has at least 1 byte and ends within `table_size`. -/
theorem c22_read_table {M : Type} (env : table_env M) (table_size location : Nat)
    (h : table_size < 2 ^ 64) :
    ∃ r : read_table_t,
      sqfs_read_table env table_size location = exec_t.done r ∧
      r.list_size = 8 * ((table_size + 8191) / 8192) ∧
      r.ops <+: table_plan
        (env.read_data_at location (8 * ((table_size + 8191) / 8192))).2 table_size ∧
      (r.data ≠ none →
        r.ops = table_plan
          (env.read_data_at location (8 * ((table_size + 8191) / 8192))).2 table_size ∧
        r.filled = table_size) ∧
      (∀ op ∈ r.ops, ∃ i, i < (table_size + 8191) / 8192 ∧
        (op = table_op.seek i
            (le64toh_at (env.read_data_at location (8 * ((table_size + 8191) / 8192))).2 i)
            0 ∨
          (op = table_op.read (8192 * i) (min 8192 (table_size - 8192 * i)) ∧
            1 ≤ min 8192 (table_size - 8192 * i) ∧
            8192 * i + min 8192 (table_size - 8192 * i) ≤ table_size))) := by
  have hc : SQFS_META_BLOCK_SIZE = 8192 := rfl
  have hbc : (if table_size % 8192 ≠ 0 then table_size / 8192 + 1 else table_size / 8192) =
      (table_size + 8191) / 8192 := by
    split_ifs <;> omega
  have hls : 8 * ((table_size + 8191) / 8192) % 2 ^ 64 = 8 * ((table_size + 8191) / 8192) := by
    apply Nat.mod_eq_of_lt
    omega
  unfold sqfs_read_table
  simp only [hc, hbc, hls]
  by_cases hr : (env.read_data_at location (8 * ((table_size + 8191) / 8192))).1 = 0
  · rw [if_neg (not_not.mpr hr)]
    cases hm : env.meta_reader_create with
    | none =>
      refine ⟨_, rfl, rfl, List.nil_prefix, fun hd => absurd rfl hd, ?_⟩
      intro op hop
      simp at hop
    | some m =>
      obtain ⟨d, new, filled, r1, r2, r3⟩ := table_loop_plan env
        (env.read_data_at location (8 * ((table_size + 8191) / 8192))).2
        (8 * ((table_size + 8191) / 8192)) table_size ((table_size + 8191) / 8192)
        ((table_size + 8191) / 8192) 0 m (fun _ => 0) []
        (le_refl _) (by omega) (by omega) (by omega)
      simp only [Nat.mul_zero, Nat.sub_zero, List.nil_append] at r1
      rw [← List.range_eq_range'] at r2 r3
      simp only [r1]
      refine ⟨_, rfl, rfl, r2, r3, ?_⟩
      intro op hop
      exact table_plan_mem _ _ op (r2.subset hop)
  · rw [if_pos hr]
    refine ⟨_, rfl, rfl, List.nil_prefix, fun hd => absurd rfl hd, ?_⟩
    intro op hop
    simp at hop

/-- C22, witness: a table of 8200 bytes with the sample collaborators. The
location list has 2 entries (16 bytes); the loop seeks to location 0 (value
100) and reads 8192 bytes to offset 0, then seeks to location 1 (value 101) and
reads the remaining 8 bytes to offset 8192; 8200 bytes are filled, the last
byte of the first block from block 100 and the 8 bytes after it from block 101.
A table of 16384 bytes takes two full reads, an empty table none; when the
first read fails, `NULL` is returned after the first part of the calls. -/
theorem c22_read_table_witness :
    (8200 : Nat) < 2 ^ 64 ∧
    (∃ r : read_table_t,
      sqfs_read_table (sample_table_env 8192) 8200 40 = exec_t.done r ∧
      r.list_size = 8 * ((8200 + 8191) / 8192)) ∧
    table_outcome (sqfs_read_table (sample_table_env 8192) 8200 40) =
      some (true, 16,
        [table_op.seek 0 100 0, table_op.read 0 8192,
         table_op.seek 1 101 0, table_op.read 8192 8], 8200) ∧
    table_plan ((sample_table_env 8192).read_data_at 40 16).2 8200 =
      [table_op.seek 0 100 0, table_op.read 0 8192,
       table_op.seek 1 101 0, table_op.read 8192 8] ∧
    table_byte (sqfs_read_table (sample_table_env 8192) 8200 40) 8191 = some 100 ∧
    table_byte (sqfs_read_table (sample_table_env 8192) 8200 40) 8192 = some 101 ∧
    table_byte (sqfs_read_table (sample_table_env 8192) 8200 40) 8199 = some 101 ∧
    table_outcome (sqfs_read_table (sample_table_env 8192) 16384 40) =
      some (true, 16,
        [table_op.seek 0 100 0, table_op.read 0 8192,
         table_op.seek 1 101 0, table_op.read 8192 8192], 16384) ∧
    table_outcome (sqfs_read_table (sample_table_env 8192) 0 40) = some (true, 0, [], 0) ∧
    table_outcome (sqfs_read_table (sample_table_env 100) 8200 40) =
      some (false, 16, [table_op.seek 0 100 0, table_op.read 0 8192], 0) :=
  ⟨by decide,
   (c22_read_table (sample_table_env 8192) 8200 40 (by decide)).imp
     (fun _ hr => ⟨hr.1, hr.2.1⟩),
   by decide, by decide, by decide, by decide, by decide, by decide, by decide, by decide⟩

end Sqfs
